import Mathlib

/-!
# Teleflix manifest generator

A shallow embedding of `internal/config/config.go`, `internal/k8s/types.go`
and `internal/generator/generator.go`, followed by theorems about
`Generator.GenerateAll` and the functions it calls.

Conventions of the embedding

* Go `string` is `String`, `bool` is `Bool`, `int32` is `Int`, a slice is a
  `List` (the nil slice is `[]`), a pointer field is an `Option`.
* Go `map[string]T` is `GoMap T`, an association list read with `GoMap.get?`
  and written with `GoMap.set`.  The language leaves the order of a `range`
  over a map unspecified, so every `range` over a map takes the order in
  which the keys are visited as an explicit argument (`Schedule`).
* `(T, error)` is `T × Option String`: the second component is `none` for a
  nil error and `some msg` for an error with message `msg`.
  `(map[string]string, error)` is `Option ManifestMap × Option String`,
  where `none` in the first component is the nil map.
* `yaml.Marshal` is an external serialiser.  A manifest text is kept as the
  list of pieces handed to `strings.Join(_, "\n")`: a piece is the
  serialisation of one object (`Piece.yaml`) or the marker `---`
  (`Piece.sep`).  The empty text `""` is the empty list.  Serialisation is
  total (it never returns an error on these plain structs).
-/

namespace Teleflix

/-! ## Go maps -/

/-- Go `map[string]T` as an association list; the first entry of a key is
the one that counts. -/
abbrev GoMap (β : Type) := List (String × β)

namespace GoMap

/-- Read `m[k]` together with the presence flag. -/
def get? {β : Type} (m : GoMap β) (k : String) : Option β :=
  match m with
  | [] => none
  | (k', v) :: rest => if k' = k then some v else get? rest k

/-- Assignment `m[k] = v`: replaces the entry of `k` or adds one. -/
def set {β : Type} (m : GoMap β) (k : String) (v : β) : GoMap β :=
  match m with
  | [] => [(k, v)]
  | (k', v') :: rest => if k' = k then (k, v) :: rest else (k', v') :: set rest k v

/-- The keys of the map, in the order of their entries. -/
def keys {β : Type} (m : GoMap β) : List String :=
  m.map Prod.fst

/-- The entries visited by `for k, v := range m` when the runtime walks the
keys in the order `order`. -/
def range {β : Type} (m : GoMap β) (order : List String) : List (String × β) :=
  order.filterMap (fun k => (m.get? k).map (fun v => (k, v)))

end GoMap

/-! ## `internal/config` -/

structure VolumeConfig where
  Name : String
  MountPath : String
  Size : String := ""
  ReadOnly : Bool := false
deriving DecidableEq, Repr

/-- The anonymous struct with fields `CPU` and `Memory` of `ResourcesConfig`. -/
structure ResourceAmounts where
  CPU : String := ""
  Memory : String := ""
deriving DecidableEq, Repr

structure ResourcesConfig where
  Requests : ResourceAmounts := {}
  Limits : ResourceAmounts := {}
deriving DecidableEq, Repr

structure ServiceConfig where
  Enabled : Bool := false
  Exposed : Bool := false
  Image : String := ""
  Tag : String := ""
  Port : Int := 0
  Resources : ResourcesConfig := {}
  Environment : GoMap String := []
  Volumes : List VolumeConfig := []
deriving DecidableEq, Repr

/-- The anonymous struct `Config.Services`. -/
structure ServicesConfig where
  Jellyfin : ServiceConfig := {}
  Sonarr : ServiceConfig := {}
  Radarr : ServiceConfig := {}
  Jackett : ServiceConfig := {}
  QBittorrent : ServiceConfig := {}
deriving DecidableEq, Repr

/-- The anonymous struct with fields `Size` and `AccessModes` of `StorageConfig`. -/
structure StorageVolume where
  Size : String := ""
  AccessModes : List String := []
deriving DecidableEq, Repr

structure StorageConfig where
  Media : StorageVolume := {}
  Downloads : StorageVolume := {}
deriving DecidableEq, Repr

/-- The anonymous struct `IngressConfig.TLS`. -/
structure TLSConfig where
  Enabled : Bool := false
  SecretName : String := ""
deriving DecidableEq, Repr

structure IngressConfig where
  Enabled : Bool := false
  ClassName : String := ""
  Annotations : GoMap String := []
  TLS : TLSConfig := {}
deriving DecidableEq, Repr

/-- The anonymous struct `CertManagerConfig.Issuer`; the Go field `Type` is
`Type_` here because `Type` is a keyword. -/
structure IssuerConfig where
  Name : String := ""
  Type_ : String := ""
  Email : String := ""
deriving DecidableEq, Repr

structure CertManagerConfig where
  Enabled : Bool := false
  Issuer : IssuerConfig := {}
deriving DecidableEq, Repr

structure Config where
  Namespace : String := ""
  StorageClass : String := ""
  Domain : String := ""
  Services : ServicesConfig := {}
  Storage : StorageConfig := {}
  Ingress : IngressConfig := {}
  CertManager : CertManagerConfig := {}
deriving DecidableEq, Repr

/-- The configuration built by `getDefaultConfig`. -/
def getDefaultConfig : Config :=
  { Namespace := "teleflix"
    StorageClass := "default"
    Domain := "teleflix.local"
    Services :=
      { Jellyfin :=
          { Enabled := true
            Exposed := true
            Image := "jellyfin/jellyfin"
            Tag := "latest"
            Port := 8096
            Resources :=
              { Requests := { CPU := "500m", Memory := "512Mi" }
                Limits := { CPU := "2", Memory := "2Gi" } }
            Volumes :=
              [ { Name := "media", MountPath := "/media", ReadOnly := true },
                { Name := "config", MountPath := "/config", Size := "1Gi" } ] }
        Sonarr :=
          { Enabled := true
            Exposed := false
            Image := "linuxserver/sonarr"
            Tag := "latest"
            Port := 8989
            Resources :=
              { Requests := { CPU := "100m", Memory := "256Mi" }
                Limits := { CPU := "500m", Memory := "512Mi" } }
            Environment := [("PUID", "1000"), ("PGID", "1000"), ("TZ", "Europe/Paris")]
            Volumes :=
              [ { Name := "config", MountPath := "/config", Size := "1Gi" },
                { Name := "downloads", MountPath := "/downloads" },
                { Name := "media", MountPath := "/tv" } ] }
        Radarr :=
          { Enabled := true
            Exposed := false
            Image := "linuxserver/radarr"
            Tag := "latest"
            Port := 7878
            Resources :=
              { Requests := { CPU := "100m", Memory := "256Mi" }
                Limits := { CPU := "500m", Memory := "512Mi" } }
            Environment := [("PUID", "1000"), ("PGID", "1000"), ("TZ", "Europe/Paris")]
            Volumes :=
              [ { Name := "config", MountPath := "/config", Size := "1Gi" },
                { Name := "downloads", MountPath := "/downloads" },
                { Name := "media", MountPath := "/movies" } ] }
        Jackett :=
          { Enabled := true
            Exposed := false
            Image := "linuxserver/jackett"
            Tag := "latest"
            Port := 9117
            Resources :=
              { Requests := { CPU := "100m", Memory := "128Mi" }
                Limits := { CPU := "200m", Memory := "256Mi" } }
            Environment := [("PUID", "1000"), ("PGID", "1000"), ("TZ", "Europe/Paris")]
            Volumes := [ { Name := "config", MountPath := "/config", Size := "500Mi" } ] }
        QBittorrent :=
          { Enabled := true
            Exposed := false
            Image := "linuxserver/qbittorrent"
            Tag := "latest"
            Port := 8080
            Resources :=
              { Requests := { CPU := "200m", Memory := "512Mi" }
                Limits := { CPU := "1", Memory := "1Gi" } }
            Environment :=
              [("PUID", "1000"), ("PGID", "1000"), ("TZ", "Europe/Paris"), ("WEBUI_PORT", "8080")]
            Volumes :=
              [ { Name := "config", MountPath := "/config", Size := "1Gi" },
                { Name := "downloads", MountPath := "/downloads" } ] } }
    Storage :=
      { Media := { Size := "100Gi", AccessModes := ["ReadWriteMany"] }
        Downloads := { Size := "50Gi", AccessModes := ["ReadWriteOnce"] } }
    Ingress :=
      { Enabled := true
        ClassName := "traefik"
        Annotations := [("nginx.ingress.kubernetes.io/rewrite-target", "/")]
        TLS := { Enabled := false, SecretName := "teleflix-tls" } }
    CertManager :=
      { Enabled := false
        Issuer := { Name := "teleflix-issuer", Type_ := "letsencrypt", Email := "" } } }

/-! ## `internal/k8s` -/

namespace k8s

structure TypeMeta where
  APIVersion : String
  Kind : String
deriving DecidableEq, Repr

structure ObjectMeta where
  Name : String := ""
  Namespace : String := ""
  Labels : GoMap String := []
  Annotations : GoMap String := []
deriving DecidableEq, Repr

structure Namespace where
  TypeMeta : TypeMeta
  ObjectMeta : ObjectMeta
deriving DecidableEq, Repr

structure ResourceRequirements where
  Requests : GoMap String := []
  Limits : GoMap String := []
deriving DecidableEq, Repr

structure PersistentVolumeClaimSpec where
  AccessModes : List String
  Resources : ResourceRequirements
  StorageClassName : Option String
deriving DecidableEq, Repr

structure PersistentVolumeClaim where
  TypeMeta : TypeMeta
  ObjectMeta : ObjectMeta
  Spec : PersistentVolumeClaimSpec
deriving DecidableEq, Repr

structure LabelSelector where
  MatchLabels : GoMap String := []
deriving DecidableEq, Repr

structure ContainerPort where
  ContainerPort : Int
  Protocol : String := ""
deriving DecidableEq, Repr

structure EnvVar where
  Name : String
  Value : String
deriving DecidableEq, Repr

structure VolumeMount where
  Name : String
  MountPath : String
  ReadOnly : Bool := false
deriving DecidableEq, Repr

structure PersistentVolumeClaimVolumeSource where
  ClaimName : String
deriving DecidableEq, Repr

structure VolumeSource where
  PersistentVolumeClaim : Option PersistentVolumeClaimVolumeSource := none
deriving DecidableEq, Repr

structure Volume where
  Name : String
  VolumeSource : VolumeSource
deriving DecidableEq, Repr

structure Container where
  Name : String
  Image : String
  Ports : List ContainerPort := []
  Env : List EnvVar := []
  VolumeMounts : List VolumeMount := []
  Resources : ResourceRequirements := {}
deriving DecidableEq, Repr

structure PodSpec where
  Containers : List Container
  Volumes : List Volume := []
deriving DecidableEq, Repr

structure PodTemplateSpec where
  ObjectMeta : ObjectMeta
  Spec : PodSpec
deriving DecidableEq, Repr

structure DeploymentSpec where
  Replicas : Option Int := none
  Selector : Option LabelSelector
  Template : PodTemplateSpec
deriving DecidableEq, Repr

structure Deployment where
  TypeMeta : TypeMeta
  ObjectMeta : ObjectMeta
  Spec : DeploymentSpec
deriving DecidableEq, Repr

structure ServicePort where
  Port : Int
  TargetPort : Int
  Protocol : String := ""
deriving DecidableEq, Repr

structure ServiceSpec where
  Selector : GoMap String
  Ports : List ServicePort
deriving DecidableEq, Repr

structure Service where
  TypeMeta : TypeMeta
  ObjectMeta : ObjectMeta
  Spec : ServiceSpec
deriving DecidableEq, Repr

structure IngressTLS where
  Hosts : List String
  SecretName : String
deriving DecidableEq, Repr

structure ServiceBackendPort where
  Number : Int
deriving DecidableEq, Repr

structure IngressServiceBackend where
  Name : String
  Port : ServiceBackendPort
deriving DecidableEq, Repr

structure IngressBackend where
  Service : Option IngressServiceBackend := none
deriving DecidableEq, Repr

structure HTTPIngressPath where
  Path : String
  PathType : Option String := none
  Backend : IngressBackend
deriving DecidableEq, Repr

structure HTTPIngressRuleValue where
  Paths : List HTTPIngressPath
deriving DecidableEq, Repr

structure IngressRuleValue where
  HTTP : Option HTTPIngressRuleValue := none
deriving DecidableEq, Repr

structure IngressRule where
  Host : String
  IngressRuleValue : IngressRuleValue
deriving DecidableEq, Repr

structure IngressSpec where
  IngressClassName : Option String := none
  TLS : List IngressTLS := []
  Rules : List IngressRule
deriving DecidableEq, Repr

structure Ingress where
  TypeMeta : TypeMeta
  ObjectMeta : ObjectMeta
  Spec : IngressSpec
deriving DecidableEq, Repr

structure SecretKeyRef where
  Name : String
deriving DecidableEq, Repr

structure HTTP01IngressSolver where
  Class : String := ""
deriving DecidableEq, Repr

structure HTTP01Solver where
  Ingress : Option HTTP01IngressSolver := none
deriving DecidableEq, Repr

structure ACMESolver where
  HTTP01 : Option HTTP01Solver := none
deriving DecidableEq, Repr

structure ACMEIssuer where
  Server : String
  Email : String
  PrivateKeySecretRef : SecretKeyRef
  Solvers : List ACMESolver
deriving DecidableEq, Repr

structure SelfSignedIssuer where
deriving DecidableEq, Repr

structure ClusterIssuerSpec where
  ACME : Option ACMEIssuer := none
  SelfSigned : Option SelfSignedIssuer := none
deriving DecidableEq, Repr

structure ClusterIssuer where
  TypeMeta : TypeMeta
  ObjectMeta : ObjectMeta
  Spec : ClusterIssuerSpec
deriving DecidableEq, Repr

structure IssuerRef where
  Name : String
  Kind : String
deriving DecidableEq, Repr

structure CertificateSpec where
  SecretName : String
  IssuerRef : IssuerRef
  DNSNames : List String
deriving DecidableEq, Repr

structure Certificate where
  TypeMeta : TypeMeta
  ObjectMeta : ObjectMeta
  Spec : CertificateSpec
deriving DecidableEq, Repr

end k8s

/-! ## `internal/generator` -/

/-- An object handed to `yaml.Marshal`. -/
inductive Object where
  | ns (o : k8s.Namespace)
  | pvc (o : k8s.PersistentVolumeClaim)
  | deployment (o : k8s.Deployment)
  | service (o : k8s.Service)
  | ingress (o : k8s.Ingress)
  | clusterIssuer (o : k8s.ClusterIssuer)
  | certificate (o : k8s.Certificate)
deriving DecidableEq, Repr

/-- One element of the slice given to `strings.Join(_, "\n")`: the text
`string(data)` of a marshalled object, or the marker `---`. -/
inductive Piece where
  | yaml (o : Object)
  | sep
deriving DecidableEq, Repr

/-- A manifest text, as the pieces joined by newlines; `""` is `[]`. -/
abbrev Manifest := List Piece

/-- The value of type `map[string]string` returned by `GenerateAll`. -/
abbrev ManifestMap := GoMap Manifest

/-- The orders in which one run of `GenerateAll` visits the keys of the maps
it ranges over: the `services` map of `generateCertManager`, the `services`
map of `generateIngress`, `Ingress.Annotations`, and the `Environment` map of
each service (by service name). -/
structure Schedule where
  certServices : List String
  ingressServices : List String
  annotations : List String
  environment : String → List String

/-- The slice `services` of `GenerateAll`. -/
def services (c : Config) : List (String × ServiceConfig) :=
  [ ("jellyfin", c.Services.Jellyfin),
    ("sonarr", c.Services.Sonarr),
    ("radarr", c.Services.Radarr),
    ("jackett", c.Services.Jackett),
    ("qbittorrent", c.Services.QBittorrent) ]

/-- The map literal `services` of `generateCertManager` and `generateIngress`. -/
def otherServices (c : Config) : GoMap ServiceConfig :=
  [ ("sonarr", c.Services.Sonarr),
    ("radarr", c.Services.Radarr),
    ("jackett", c.Services.Jackett),
    ("qbittorrent", c.Services.QBittorrent) ]

/-- A schedule is valid for a configuration when each order is an
enumeration, without repetition, of the keys of the map it belongs to. -/
def Schedule.Valid (c : Config) (s : Schedule) : Prop :=
  s.certServices.Perm (otherServices c).keys ∧
  s.ingressServices.Perm (otherServices c).keys ∧
  s.annotations.Perm c.Ingress.Annotations.keys.dedup ∧
  ∀ p ∈ services c, (s.environment p.1).Perm p.2.Environment.keys.dedup

/-- The schedule that visits every map in the order of its entries. -/
def Schedule.canonical (c : Config) : Schedule :=
  { certServices := (otherServices c).keys
    ingressServices := (otherServices c).keys
    annotations := c.Ingress.Annotations.keys.dedup
    environment := fun name =>
      match GoMap.get? (services c) name with
      | some cfg => cfg.Environment.keys.dedup
      | none => [] }

/-- The verb `%02d` of `fmt.Sprintf` on a non-negative integer. -/
def sprintf02d (n : Nat) : String :=
  if n < 10 then "0" ++ toString n else toString n

def generateNamespace (c : Config) : Manifest :=
  let ns : k8s.Namespace :=
    { TypeMeta := { APIVersion := "v1", Kind := "Namespace" }
      ObjectMeta := { Name := c.Namespace } }
  [Piece.yaml (Object.ns ns)]

def generatePVCs (c : Config) : Manifest × Option String :=
  let manifests : List Piece := []
  let mediaPVC : k8s.PersistentVolumeClaim :=
    { TypeMeta := { APIVersion := "v1", Kind := "PersistentVolumeClaim" }
      ObjectMeta := { Name := "media-pvc", Namespace := c.Namespace }
      Spec :=
        { AccessModes := c.Storage.Media.AccessModes
          Resources := { Requests := [("storage", c.Storage.Media.Size)] }
          StorageClassName := some c.StorageClass } }
  let downloadsPVC : k8s.PersistentVolumeClaim :=
    { TypeMeta := { APIVersion := "v1", Kind := "PersistentVolumeClaim" }
      ObjectMeta := { Name := "downloads-pvc", Namespace := c.Namespace }
      Spec :=
        { AccessModes := c.Storage.Downloads.AccessModes
          Resources := { Requests := [("storage", c.Storage.Downloads.Size)] }
          StorageClassName := some c.StorageClass } }
  let manifests :=
    manifests ++ [Piece.yaml (Object.pvc mediaPVC), Piece.sep, Piece.yaml (Object.pvc downloadsPVC)]
  (manifests, none)

/-- The ClusterIssuer built for issuer type `letsencrypt` (lines 164-190). -/
def acmeClusterIssuer (c : Config) : k8s.ClusterIssuer :=
  { TypeMeta := { APIVersion := "cert-manager.io/v1", Kind := "ClusterIssuer" }
    ObjectMeta := { Name := c.CertManager.Issuer.Name }
    Spec :=
      { ACME := some
          { Server := "https://acme-v02.api.letsencrypt.org/directory"
            Email := c.CertManager.Issuer.Email
            PrivateKeySecretRef := { Name := c.CertManager.Issuer.Name ++ "-key" }
            Solvers := [ { HTTP01 := some { Ingress := some { Class := c.Ingress.ClassName } } } ] } } }

/-- The ClusterIssuer built for issuer type `selfsigned` (lines 192-203). -/
def selfSignedClusterIssuer (c : Config) : k8s.ClusterIssuer :=
  { TypeMeta := { APIVersion := "cert-manager.io/v1", Kind := "ClusterIssuer" }
    ObjectMeta := { Name := c.CertManager.Issuer.Name }
    Spec := { SelfSigned := some {} } }

/-- The slice `dnsNames` of `generateCertManager` (lines 216-235), for the
order `order` of the `range` over the `services` map. -/
def certDNSNames (c : Config) (order : List String) : List String :=
  let dnsNames : List String := []
  let dnsNames :=
    if c.Services.Jellyfin.Enabled && c.Services.Jellyfin.Exposed then
      dnsNames ++ ["jellyfin." ++ c.Domain]
    else dnsNames
  ((otherServices c).range order).foldl
    (fun dnsNames kv =>
      if kv.2.Enabled && kv.2.Exposed then dnsNames ++ [kv.1 ++ "." ++ c.Domain] else dnsNames)
    dnsNames

/-- The Certificate of `generateCertManager` (lines 239-256). -/
def teleflixCertificate (c : Config) (dnsNames : List String) : k8s.Certificate :=
  { TypeMeta := { APIVersion := "cert-manager.io/v1", Kind := "Certificate" }
    ObjectMeta := { Name := "teleflix-certificate", Namespace := c.Namespace }
    Spec :=
      { SecretName := c.Ingress.TLS.SecretName
        IssuerRef := { Name := c.CertManager.Issuer.Name, Kind := "ClusterIssuer" }
        DNSNames := dnsNames } }

/-- The part of `generateCertManager` after the ClusterIssuer has been
chosen (lines 208-266). -/
def certManagerDocuments (c : Config) (order : List String)
    (clusterIssuer : k8s.ClusterIssuer) : Manifest × Option String :=
  let manifests : List Piece := []
  let manifests := manifests ++ [Piece.yaml (Object.clusterIssuer clusterIssuer)]
  let manifests :=
    if c.Ingress.TLS.Enabled then
      let dnsNames := certDNSNames c order
      if dnsNames.length > 0 then
        manifests ++ [Piece.sep, Piece.yaml (Object.certificate (teleflixCertificate c dnsNames))]
      else manifests
    else manifests
  (manifests, none)

def generateCertManager (c : Config) (order : List String) : Manifest × Option String :=
  if c.CertManager.Issuer.Type_ = "letsencrypt" then
    if c.CertManager.Issuer.Email = "" then
      ([], some "email requis pour Let's Encrypt")
    else
      certManagerDocuments c order (acmeClusterIssuer c)
  else if c.CertManager.Issuer.Type_ = "selfsigned" then
    certManagerDocuments c order (selfSignedClusterIssuer c)
  else
    ([], some ("type d'issuer non supporté: " ++ c.CertManager.Issuer.Type_))

/-- The name of the claim of a volume, as `createDeployment` determines it
(lines 340-347). -/
def pvcName (name : String) (vol : VolumeConfig) : String :=
  if vol.Name = "media" then "media-pvc"
  else if vol.Name = "downloads" then "downloads-pvc"
  else name ++ "-" ++ vol.Name ++ "-pvc"

def createDeployment (c : Config) (name : String) (cfg : ServiceConfig)
    (envOrder : List String) : k8s.Deployment :=
  let labels : GoMap String := [("app", name), ("component", "teleflix")]
  let envVars : List k8s.EnvVar :=
    (cfg.Environment.range envOrder).foldl
      (fun envVars kv => envVars ++ [{ Name := kv.1, Value := kv.2 }]) []
  let vv : List k8s.Volume × List k8s.VolumeMount :=
    cfg.Volumes.foldl
      (fun acc vol =>
        let volumeMounts := acc.2 ++
          [{ Name := vol.Name, MountPath := vol.MountPath, ReadOnly := vol.ReadOnly }]
        let volumes := acc.1 ++
          [{ Name := vol.Name
             VolumeSource := { PersistentVolumeClaim := some { ClaimName := pvcName name vol } } }]
        (volumes, volumeMounts))
      ([], [])
  let volumes := vv.1
  let volumeMounts := vv.2
  { TypeMeta := { APIVersion := "apps/v1", Kind := "Deployment" }
    ObjectMeta := { Name := name, Namespace := c.Namespace, Labels := labels }
    Spec :=
      { Replicas := some 1
        Selector := some { MatchLabels := labels }
        Template :=
          { ObjectMeta := { Labels := labels }
            Spec :=
              { Containers :=
                  [ { Name := name
                      Image := cfg.Image ++ ":" ++ cfg.Tag
                      Ports := [ { ContainerPort := cfg.Port, Protocol := "TCP" } ]
                      Env := envVars
                      VolumeMounts := volumeMounts
                      Resources :=
                        { Requests :=
                            [("cpu", cfg.Resources.Requests.CPU),
                             ("memory", cfg.Resources.Requests.Memory)]
                          Limits :=
                            [("cpu", cfg.Resources.Limits.CPU),
                             ("memory", cfg.Resources.Limits.Memory)] } } ]
                Volumes := volumes } } } }

def createService (c : Config) (name : String) (cfg : ServiceConfig) : k8s.Service :=
  let labels : GoMap String := [("app", name), ("component", "teleflix")]
  { TypeMeta := { APIVersion := "v1", Kind := "Service" }
    ObjectMeta := { Name := name, Namespace := c.Namespace, Labels := labels }
    Spec :=
      { Selector := labels
        Ports := [ { Port := cfg.Port, TargetPort := cfg.Port, Protocol := "TCP" } ] } }

/-- The claim that `generateService` builds for a sized volume (lines 275-293). -/
def servicePVC (c : Config) (name : String) (vol : VolumeConfig) : k8s.PersistentVolumeClaim :=
  { TypeMeta := { APIVersion := "v1", Kind := "PersistentVolumeClaim" }
    ObjectMeta := { Name := name ++ "-" ++ vol.Name ++ "-pvc", Namespace := c.Namespace }
    Spec :=
      { AccessModes := ["ReadWriteOnce"]
        Resources := { Requests := [("storage", vol.Size)] }
        StorageClassName := some c.StorageClass } }

def generateService (c : Config) (name : String) (cfg : ServiceConfig)
    (envOrder : List String) : Manifest × Option String :=
  let manifests : List Piece := []
  let manifests :=
    cfg.Volumes.foldl
      (fun manifests vol =>
        if vol.Size ≠ "" then
          manifests ++ [Piece.yaml (Object.pvc (servicePVC c name vol)), Piece.sep]
        else manifests)
      manifests
  let deployment := createDeployment c name cfg envOrder
  let manifests := manifests ++ [Piece.yaml (Object.deployment deployment), Piece.sep]
  let service := createService c name cfg
  let manifests := manifests ++ [Piece.yaml (Object.service service)]
  (manifests, none)

/-- The rule that `generateIngress` builds for one service (lines 444-464
and 477-497). -/
def ingressRule (c : Config) (serviceName : String) (port : Int) : k8s.IngressRule :=
  { Host := serviceName ++ "." ++ c.Domain
    IngressRuleValue :=
      { HTTP := some
          { Paths :=
              [ { Path := "/"
                  PathType := some "Prefix"
                  Backend :=
                    { Service := some { Name := serviceName, Port := { Number := port } } } } ] } } }

/-- The slice `rules` of `generateIngress` (lines 440-499), for the order
`order` of the `range` over the `services` map. -/
def ingressRules (c : Config) (order : List String) : List k8s.IngressRule :=
  let rules : List k8s.IngressRule := []
  let rules :=
    if c.Services.Jellyfin.Enabled && c.Services.Jellyfin.Exposed then
      rules ++
        [ { Host := "jellyfin." ++ c.Domain
            IngressRuleValue :=
              { HTTP := some
                  { Paths :=
                      [ { Path := "/"
                          PathType := some "Prefix"
                          Backend :=
                            { Service := some
                                { Name := "jellyfin"
                                  Port := { Number := c.Services.Jellyfin.Port } } } } ] } } } ]
    else rules
  ((otherServices c).range order).foldl
    (fun rules kv =>
      if kv.2.Enabled && kv.2.Exposed then rules ++ [ingressRule c kv.1 kv.2.Port] else rules)
    rules

/-- The guarded assignment `if _, exists := m[k]; !exists { m[k] = v }`. -/
def setIfAbsent (m : GoMap String) (k v : String) : GoMap String :=
  match m.get? k with
  | some _ => m
  | none => m.set k v

/-- The map `annotations` of `generateIngress` (lines 507-529). -/
def ingressAnnotations (c : Config) (order : List String) : GoMap String :=
  let annotations : GoMap String := []
  let annotations :=
    (c.Ingress.Annotations.range order).foldl (fun a kv => a.set kv.1 kv.2) annotations
  if c.Ingress.TLS.Enabled && c.CertManager.Enabled then
    if c.Ingress.ClassName = "traefik" then
      setIfAbsent annotations "traefik.ingress.kubernetes.io/redirect-to-https" "true"
    else if c.Ingress.ClassName = "nginx" then
      let annotations :=
        setIfAbsent annotations "nginx.ingress.kubernetes.io/ssl-redirect" "true"
      setIfAbsent annotations "nginx.ingress.kubernetes.io/force-ssl-redirect" "true"
    else annotations
  else annotations

def generateIngress (c : Config) (s : Schedule) : Manifest × Option String :=
  let rules := ingressRules c s.ingressServices
  if rules.length = 0 then
    ([], none)
  else
    let annotations := ingressAnnotations c s.annotations
    let ingress : k8s.Ingress :=
      { TypeMeta := { APIVersion := "networking.k8s.io/v1", Kind := "Ingress" }
        ObjectMeta :=
          { Name := "teleflix-ingress", Namespace := c.Namespace, Annotations := annotations }
        Spec := { IngressClassName := some c.Ingress.ClassName, Rules := rules } }
    let ingress : k8s.Ingress :=
      if c.Ingress.TLS.Enabled then
        let hosts : List String := rules.foldl (fun hosts rule => hosts ++ [rule.Host]) []
        { ingress with
          Spec :=
            { ingress.Spec with
              TLS := [ { Hosts := hosts, SecretName := c.Ingress.TLS.SecretName } ] } }
      else ingress
    ([Piece.yaml (Object.ingress ingress)], none)

/-- The loop over `services` of `GenerateAll` (lines 56-68), from the state
`(manifests, serviceIndex)`; an error ends the loop. -/
def serviceLoop (c : Config) (s : Schedule) :
    List (String × ServiceConfig) → ManifestMap → Nat → ManifestMap × Option String
  | [], manifests, _ => (manifests, none)
  | svc :: rest, manifests, serviceIndex =>
    if !svc.2.Enabled then
      serviceLoop c s rest manifests serviceIndex
    else
      match generateService c svc.1 svc.2 (s.environment svc.1) with
      | (_, some err) => (manifests, some err)
      | (manifest, none) =>
        serviceLoop c s rest
          (manifests.set (sprintf02d serviceIndex ++ "-" ++ svc.1) manifest)
          (serviceIndex + 1)

def GenerateAll (c : Config) (s : Schedule) : Option ManifestMap × Option String :=
  let manifests : ManifestMap := []
  let ns := generateNamespace c
  let manifests := manifests.set "00-namespace" ns
  match generatePVCs c with
  | (_, some err) => (none, some err)
  | (pvcManifests, none) =>
    let manifests := manifests.set "01-storage" pvcManifests
    let afterCert : ManifestMap × Option String :=
      if c.CertManager.Enabled then
        match generateCertManager c s.certServices with
        | (_, some err) => (manifests, some err)
        | (certManagerManifests, none) =>
          (manifests.set "02-cert-manager" certManagerManifests, none)
      else (manifests, none)
    match afterCert with
    | (_, some err) => (none, some err)
    | (manifests, none) =>
      match serviceLoop c s (services c) manifests 3 with
      | (_, some err) => (none, some err)
      | (manifests, none) =>
        if c.Ingress.Enabled then
          match generateIngress c s with
          | (_, some err) => (none, some err)
          | (ingress, none) =>
            if ingress ≠ [] then
              (some (manifests.set "99-ingress" ingress), none)
            else (some manifests, none)
        else (some manifests, none)

/-! ## Reading the output -/

/-- The objects serialised in a manifest, in order. -/
def objectsOf (m : Manifest) : List Object :=
  m.filterMap (fun p => match p with
    | Piece.yaml o => some o
    | Piece.sep => none)

/-- Every object of every manifest of the output. -/
def emittedObjects (out : ManifestMap) : List Object :=
  (out.map (fun kv => objectsOf kv.2)).flatten

def certificatesOf (os : List Object) : List k8s.Certificate :=
  os.filterMap (fun o => match o with
    | Object.certificate x => some x
    | _ => none)

def ingressesOf (os : List Object) : List k8s.Ingress :=
  os.filterMap (fun o => match o with
    | Object.ingress x => some x
    | _ => none)

def claimsOf (os : List Object) : List k8s.PersistentVolumeClaim :=
  os.filterMap (fun o => match o with
    | Object.pvc x => some x
    | _ => none)

def deploymentsOf (os : List Object) : List k8s.Deployment :=
  os.filterMap (fun o => match o with
    | Object.deployment x => some x
    | _ => none)

/-- The claim names that the volumes of a Deployment refer to. -/
def referencedClaims (d : k8s.Deployment) : List String :=
  d.Spec.Template.Spec.Volumes.filterMap
    (fun v => v.VolumeSource.PersistentVolumeClaim.map (fun p => p.ClaimName))

/-- The hosts of the rules of an Ingress, in order. -/
def ruleHosts (i : k8s.Ingress) : List String :=
  i.Spec.Rules.map (fun r => r.Host)

/-- The hostnames `<service>.<Domain>` of the services that are both enabled
and exposed, in the order of the slice `services`. -/
def exposedHosts (c : Config) : List String :=
  ((services c).filter (fun p => p.2.Enabled && p.2.Exposed)).map
    (fun p => p.1 ++ "." ++ c.Domain)

/-- The Ingress object that `generateIngress` serialises when the rules are
not empty (lines 531-560), with the hosts of the TLS entry read off the rules. -/
def builtIngress (c : Config) (s : Schedule) : k8s.Ingress :=
  { TypeMeta := { APIVersion := "networking.k8s.io/v1", Kind := "Ingress" }
    ObjectMeta :=
      { Name := "teleflix-ingress", Namespace := c.Namespace,
        Annotations := ingressAnnotations c s.annotations }
    Spec :=
      { IngressClassName := some c.Ingress.ClassName
        TLS :=
          if c.Ingress.TLS.Enabled then
            [ { Hosts := (ingressRules c s.ingressServices).map (fun r => r.Host)
                SecretName := c.Ingress.TLS.SecretName } ]
          else []
        Rules := ingressRules c s.ingressServices } }

/-- The ClusterIssuer that `generateCertManager` chooses when it succeeds. -/
def chosenClusterIssuer (c : Config) : k8s.ClusterIssuer :=
  if c.CertManager.Issuer.Type_ = "letsencrypt" then acmeClusterIssuer c
  else selfSignedClusterIssuer c

/-- The entries that the loop over `services` adds, from index `serviceIndex`:
one per enabled service, numbered consecutively. -/
def serviceEntries (c : Config) (s : Schedule) :
    List (String × ServiceConfig) → Nat → ManifestMap
  | [], _ => []
  | svc :: rest, serviceIndex =>
    if svc.2.Enabled then
      (sprintf02d serviceIndex ++ "-" ++ svc.1,
        (generateService c svc.1 svc.2 (s.environment svc.1)).1) ::
        serviceEntries c s rest (serviceIndex + 1)
    else serviceEntries c s rest serviceIndex

/-- The mapping that a successful run returns, entry by entry. -/
def expectedOutput (c : Config) (s : Schedule) : ManifestMap :=
  [("00-namespace", generateNamespace c), ("01-storage", (generatePVCs c).1)] ++
  (if c.CertManager.Enabled then
    [("02-cert-manager", (generateCertManager c s.certServices).1)] else []) ++
  serviceEntries c s (services c) 3 ++
  (if c.Ingress.Enabled && decide ((generateIngress c s).1 ≠ []) then
    [("99-ingress", (generateIngress c s).1)] else [])

/-! ## Example configurations -/

/-- The default configuration with cert-manager switched on and the issuer
left as it is: type `letsencrypt`, no email. -/
def configNoEmail : Config :=
  { getDefaultConfig with
    CertManager := { getDefaultConfig.CertManager with Enabled := true } }

/-- The default configuration with cert-manager switched on and an issuer
type that the generator does not know. -/
def configVaultIssuer : Config :=
  { getDefaultConfig with
    CertManager :=
      { Enabled := true, Issuer := { Name := "teleflix-issuer", Type_ := "vault" } } }

/-- The default configuration with a self-signed issuer, TLS on the ingress,
and Sonarr exposed next to Jellyfin. -/
def configTLS : Config :=
  { getDefaultConfig with
    Services :=
      { getDefaultConfig.Services with
        Sonarr := { getDefaultConfig.Services.Sonarr with Exposed := true } }
    Ingress :=
      { getDefaultConfig.Ingress with TLS := { Enabled := true, SecretName := "teleflix-tls" } }
    CertManager :=
      { Enabled := true, Issuer := { Name := "teleflix-issuer", Type_ := "selfsigned" } } }

/-- As `configTLS`, with the ingress itself switched off. -/
def configCertWithoutIngress : Config :=
  { configTLS with Ingress := { configTLS.Ingress with Enabled := false } }

/-- As `configTLS`, with cert-manager switched off. -/
def configTLSWithoutCertManager : Config :=
  { configTLS with CertManager := getDefaultConfig.CertManager }

/-- The default configuration where Jellyfin mounts one more volume,
`cache`, that has no size. -/
def configUnsizedVolume : Config :=
  { getDefaultConfig with
    Services :=
      { getDefaultConfig.Services with
        Jellyfin :=
          { getDefaultConfig.Services.Jellyfin with
            Volumes :=
              [ { Name := "media", MountPath := "/media", ReadOnly := true },
                { Name := "config", MountPath := "/config", Size := "1Gi" },
                { Name := "cache", MountPath := "/cache" } ] } } }

/-! ## Comparing two runs -/

def clusterIssuersOf (os : List Object) : List k8s.ClusterIssuer :=
  os.filterMap (fun o => match o with
    | Object.clusterIssuer x => some x
    | _ => none)

/-- Two Go maps are the same map: every key reads the same in both.  (The
order of the entries of the association list is not part of a Go map.) -/
def GoMap.Equiv {β : Type} (a b : GoMap β) : Prop :=
  ∀ k, a.get? k = b.get? k

/-- The same TLS entry up to the order of the hosts. -/
def sameIngressTLS (a b : k8s.IngressTLS) : Prop :=
  a.Hosts.Perm b.Hosts ∧ a.SecretName = b.SecretName

/-- The same Ingress: every field equal, the annotations equal as maps, the
rule list and the host list of each TLS entry equal up to order. -/
def sameIngress (a b : k8s.Ingress) : Prop :=
  a.TypeMeta = b.TypeMeta ∧
  a.ObjectMeta.Name = b.ObjectMeta.Name ∧
  a.ObjectMeta.Namespace = b.ObjectMeta.Namespace ∧
  a.ObjectMeta.Labels = b.ObjectMeta.Labels ∧
  GoMap.Equiv a.ObjectMeta.Annotations b.ObjectMeta.Annotations ∧
  a.Spec.IngressClassName = b.Spec.IngressClassName ∧
  List.Forall₂ sameIngressTLS a.Spec.TLS b.Spec.TLS ∧
  a.Spec.Rules.Perm b.Spec.Rules

/-- The same Certificate: every field equal, the DNS names equal up to order. -/
def sameCertificate (a b : k8s.Certificate) : Prop :=
  a.TypeMeta = b.TypeMeta ∧
  a.ObjectMeta = b.ObjectMeta ∧
  a.Spec.SecretName = b.Spec.SecretName ∧
  a.Spec.IssuerRef = b.Spec.IssuerRef ∧
  a.Spec.DNSNames.Perm b.Spec.DNSNames

/-- The same container: every field equal, the env list equal up to order. -/
def sameContainer (a b : k8s.Container) : Prop :=
  a.Name = b.Name ∧
  a.Image = b.Image ∧
  a.Ports = b.Ports ∧
  a.Env.Perm b.Env ∧
  a.VolumeMounts = b.VolumeMounts ∧
  a.Resources = b.Resources

/-- The same Deployment: every field equal, the containers pairwise the same. -/
def sameDeployment (a b : k8s.Deployment) : Prop :=
  a.TypeMeta = b.TypeMeta ∧
  a.ObjectMeta = b.ObjectMeta ∧
  a.Spec.Replicas = b.Spec.Replicas ∧
  a.Spec.Selector = b.Spec.Selector ∧
  a.Spec.Template.ObjectMeta = b.Spec.Template.ObjectMeta ∧
  List.Forall₂ sameContainer a.Spec.Template.Spec.Containers b.Spec.Template.Spec.Containers ∧
  a.Spec.Template.Spec.Volumes = b.Spec.Template.Spec.Volumes

/-- The same object: of the same kind and the same in the sense of that
kind; kinds without order-dependent fields are compared with equality. -/
def sameObject : Object → Object → Prop
  | Object.ingress a, Object.ingress b => sameIngress a b
  | Object.certificate a, Object.certificate b => sameCertificate a b
  | Object.deployment a, Object.deployment b => sameDeployment a b
  | a, b => a = b

def samePiece : Piece → Piece → Prop
  | Piece.yaml a, Piece.yaml b => sameObject a b
  | Piece.sep, Piece.sep => True
  | _, _ => False

/-- The same manifest: the same pieces, in the same order. -/
def sameManifest (a b : Manifest) : Prop :=
  List.Forall₂ samePiece a b

/-- The schedule that visits every map in the reverse of the order of its
entries. -/
def Schedule.reversed (c : Config) : Schedule :=
  { certServices := (Schedule.canonical c).certServices.reverse
    ingressServices := (Schedule.canonical c).ingressServices.reverse
    annotations := (Schedule.canonical c).annotations.reverse
    environment := fun name => ((Schedule.canonical c).environment name).reverse }

/-- The default configuration with cert-manager (self-signed), ingress TLS
and the class `nginx`, where the user has set one of the redirect
annotations to `false`. -/
def configNginxTLS : Config :=
  { configTLS with
    Ingress :=
      { Enabled := true
        ClassName := "nginx"
        Annotations :=
          [("nginx.ingress.kubernetes.io/rewrite-target", "/"),
           ("nginx.ingress.kubernetes.io/ssl-redirect", "false")]
        TLS := { Enabled := true, SecretName := "teleflix-tls" } } }

/-- As `configTLS`, with a Let's Encrypt issuer that has a contact email. -/
def configLetsEncrypt : Config :=
  { configTLS with
    CertManager :=
      { Enabled := true
        Issuer :=
          { Name := "teleflix-issuer", Type_ := "letsencrypt",
            Email := "admin@teleflix.local" } } }

/-- As `configTLS`, with all five services exposed. -/
def configAllExposed : Config :=
  { configTLS with
    Services :=
      { Jellyfin := configTLS.Services.Jellyfin
        Sonarr := { configTLS.Services.Sonarr with Exposed := true }
        Radarr := { configTLS.Services.Radarr with Exposed := true }
        Jackett := { configTLS.Services.Jackett with Exposed := true }
        QBittorrent := { configTLS.Services.QBittorrent with Exposed := true } } }

/-! ## Reading names and namespaces -/

def servicesOf (os : List Object) : List k8s.Service :=
  os.filterMap (fun o => match o with
    | Object.service x => some x
    | _ => none)

def namespacesOf (os : List Object) : List k8s.Namespace :=
  os.filterMap (fun o => match o with
    | Object.ns x => some x
    | _ => none)

/-- The field `metadata.namespace` of an object. -/
def objectNamespace : Object → String
  | Object.ns o => o.ObjectMeta.Namespace
  | Object.pvc o => o.ObjectMeta.Namespace
  | Object.deployment o => o.ObjectMeta.Namespace
  | Object.service o => o.ObjectMeta.Namespace
  | Object.ingress o => o.ObjectMeta.Namespace
  | Object.clusterIssuer o => o.ObjectMeta.Namespace
  | Object.certificate o => o.ObjectMeta.Namespace

/-- The kinds that live in a namespace: every kind of the output except
Namespace and ClusterIssuer, which are cluster-wide. -/
def isNamespaced : Object → Bool
  | Object.ns _ => false
  | Object.clusterIssuer _ => false
  | _ => true

/-- The backends of the paths of an ingress rule. -/
def ruleBackends (r : k8s.IngressRule) : List k8s.IngressServiceBackend :=
  match r.IngressRuleValue.HTTP with
  | some http => http.Paths.filterMap (fun p => p.Backend.Service)
  | none => []

/-! ## Lemmas on Go maps and loops -/

theorem foldl_append_if {α β : Type} (p : α → Bool) (f : α → β) (l : List α) (init : List β) :
    l.foldl (fun acc x => if p x then acc ++ [f x] else acc) init =
      init ++ (l.filter p).map f := by
  induction l generalizing init with
  | nil => simp
  | cons x xs ih =>
    by_cases hp : p x = true
    · simp [List.foldl_cons, hp, ih, List.filter_cons]
    · simp [List.foldl_cons, hp, ih, List.filter_cons]

theorem foldl_append_singleton {α β : Type} (f : α → β) (l : List α) (init : List β) :
    l.foldl (fun acc x => acc ++ [f x]) init = init ++ l.map f := by
  induction l generalizing init with
  | nil => simp
  | cons x xs ih => simp [List.foldl_cons, ih]

theorem GoMap.mem_range {β : Type} (m : GoMap β) (order : List String) (kv : String × β) :
    kv ∈ m.range order ↔ kv.1 ∈ order ∧ m.get? kv.1 = some kv.2 := by
  obtain ⟨k, v⟩ := kv
  simp only [GoMap.range, List.mem_filterMap, Option.map_eq_some', Prod.mk.injEq]
  constructor
  · rintro ⟨a, ha, b, hb, rfl, rfl⟩
    exact ⟨ha, hb⟩
  · rintro ⟨h1, h2⟩
    exact ⟨k, h1, v, h2, rfl, rfl⟩

theorem otherServices_get? (c : Config) (k : String) (v : ServiceConfig) :
    (otherServices c).get? k = some v ↔ (k, v) ∈ otherServices c := by
  simp only [otherServices, GoMap.get?, List.mem_cons, Prod.mk.injEq, List.mem_singleton,
    List.mem_nil_iff, or_false]
  split_ifs with h1 h2 h3 h4
  · subst h1; simp [eq_comm]
  · subst h2; simp [eq_comm]
  · subst h3; simp [eq_comm]
  · subst h4; simp [eq_comm]
  · simp
    refine ⟨?_, ?_, ?_, ?_⟩ <;> intro h <;> simp_all

theorem mem_range_otherServices (c : Config) (order : List String)
    (hp : order.Perm (otherServices c).keys) (kv : String × ServiceConfig) :
    kv ∈ (otherServices c).range order ↔ kv ∈ otherServices c := by
  rw [GoMap.mem_range, otherServices_get?, hp.mem_iff]
  constructor
  · exact fun h => h.2
  · intro h
    exact ⟨List.mem_map_of_mem Prod.fst h, h⟩

/-! ## Lemmas on the generator functions -/

theorem services_eq (c : Config) :
    services c = ("jellyfin", c.Services.Jellyfin) :: otherServices c := rfl

theorem jellyfin_dot (d : String) : "jellyfin." ++ d = "jellyfin" ++ ("." ++ d) := by
  rw [← String.append_assoc]
  rfl

theorem certDNSNames_eq (c : Config) (order : List String) :
    certDNSNames c order =
      (if c.Services.Jellyfin.Enabled && c.Services.Jellyfin.Exposed
        then ["jellyfin." ++ c.Domain] else []) ++
      (((otherServices c).range order).filter (fun kv => kv.2.Enabled && kv.2.Exposed)).map
        (fun kv => kv.1 ++ "." ++ c.Domain) := by
  simp only [certDNSNames, List.nil_append]
  exact foldl_append_if (fun kv : String × ServiceConfig => kv.2.Enabled && kv.2.Exposed)
    (fun kv => kv.1 ++ "." ++ c.Domain) _ _

theorem ingressRules_eq (c : Config) (order : List String) :
    ingressRules c order =
      (if c.Services.Jellyfin.Enabled && c.Services.Jellyfin.Exposed
        then [ingressRule c "jellyfin" c.Services.Jellyfin.Port] else []) ++
      (((otherServices c).range order).filter (fun kv => kv.2.Enabled && kv.2.Exposed)).map
        (fun kv => ingressRule c kv.1 kv.2.Port) := by
  simp only [ingressRules, List.nil_append]
  rw [foldl_append_if (fun kv : String × ServiceConfig => kv.2.Enabled && kv.2.Exposed)
    (fun kv => ingressRule c kv.1 kv.2.Port)]
  cases c.Services.Jellyfin.Enabled && c.Services.Jellyfin.Exposed <;> rfl

theorem ingressRules_hosts (c : Config) (order : List String) :
    (ingressRules c order).map (fun r => r.Host) = certDNSNames c order := by
  rw [ingressRules_eq, certDNSNames_eq]
  cases c.Services.Jellyfin.Enabled && c.Services.Jellyfin.Exposed <;>
    simp [ingressRule, List.map_map, Function.comp_def, String.append_assoc, jellyfin_dot]

theorem mem_certDNSNames (c : Config) (order : List String)
    (hp : order.Perm (otherServices c).keys) (h : String) :
    h ∈ certDNSNames c order ↔ h ∈ exposedHosts c := by
  rw [certDNSNames_eq, exposedHosts, services_eq]
  simp only [List.mem_append, List.mem_map, List.mem_filter, mem_range_otherServices c order hp,
    List.filter_cons]
  cases c.Services.Jellyfin.Enabled && c.Services.Jellyfin.Exposed
  · simp [String.append_assoc]
  · simp only [String.append_assoc, jellyfin_dot, if_true, List.mem_singleton, List.mem_cons,
      exists_eq_or_imp, List.mem_filter, List.mem_nil_iff, or_false]
    exact or_congr_left eq_comm

theorem exposedHosts_ne_nil (c : Config) :
    exposedHosts c ≠ [] ↔ ∃ p ∈ services c, p.2.Enabled = true ∧ p.2.Exposed = true := by
  simp only [exposedHosts, ne_eq, List.map_eq_nil_iff, List.filter_eq_nil_iff, not_forall,
    Bool.and_eq_true]
  constructor
  · rintro ⟨p, hp, h⟩
    exact ⟨p, hp, not_not.mp h⟩
  · rintro ⟨p, hp, h⟩
    exact ⟨p, hp, not_not.mpr h⟩

theorem certDNSNames_ne_nil (c : Config) (order : List String)
    (hp : order.Perm (otherServices c).keys) :
    certDNSNames c order ≠ [] ↔ ∃ p ∈ services c, p.2.Enabled = true ∧ p.2.Exposed = true := by
  rw [← exposedHosts_ne_nil]
  constructor
  · intro h
    obtain ⟨x, hx⟩ := List.exists_mem_of_ne_nil _ h
    exact List.ne_nil_of_mem ((mem_certDNSNames c order hp x).mp hx)
  · intro h
    obtain ⟨x, hx⟩ := List.exists_mem_of_ne_nil _ h
    exact List.ne_nil_of_mem ((mem_certDNSNames c order hp x).mpr hx)

theorem ingressRules_ne_nil (c : Config) (order : List String)
    (hp : order.Perm (otherServices c).keys) :
    ingressRules c order ≠ [] ↔ ∃ p ∈ services c, p.2.Enabled = true ∧ p.2.Exposed = true := by
  rw [← certDNSNames_ne_nil c order hp, ← ingressRules_hosts]
  simp

theorem generateIngress_eq (c : Config) (s : Schedule) :
    generateIngress c s =
      if ingressRules c s.ingressServices = [] then ([], none)
      else ([Piece.yaml (Object.ingress (builtIngress c s))], none) := by
  simp only [generateIngress, List.length_eq_zero, builtIngress]
  by_cases h : ingressRules c s.ingressServices = []
  · simp [h]
  · simp only [h, if_false]
    cases c.Ingress.TLS.Enabled
    · simp
    · simp [foldl_append_singleton (fun r : k8s.IngressRule => r.Host)]

theorem generateIngress_snd (c : Config) (s : Schedule) : (generateIngress c s).2 = none := by
  rw [generateIngress_eq]
  split <;> rfl

theorem generateIngress_fst_eq_nil (c : Config) (s : Schedule) :
    (generateIngress c s).1 = [] ↔ ingressRules c s.ingressServices = [] := by
  rw [generateIngress_eq]
  split <;> simp_all

theorem certManagerDocuments_eq (c : Config) (order : List String) (ci : k8s.ClusterIssuer) :
    certManagerDocuments c order ci =
      (Piece.yaml (Object.clusterIssuer ci) ::
        (if c.Ingress.TLS.Enabled = true ∧ certDNSNames c order ≠ [] then
          [Piece.sep,
           Piece.yaml (Object.certificate (teleflixCertificate c (certDNSNames c order)))]
        else []), none) := by
  simp only [certManagerDocuments, List.nil_append, gt_iff_lt, List.length_pos]
  cases c.Ingress.TLS.Enabled
  · simp
  · by_cases h : certDNSNames c order = [] <;> simp [h]

theorem generateCertManager_snd_ne_none (c : Config) (order : List String) :
    (generateCertManager c order).2 ≠ none ↔
      (c.CertManager.Issuer.Type_ = "letsencrypt" ∧ c.CertManager.Issuer.Email = "") ∨
      (c.CertManager.Issuer.Type_ ≠ "letsencrypt" ∧ c.CertManager.Issuer.Type_ ≠ "selfsigned") := by
  unfold generateCertManager
  by_cases h1 : c.CertManager.Issuer.Type_ = "letsencrypt"
  · by_cases h2 : c.CertManager.Issuer.Email = "" <;> simp [h1, h2, certManagerDocuments_eq]
  · by_cases h3 : c.CertManager.Issuer.Type_ = "selfsigned" <;>
      simp [h1, h3, certManagerDocuments_eq]

theorem generateCertManager_ok (c : Config) (order : List String)
    (h : (generateCertManager c order).2 = none) :
    generateCertManager c order =
      (Piece.yaml (Object.clusterIssuer (chosenClusterIssuer c)) ::
        (if c.Ingress.TLS.Enabled = true ∧ certDNSNames c order ≠ [] then
          [Piece.sep,
           Piece.yaml (Object.certificate (teleflixCertificate c (certDNSNames c order)))]
        else []), none) := by
  unfold generateCertManager chosenClusterIssuer at *
  by_cases h1 : c.CertManager.Issuer.Type_ = "letsencrypt"
  · by_cases h2 : c.CertManager.Issuer.Email = ""
    · simp [h1, h2] at h
    · simp [h1, h2, certManagerDocuments_eq]
  · by_cases h3 : c.CertManager.Issuer.Type_ = "selfsigned"
    · simp [h1, h3, certManagerDocuments_eq]
    · simp [h1, h3] at h

theorem generateCertManager_err (c : Config) (order : List String) (e : String)
    (h : (generateCertManager c order).2 = some e) :
    generateCertManager c order = ([], some e) := by
  unfold generateCertManager at *
  by_cases h1 : c.CertManager.Issuer.Type_ = "letsencrypt"
  · by_cases h2 : c.CertManager.Issuer.Email = ""
    · simp [h1, h2] at h ⊢
      exact h
    · simp [h1, h2, certManagerDocuments_eq] at h
  · by_cases h3 : c.CertManager.Issuer.Type_ = "selfsigned"
    · simp [h1, h3, certManagerDocuments_eq] at h
    · simp [h1, h3] at h ⊢
      exact h

theorem serviceLoop_nil (c : Config) (s : Schedule) (m : ManifestMap) (i : Nat) :
    serviceLoop c s [] m i = (m, none) := rfl

theorem serviceLoop_skip (c : Config) (s : Schedule) (svc : String × ServiceConfig)
    (rest : List (String × ServiceConfig)) (m : ManifestMap) (i : Nat)
    (h : svc.2.Enabled = false) :
    serviceLoop c s (svc :: rest) m i = serviceLoop c s rest m i := by
  simp [serviceLoop, h]

theorem serviceLoop_emit (c : Config) (s : Schedule) (svc : String × ServiceConfig)
    (rest : List (String × ServiceConfig)) (m : ManifestMap) (i : Nat)
    (h : svc.2.Enabled = true) :
    serviceLoop c s (svc :: rest) m i =
      serviceLoop c s rest
        (m.set (sprintf02d i ++ "-" ++ svc.1)
          (generateService c svc.1 svc.2 (s.environment svc.1)).1) (i + 1) := by
  rw [serviceLoop]
  simp only [h, Bool.not_true, Bool.false_eq_true, if_false]
  rfl

theorem sprintf02d_3 : sprintf02d 3 = "03" := by decide
theorem sprintf02d_4 : sprintf02d 4 = "04" := by decide
theorem sprintf02d_5 : sprintf02d 5 = "05" := by decide
theorem sprintf02d_6 : sprintf02d 6 = "06" := by decide
theorem sprintf02d_7 : sprintf02d 7 = "07" := by decide

theorem serviceLoop_base2 (c : Config) (s : Schedule) (a b : Manifest) :
    serviceLoop c s (services c) [("00-namespace", a), ("01-storage", b)] 3 =
      ([("00-namespace", a), ("01-storage", b)] ++ serviceEntries c s (services c) 3, none) := by
  cases h1 : c.Services.Jellyfin.Enabled <;> cases h2 : c.Services.Sonarr.Enabled <;>
  cases h3 : c.Services.Radarr.Enabled <;> cases h4 : c.Services.Jackett.Enabled <;>
  cases h5 : c.Services.QBittorrent.Enabled <;>
  simp [serviceLoop_nil, serviceLoop_skip, serviceLoop_emit, services, serviceEntries,
    GoMap.set, h1, h2, h3, h4, h5,
    sprintf02d_3, sprintf02d_4, sprintf02d_5, sprintf02d_6, sprintf02d_7]

theorem serviceLoop_base3 (c : Config) (s : Schedule) (a b d : Manifest) :
    serviceLoop c s (services c)
        [("00-namespace", a), ("01-storage", b), ("02-cert-manager", d)] 3 =
      ([("00-namespace", a), ("01-storage", b), ("02-cert-manager", d)] ++
        serviceEntries c s (services c) 3, none) := by
  cases h1 : c.Services.Jellyfin.Enabled <;> cases h2 : c.Services.Sonarr.Enabled <;>
  cases h3 : c.Services.Radarr.Enabled <;> cases h4 : c.Services.Jackett.Enabled <;>
  cases h5 : c.Services.QBittorrent.Enabled <;>
  simp [serviceLoop_nil, serviceLoop_skip, serviceLoop_emit, services, serviceEntries,
    GoMap.set, h1, h2, h3, h4, h5,
    sprintf02d_3, sprintf02d_4, sprintf02d_5, sprintf02d_6, sprintf02d_7]

/-- The keys that the loop over `services` adds. -/
theorem serviceEntries_keys (c : Config) (s : Schedule) :
    (serviceEntries c s (services c) 3).keys =
      let k1 := if c.Services.Jellyfin.Enabled then 1 else 0
      let k2 := k1 + if c.Services.Sonarr.Enabled then 1 else 0
      let k3 := k2 + if c.Services.Radarr.Enabled then 1 else 0
      let k4 := k3 + if c.Services.Jackett.Enabled then 1 else 0
      (if c.Services.Jellyfin.Enabled then ["03-jellyfin"] else []) ++
      (if c.Services.Sonarr.Enabled then [sprintf02d (3 + k1) ++ "-sonarr"] else []) ++
      (if c.Services.Radarr.Enabled then [sprintf02d (3 + k2) ++ "-radarr"] else []) ++
      (if c.Services.Jackett.Enabled then [sprintf02d (3 + k3) ++ "-jackett"] else []) ++
      (if c.Services.QBittorrent.Enabled then [sprintf02d (3 + k4) ++ "-qbittorrent"] else []) := by
  cases h1 : c.Services.Jellyfin.Enabled <;> cases h2 : c.Services.Sonarr.Enabled <;>
  cases h3 : c.Services.Radarr.Enabled <;> cases h4 : c.Services.Jackett.Enabled <;>
  cases h5 : c.Services.QBittorrent.Enabled <;>
  simp [services, serviceEntries, GoMap.keys, h1, h2, h3, h4, h5,
    sprintf02d_3, sprintf02d_4, sprintf02d_5, sprintf02d_6, sprintf02d_7]

/-- The two outcomes of `GenerateAll`: the error of `generateCertManager`
with a nil map, or the complete mapping. -/
theorem GenerateAll_eq (c : Config) (s : Schedule) :
    GenerateAll c s =
      if c.CertManager.Enabled = true ∧ (generateCertManager c s.certServices).2 ≠ none then
        (none, (generateCertManager c s.certServices).2)
      else (some (expectedOutput c s), none) := by
  unfold GenerateAll expectedOutput
  have hI := generateIngress_snd c s
  cases hE : c.CertManager.Enabled
  · simp only [GoMap.set, generatePVCs, List.nil_append, Bool.false_eq_true, if_false,
      false_and, String.reduceEq]
    rw [serviceLoop_base2]
    cases hIE : c.Ingress.Enabled
    · simp
    · rcases hgi : generateIngress c s with ⟨ing, e⟩
      rw [hgi] at hI
      simp only at hI
      subst hI
      by_cases hne : ing = []
      · simp [hne, GoMap.set]
      · cases h1 : c.Services.Jellyfin.Enabled <;> cases h2 : c.Services.Sonarr.Enabled <;>
        cases h3 : c.Services.Radarr.Enabled <;> cases h4 : c.Services.Jackett.Enabled <;>
        cases h5 : c.Services.QBittorrent.Enabled <;>
        simp [hne, GoMap.set, services, serviceEntries, h1, h2, h3, h4, h5,
          sprintf02d_3, sprintf02d_4, sprintf02d_5, sprintf02d_6, sprintf02d_7]
  · rcases hgc : generateCertManager c s.certServices with ⟨cm, ce⟩
    cases ce with
    | some e => simp [generatePVCs]
    | none =>
      simp only [GoMap.set, generatePVCs, List.nil_append, if_true, true_and, String.reduceEq,
        if_false, ne_eq, not_true_eq_false]
      rw [serviceLoop_base3]
      cases hIE : c.Ingress.Enabled
      · simp
      · rcases hgi : generateIngress c s with ⟨ing, e⟩
        rw [hgi] at hI
        simp only at hI
        subst hI
        by_cases hne : ing = []
        · simp [hne, GoMap.set]
        · cases h1 : c.Services.Jellyfin.Enabled <;> cases h2 : c.Services.Sonarr.Enabled <;>
          cases h3 : c.Services.Radarr.Enabled <;> cases h4 : c.Services.Jackett.Enabled <;>
          cases h5 : c.Services.QBittorrent.Enabled <;>
          simp [hne, GoMap.set, services, serviceEntries, h1, h2, h3, h4, h5,
            sprintf02d_3, sprintf02d_4, sprintf02d_5, sprintf02d_6, sprintf02d_7]

theorem GenerateAll_of_ok (c : Config) (s : Schedule) (h : (GenerateAll c s).2 = none) :
    GenerateAll c s = (some (expectedOutput c s), none) := by
  rw [GenerateAll_eq] at h ⊢
  split
  · rename_i hc
    rw [if_pos hc] at h
    exact absurd h hc.2
  · rfl

theorem GenerateAll_of_some (c : Config) (s : Schedule) (out : ManifestMap)
    (h : (GenerateAll c s).1 = some out) :
    out = expectedOutput c s ∧ (GenerateAll c s).2 = none := by
  rw [GenerateAll_eq] at h ⊢
  split
  · rename_i hc
    rw [if_pos hc] at h
    simp at h
  · rename_i hc
    rw [if_neg hc] at h
    simp only [Option.some.injEq] at h
    exact ⟨h.symm, rfl⟩

theorem expectedOutput_keys (c : Config) (s : Schedule) :
    (expectedOutput c s).keys =
      ["00-namespace", "01-storage"] ++
      (if c.CertManager.Enabled then ["02-cert-manager"] else []) ++
      (serviceEntries c s (services c) 3).keys ++
      (if c.Ingress.Enabled && decide ((generateIngress c s).1 ≠ []) then ["99-ingress"]
        else []) := by
  unfold expectedOutput GoMap.keys
  cases c.CertManager.Enabled <;>
    cases (c.Ingress.Enabled && decide ((generateIngress c s).1 ≠ [])) <;> simp

/-- C2. `GenerateAll` fails exactly when cert-manager is enabled and the
issuer is `letsencrypt` without an email or of a type other than
`letsencrypt` and `selfsigned`; and when it fails the returned map is nil. -/
theorem C2_failure_iff_and_nil_map (c : Config) (s : Schedule) :
    ((GenerateAll c s).2 ≠ none ↔
      c.CertManager.Enabled = true ∧
        ((c.CertManager.Issuer.Type_ = "letsencrypt" ∧ c.CertManager.Issuer.Email = "") ∨
         (c.CertManager.Issuer.Type_ ≠ "letsencrypt" ∧
          c.CertManager.Issuer.Type_ ≠ "selfsigned"))) ∧
    ((GenerateAll c s).2 ≠ none → (GenerateAll c s).1 = none) := by
  rw [GenerateAll_eq, ← generateCertManager_snd_ne_none c s.certServices]
  split
  · rename_i hc
    exact ⟨⟨fun _ => hc, fun _ => hc.2⟩, fun _ => rfl⟩
  · rename_i hc
    exact ⟨⟨fun h => absurd rfl h, fun h => absurd h hc⟩, fun h => absurd rfl h⟩

/-- C3 (counterexample). The default configuration has issuer type
`letsencrypt` and an empty email, and `GenerateAll` succeeds on it. -/
theorem C3_counterexample_default_config_succeeds :
    getDefaultConfig.CertManager.Issuer.Type_ = "letsencrypt" ∧
    getDefaultConfig.CertManager.Issuer.Email = "" ∧
    (GenerateAll getDefaultConfig (Schedule.canonical getDefaultConfig)).2 = none ∧
    (GenerateAll getDefaultConfig (Schedule.canonical getDefaultConfig)).1 ≠ none := by
  refine ⟨rfl, rfl, rfl, ?_⟩
  rw [GenerateAll_of_ok getDefaultConfig (Schedule.canonical getDefaultConfig) rfl]
  simp

/-- C3 (amended). With issuer type `letsencrypt` and an empty email:
`generateCertManager` returns the email error and the empty text; when
cert-manager is enabled `GenerateAll` returns that error and the nil map;
and no mapping that `GenerateAll` returns has the key `02-cert-manager`. -/
theorem C3_letsencrypt_without_email (c : Config) (s : Schedule)
    (hT : c.CertManager.Issuer.Type_ = "letsencrypt") (hE : c.CertManager.Issuer.Email = "") :
    generateCertManager c s.certServices = ([], some "email requis pour Let's Encrypt") ∧
    (c.CertManager.Enabled = true →
      GenerateAll c s = (none, some "email requis pour Let's Encrypt")) ∧
    (∀ out, (GenerateAll c s).1 = some out → "02-cert-manager" ∉ out.keys) := by
  have hg : generateCertManager c s.certServices = ([], some "email requis pour Let's Encrypt") := by
    simp [generateCertManager, hT, hE]
  refine ⟨hg, ?_, ?_⟩
  · intro hEn
    rw [GenerateAll_eq, hg]
    simp [hEn]
  · intro out hout
    obtain ⟨rfl, hok⟩ := GenerateAll_of_some c s out hout
    have hdis : c.CertManager.Enabled = false := by
      cases hEn : c.CertManager.Enabled
      · rfl
      · rw [GenerateAll_eq, hg] at hok
        simp [hEn] at hok
    rw [expectedOutput_keys, serviceEntries_keys]
    cases (c.Ingress.Enabled && decide ((generateIngress c s).1 ≠ [])) <;>
    cases h1 : c.Services.Jellyfin.Enabled <;> cases h2 : c.Services.Sonarr.Enabled <;>
    cases h3 : c.Services.Radarr.Enabled <;> cases h4 : c.Services.Jackett.Enabled <;>
    cases h5 : c.Services.QBittorrent.Enabled <;>
    simp only [hdis, sprintf02d_3, sprintf02d_4, sprintf02d_5, sprintf02d_6,
      sprintf02d_7, if_true, if_false, Bool.false_eq_true] <;>
    decide

theorem C3_letsencrypt_without_email_witness :
    configNoEmail.CertManager.Issuer.Type_ = "letsencrypt" ∧
    configNoEmail.CertManager.Issuer.Email = "" ∧
    (generateCertManager configNoEmail (Schedule.canonical configNoEmail).certServices =
        ([], some "email requis pour Let's Encrypt") ∧
     (configNoEmail.CertManager.Enabled = true →
        GenerateAll configNoEmail (Schedule.canonical configNoEmail) =
          (none, some "email requis pour Let's Encrypt")) ∧
     (∀ out, (GenerateAll configNoEmail (Schedule.canonical configNoEmail)).1 = some out →
        "02-cert-manager" ∉ out.keys)) :=
  ⟨rfl, rfl, C3_letsencrypt_without_email configNoEmail (Schedule.canonical configNoEmail) rfl rfl⟩

/-- C4. With cert-manager enabled and an issuer type `t` other than
`letsencrypt` and `selfsigned`, `generateCertManager` and `GenerateAll` fail
with the message `type d'issuer non supporté: ` followed by `t`, so `t` is
the end of the message. -/
theorem C4_unsupported_issuer_type (c : Config) (s : Schedule)
    (hEn : c.CertManager.Enabled = true)
    (h1 : c.CertManager.Issuer.Type_ ≠ "letsencrypt")
    (h2 : c.CertManager.Issuer.Type_ ≠ "selfsigned") :
    generateCertManager c s.certServices =
      ([], some ("type d'issuer non supporté: " ++ c.CertManager.Issuer.Type_)) ∧
    GenerateAll c s =
      (none, some ("type d'issuer non supporté: " ++ c.CertManager.Issuer.Type_)) ∧
    ∀ msg, (GenerateAll c s).2 = some msg →
      c.CertManager.Issuer.Type_.data.IsSuffix msg.data := by
  have hg : generateCertManager c s.certServices =
      ([], some ("type d'issuer non supporté: " ++ c.CertManager.Issuer.Type_)) := by
    simp [generateCertManager, h1, h2]
  have hall : GenerateAll c s =
      (none, some ("type d'issuer non supporté: " ++ c.CertManager.Issuer.Type_)) := by
    rw [GenerateAll_eq, hg]
    simp [hEn]
  refine ⟨hg, hall, ?_⟩
  intro msg hmsg
  rw [hall] at hmsg
  simp only [Option.some.injEq] at hmsg
  subst hmsg
  exact ⟨"type d'issuer non supporté: ".data, by simp [String.data_append]⟩

theorem C4_unsupported_issuer_type_witness :
    configVaultIssuer.CertManager.Enabled = true ∧
    configVaultIssuer.CertManager.Issuer.Type_ ≠ "letsencrypt" ∧
    configVaultIssuer.CertManager.Issuer.Type_ ≠ "selfsigned" ∧
    GenerateAll configVaultIssuer (Schedule.canonical configVaultIssuer) =
      (none, some "type d'issuer non supporté: vault") :=
  ⟨rfl, by decide, by decide,
    (C4_unsupported_issuer_type configVaultIssuer (Schedule.canonical configVaultIssuer)
      rfl (by decide) (by decide)).2.1⟩

theorem foldl_append_if_list {α β : Type} (p : α → Prop) [DecidablePred p] (f : α → List β)
    (l : List α) (init : List β) :
    l.foldl (fun acc x => if p x then acc ++ f x else acc) init =
      init ++ ((l.filter (fun x => decide (p x))).map f).flatten := by
  induction l generalizing init with
  | nil => simp
  | cons x xs ih =>
    by_cases hp : p x
    · simp [List.foldl_cons, hp, ih, List.filter_cons]
    · simp [List.foldl_cons, hp, ih, List.filter_cons]

/-- The pieces of the manifest of one service: the claims of the sized
volumes, each followed by a marker, then the Deployment, a marker, and the
Service. -/
theorem generateService_fst (c : Config) (name : String) (cfg : ServiceConfig)
    (envOrder : List String) :
    (generateService c name cfg envOrder).1 =
      ((cfg.Volumes.filter (fun v => decide (v.Size ≠ ""))).map
        (fun v => [Piece.yaml (Object.pvc (servicePVC c name v)), Piece.sep])).flatten ++
      [Piece.yaml (Object.deployment (createDeployment c name cfg envOrder)), Piece.sep,
       Piece.yaml (Object.service (createService c name cfg))] := by
  simp only [generateService]
  rw [foldl_append_if_list (fun v : VolumeConfig => v.Size ≠ "")
    (fun v => [Piece.yaml (Object.pvc (servicePVC c name v)), Piece.sep])]
  simp

theorem objectsOf_append (a b : Manifest) : objectsOf (a ++ b) = objectsOf a ++ objectsOf b := by
  simp [objectsOf, List.filterMap_append]

theorem objectsOf_claims (c : Config) (name : String) (l : List VolumeConfig) :
    objectsOf ((l.map
        (fun v => [Piece.yaml (Object.pvc (servicePVC c name v)), Piece.sep])).flatten) =
      l.map (fun v => Object.pvc (servicePVC c name v)) := by
  induction l with
  | nil => rfl
  | cons v vs ih =>
    simp only [List.map_cons, List.flatten_cons, objectsOf_append, ih]
    rfl

/-- The objects of the manifest of one service. -/
theorem objectsOf_generateService (c : Config) (name : String) (cfg : ServiceConfig)
    (envOrder : List String) :
    objectsOf (generateService c name cfg envOrder).1 =
      (cfg.Volumes.filter (fun v => decide (v.Size ≠ ""))).map
        (fun v => Object.pvc (servicePVC c name v)) ++
      [Object.deployment (createDeployment c name cfg envOrder),
       Object.service (createService c name cfg)] := by
  rw [generateService_fst, objectsOf_append, objectsOf_claims]
  rfl

theorem emittedObjects_append (a b : ManifestMap) :
    emittedObjects (a ++ b) = emittedObjects a ++ emittedObjects b := by
  simp [emittedObjects]

theorem certificatesOf_append (a b : List Object) :
    certificatesOf (a ++ b) = certificatesOf a ++ certificatesOf b := by
  simp [certificatesOf, List.filterMap_append]

theorem ingressesOf_append (a b : List Object) :
    ingressesOf (a ++ b) = ingressesOf a ++ ingressesOf b := by
  simp [ingressesOf, List.filterMap_append]

theorem certificatesOf_claims (c : Config) (name : String) (l : List VolumeConfig) :
    certificatesOf (l.map (fun v => Object.pvc (servicePVC c name v))) = [] := by
  induction l with
  | nil => rfl
  | cons v vs ih => simp [certificatesOf]

theorem ingressesOf_claims (c : Config) (name : String) (l : List VolumeConfig) :
    ingressesOf (l.map (fun v => Object.pvc (servicePVC c name v))) = [] := by
  induction l with
  | nil => rfl
  | cons v vs ih => simp [ingressesOf]

theorem certificatesOf_serviceEntries (c : Config) (s : Schedule)
    (l : List (String × ServiceConfig)) (i : Nat) :
    certificatesOf (emittedObjects (serviceEntries c s l i)) = [] := by
  induction l generalizing i with
  | nil => rfl
  | cons svc rest ih =>
    unfold serviceEntries
    cases svc.2.Enabled
    · simpa using ih i
    · have h := ih (i + 1)
      simp only [if_true, emittedObjects, List.map_cons, List.flatten_cons] at h ⊢
      rw [certificatesOf_append, h, objectsOf_generateService, certificatesOf_append,
        certificatesOf_claims]
      rfl

theorem ingressesOf_serviceEntries (c : Config) (s : Schedule)
    (l : List (String × ServiceConfig)) (i : Nat) :
    ingressesOf (emittedObjects (serviceEntries c s l i)) = [] := by
  induction l generalizing i with
  | nil => rfl
  | cons svc rest ih =>
    unfold serviceEntries
    cases svc.2.Enabled
    · simpa using ih i
    · have h := ih (i + 1)
      simp only [if_true, emittedObjects, List.map_cons, List.flatten_cons] at h ⊢
      rw [ingressesOf_append, h, objectsOf_generateService, ingressesOf_append,
        ingressesOf_claims]
      rfl

theorem Schedule.canonical_valid (c : Config) : (Schedule.canonical c).Valid c := by
  refine ⟨List.Perm.refl _, List.Perm.refl _, List.Perm.refl _, ?_⟩
  intro p hp
  simp only [services, List.mem_cons, List.mem_singleton, List.mem_nil_iff, or_false] at hp
  rcases hp with rfl | rfl | rfl | rfl | rfl <;>
    simp [Schedule.canonical, services, GoMap.get?]

theorem ingressesOf_certManager (c : Config) (order : List String) :
    ingressesOf (objectsOf (generateCertManager c order).1) = [] := by
  unfold generateCertManager
  split
  · split
    · rfl
    · rw [certManagerDocuments_eq]
      split <;> rfl
  · split
    · rw [certManagerDocuments_eq]
      split <;> rfl
    · rfl

/-- The only Ingress of the output is the one of `generateIngress`. -/
theorem ingressesOf_expectedOutput (c : Config) (s : Schedule) :
    ingressesOf (emittedObjects (expectedOutput c s)) =
      if c.Ingress.Enabled = true ∧ ingressRules c s.ingressServices ≠ [] then
        [builtIngress c s]
      else [] := by
  unfold expectedOutput
  simp only [emittedObjects_append, ingressesOf_append, ingressesOf_serviceEntries,
    List.append_nil]
  have h0 : ingressesOf (emittedObjects
      [("00-namespace", generateNamespace c), ("01-storage", (generatePVCs c).1)]) = [] := rfl
  have h1 : ingressesOf (emittedObjects
      (if c.CertManager.Enabled then
        [("02-cert-manager", (generateCertManager c s.certServices).1)] else [])) = [] := by
    cases c.CertManager.Enabled
    · rfl
    · simp only [if_true, emittedObjects, List.map_cons, List.map_nil, List.flatten_cons,
        List.flatten_nil, List.append_nil]
      exact ingressesOf_certManager c s.certServices
  rw [h0, h1]
  simp only [List.nil_append]
  have hnil := generateIngress_fst_eq_nil c s
  cases c.Ingress.Enabled
  · simp [emittedObjects, ingressesOf]
  · by_cases hr : ingressRules c s.ingressServices = []
    · simp [hr, hnil.mpr hr, emittedObjects, ingressesOf]
    · have hne : (generateIngress c s).1 ≠ [] := fun h => hr (hnil.mp h)
      have hgi : (generateIngress c s).1 = [Piece.yaml (Object.ingress (builtIngress c s))] := by
        rw [generateIngress_eq, if_neg hr]
      simp [hr, hne, emittedObjects, hgi, ingressesOf, objectsOf]

/-- The only Certificate of the output is the one of `generateCertManager`. -/
theorem certificatesOf_expectedOutput (c : Config) (s : Schedule)
    (hok : (GenerateAll c s).2 = none) :
    certificatesOf (emittedObjects (expectedOutput c s)) =
      if c.CertManager.Enabled = true ∧ c.Ingress.TLS.Enabled = true ∧
          certDNSNames c s.certServices ≠ [] then
        [teleflixCertificate c (certDNSNames c s.certServices)]
      else [] := by
  unfold expectedOutput
  simp only [emittedObjects_append, certificatesOf_append, certificatesOf_serviceEntries,
    List.append_nil]
  have h0 : certificatesOf (emittedObjects
      [("00-namespace", generateNamespace c), ("01-storage", (generatePVCs c).1)]) = [] := rfl
  have h2 : certificatesOf (emittedObjects
      (if c.Ingress.Enabled && decide ((generateIngress c s).1 ≠ []) then
        [("99-ingress", (generateIngress c s).1)] else [])) = [] := by
    split
    · simp only [emittedObjects, List.map_cons, List.map_nil, List.flatten_cons,
        List.flatten_nil, List.append_nil]
      rw [generateIngress_eq]
      split <;> rfl
    · rfl
  rw [h0, h2]
  simp only [List.nil_append, List.append_nil]
  cases hE : c.CertManager.Enabled
  · simp [emittedObjects, certificatesOf]
  · have hcm : (generateCertManager c s.certServices).2 = none := by
      rw [GenerateAll_eq] at hok
      by_contra hne
      rw [if_pos ⟨hE, hne⟩] at hok
      exact hne hok
    rw [generateCertManager_ok c s.certServices hcm]
    by_cases hd : c.Ingress.TLS.Enabled = true ∧ certDNSNames c s.certServices ≠ []
    · simp [hd, emittedObjects, certificatesOf, objectsOf]
    · simp only [if_true, true_and, if_neg hd]
      simp [emittedObjects, certificatesOf, objectsOf]

theorem expectedOutput_get?_certManager (c : Config) (s : Schedule) :
    (expectedOutput c s).get? "02-cert-manager" =
      if c.CertManager.Enabled then some (generateCertManager c s.certServices).1 else none := by
  unfold expectedOutput
  cases c.CertManager.Enabled <;>
  cases (c.Ingress.Enabled && decide ((generateIngress c s).1 ≠ [])) <;>
  cases h1 : c.Services.Jellyfin.Enabled <;> cases h2 : c.Services.Sonarr.Enabled <;>
  cases h3 : c.Services.Radarr.Enabled <;> cases h4 : c.Services.Jackett.Enabled <;>
  cases h5 : c.Services.QBittorrent.Enabled <;>
  simp [GoMap.get?, services, serviceEntries, h1, h2, h3, h4, h5,
    sprintf02d_3, sprintf02d_4, sprintf02d_5, sprintf02d_6, sprintf02d_7]

theorem mem_expectedOutput_keys_certManager (c : Config) (s : Schedule) :
    "02-cert-manager" ∈ (expectedOutput c s).keys ↔ c.CertManager.Enabled = true := by
  rw [expectedOutput_keys, serviceEntries_keys]
  cases c.CertManager.Enabled <;>
  cases (c.Ingress.Enabled && decide ((generateIngress c s).1 ≠ [])) <;>
  cases h1 : c.Services.Jellyfin.Enabled <;> cases h2 : c.Services.Sonarr.Enabled <;>
  cases h3 : c.Services.Radarr.Enabled <;> cases h4 : c.Services.Jackett.Enabled <;>
  cases h5 : c.Services.QBittorrent.Enabled <;>
  simp only [sprintf02d_3, sprintf02d_4, sprintf02d_5, sprintf02d_6,
    sprintf02d_7, if_true, if_false, Bool.false_eq_true] <;>
  decide

theorem mem_expectedOutput_keys_ingress (c : Config) (s : Schedule) :
    "99-ingress" ∈ (expectedOutput c s).keys ↔
      (c.Ingress.Enabled && decide ((generateIngress c s).1 ≠ [])) = true := by
  rw [expectedOutput_keys, serviceEntries_keys]
  cases c.CertManager.Enabled <;>
  cases (c.Ingress.Enabled && decide ((generateIngress c s).1 ≠ [])) <;>
  cases h1 : c.Services.Jellyfin.Enabled <;> cases h2 : c.Services.Sonarr.Enabled <;>
  cases h3 : c.Services.Radarr.Enabled <;> cases h4 : c.Services.Jackett.Enabled <;>
  cases h5 : c.Services.QBittorrent.Enabled <;>
  simp only [sprintf02d_3, sprintf02d_4, sprintf02d_5, sprintf02d_6,
    sprintf02d_7, if_true, if_false, Bool.false_eq_true] <;>
  decide

/-- C5. Whenever `GenerateAll` returns a mapping, the key `99-ingress` is
present exactly when the ingress is enabled and some service is both enabled
and exposed; so it is absent when the ingress is disabled, and when no
service is enabled and exposed the output has no key `99-ingress` and no
Ingress object at all. -/
theorem C5_ingress_key_iff (c : Config) (s : Schedule) (hv : s.Valid c) (out : ManifestMap)
    (h : (GenerateAll c s).1 = some out) :
    ("99-ingress" ∈ out.keys ↔
      c.Ingress.Enabled = true ∧
        ∃ p ∈ services c, p.2.Enabled = true ∧ p.2.Exposed = true) ∧
    (c.Ingress.Enabled = false → "99-ingress" ∉ out.keys) ∧
    ((∀ p ∈ services c, ¬(p.2.Enabled = true ∧ p.2.Exposed = true)) →
      "99-ingress" ∉ out.keys ∧ ingressesOf (emittedObjects out) = []) := by
  obtain ⟨rfl, -⟩ := GenerateAll_of_some c s out h
  have hr := ingressRules_ne_nil c s.ingressServices hv.2.1
  have hkey : "99-ingress" ∈ (expectedOutput c s).keys ↔
      c.Ingress.Enabled = true ∧
        ∃ p ∈ services c, p.2.Enabled = true ∧ p.2.Exposed = true := by
    rw [mem_expectedOutput_keys_ingress, ← hr, Bool.and_eq_true, decide_eq_true_eq, ne_eq,
      generateIngress_fst_eq_nil]
  refine ⟨hkey, ?_, ?_⟩
  · intro hd hmem
    rw [hkey, hd] at hmem
    exact absurd hmem.1 (by decide)
  · intro hnone
    have hno : ¬ ∃ p ∈ services c, p.2.Enabled = true ∧ p.2.Exposed = true := by
      rintro ⟨p, hp, hpe⟩
      exact hnone p hp hpe
    refine ⟨fun hmem => hno (hkey.mp hmem).2, ?_⟩
    rw [ingressesOf_expectedOutput, if_neg]
    rintro ⟨-, hne⟩
    exact hno (hr.mp hne)

theorem C5_ingress_key_iff_witness :
    (Schedule.canonical getDefaultConfig).Valid getDefaultConfig ∧
    (GenerateAll getDefaultConfig (Schedule.canonical getDefaultConfig)).1 =
      some (expectedOutput getDefaultConfig (Schedule.canonical getDefaultConfig)) ∧
    ("99-ingress" ∈ (expectedOutput getDefaultConfig (Schedule.canonical getDefaultConfig)).keys ↔
      getDefaultConfig.Ingress.Enabled = true ∧
        ∃ p ∈ services getDefaultConfig, p.2.Enabled = true ∧ p.2.Exposed = true) :=
  ⟨Schedule.canonical_valid getDefaultConfig, rfl,
    (C5_ingress_key_iff getDefaultConfig (Schedule.canonical getDefaultConfig)
      (Schedule.canonical_valid getDefaultConfig)
      (expectedOutput getDefaultConfig (Schedule.canonical getDefaultConfig)) rfl).1⟩

/-- C6. Whenever `GenerateAll` returns a mapping, the key `02-cert-manager`
is present exactly when cert-manager is enabled.  Its text then is one
ClusterIssuer, followed by a marker and one Certificate when ingress TLS is
enabled and some service is both enabled and exposed (the Certificate then
has at least one DNS name), and the ClusterIssuer alone otherwise. -/
theorem C6_cert_manager_document (c : Config) (s : Schedule) (hv : s.Valid c)
    (out : ManifestMap) (h : (GenerateAll c s).1 = some out) :
    ("02-cert-manager" ∈ out.keys ↔ c.CertManager.Enabled = true) ∧
    (c.CertManager.Enabled = false → out.get? "02-cert-manager" = none) ∧
    (c.CertManager.Enabled = true →
      ∃ issuer : k8s.ClusterIssuer,
        ((c.Ingress.TLS.Enabled = true ∧
            ∃ p ∈ services c, p.2.Enabled = true ∧ p.2.Exposed = true) →
          ∃ cert : k8s.Certificate,
            out.get? "02-cert-manager" =
              some [Piece.yaml (Object.clusterIssuer issuer), Piece.sep,
                    Piece.yaml (Object.certificate cert)] ∧
            cert.Spec.DNSNames ≠ []) ∧
        (¬(c.Ingress.TLS.Enabled = true ∧
            ∃ p ∈ services c, p.2.Enabled = true ∧ p.2.Exposed = true) →
          out.get? "02-cert-manager" = some [Piece.yaml (Object.clusterIssuer issuer)])) := by
  obtain ⟨rfl, hok⟩ := GenerateAll_of_some c s out h
  have hd := certDNSNames_ne_nil c s.certServices hv.1
  refine ⟨mem_expectedOutput_keys_certManager c s, ?_, ?_⟩
  · intro hE
    rw [expectedOutput_get?_certManager, hE]
    rfl
  · intro hE
    have hcm : (generateCertManager c s.certServices).2 = none := by
      rw [GenerateAll_eq] at hok
      by_contra hne
      rw [if_pos ⟨hE, hne⟩] at hok
      exact hne hok
    have hget : (expectedOutput c s).get? "02-cert-manager" =
        some (generateCertManager c s.certServices).1 := by
      rw [expectedOutput_get?_certManager, hE]
      rfl
    rw [hget, generateCertManager_ok c s.certServices hcm]
    refine ⟨chosenClusterIssuer c, ?_, ?_⟩
    · rintro ⟨hT, hex⟩
      refine ⟨teleflixCertificate c (certDNSNames c s.certServices), ?_, hd.mpr hex⟩
      have hc : c.Ingress.TLS.Enabled = true ∧ certDNSNames c s.certServices ≠ [] :=
        ⟨hT, hd.mpr hex⟩
      simp only [if_pos hc]
    · intro hn
      have hc : ¬(c.Ingress.TLS.Enabled = true ∧ certDNSNames c s.certServices ≠ []) :=
        fun hh => hn ⟨hh.1, hd.mp hh.2⟩
      simp only [if_neg hc]

theorem C6_cert_manager_document_witness :
    (Schedule.canonical configTLS).Valid configTLS ∧
    (GenerateAll configTLS (Schedule.canonical configTLS)).1 =
      some (expectedOutput configTLS (Schedule.canonical configTLS)) ∧
    ("02-cert-manager" ∈ (expectedOutput configTLS (Schedule.canonical configTLS)).keys ↔
      configTLS.CertManager.Enabled = true) :=
  ⟨Schedule.canonical_valid configTLS, rfl,
    (C6_cert_manager_document configTLS (Schedule.canonical configTLS)
      (Schedule.canonical_valid configTLS)
      (expectedOutput configTLS (Schedule.canonical configTLS)) rfl).1⟩

theorem mem_exposedHosts (c : Config) (x : String) :
    x ∈ exposedHosts c ↔
      ∃ p ∈ services c, p.2.Enabled = true ∧ p.2.Exposed = true ∧ x = p.1 ++ "." ++ c.Domain := by
  simp only [exposedHosts, List.mem_map, List.mem_filter, Bool.and_eq_true]
  constructor
  · rintro ⟨p, ⟨hp, he, hx⟩, rfl⟩
    exact ⟨p, hp, he, hx, rfl⟩
  · rintro ⟨p, hp, he, hx, rfl⟩
    exact ⟨p, ⟨hp, he, hx⟩, rfl⟩

/-- C7. Whenever the mapping returned by `GenerateAll` holds a Certificate
and an Ingress, a name is the host of a rule of the Ingress exactly when it
is a DNS name of the Certificate, and exactly when it is `<service>.<Domain>`
for a service that is both enabled and exposed. -/
theorem C7_ingress_hosts_eq_certificate_names (c : Config) (s : Schedule) (hv : s.Valid c)
    (out : ManifestMap) (h : (GenerateAll c s).1 = some out)
    (cert : k8s.Certificate) (hc : cert ∈ certificatesOf (emittedObjects out))
    (ing : k8s.Ingress) (hi : ing ∈ ingressesOf (emittedObjects out)) :
    (∀ x, x ∈ ruleHosts ing ↔ x ∈ cert.Spec.DNSNames) ∧
    (∀ x, x ∈ cert.Spec.DNSNames ↔
      ∃ p ∈ services c, p.2.Enabled = true ∧ p.2.Exposed = true ∧
        x = p.1 ++ "." ++ c.Domain) := by
  obtain ⟨rfl, hok⟩ := GenerateAll_of_some c s out h
  rw [certificatesOf_expectedOutput c s hok] at hc
  rw [ingressesOf_expectedOutput] at hi
  split at hc
  swap
  · simp at hc
  split at hi
  swap
  · simp at hi
  simp only [List.mem_singleton] at hc hi
  subst hc hi
  have hcert : ∀ x, x ∈ (teleflixCertificate c (certDNSNames c s.certServices)).Spec.DNSNames ↔
      x ∈ exposedHosts c := fun x => mem_certDNSNames c s.certServices hv.1 x
  have hing : ∀ x, x ∈ ruleHosts (builtIngress c s) ↔ x ∈ exposedHosts c := by
    intro x
    have : ruleHosts (builtIngress c s) = certDNSNames c s.ingressServices :=
      ingressRules_hosts c s.ingressServices
    rw [this]
    exact mem_certDNSNames c s.ingressServices hv.2.1 x
  refine ⟨fun x => (hing x).trans (hcert x).symm, fun x => ?_⟩
  rw [hcert x, mem_exposedHosts]

theorem C7_ingress_hosts_eq_certificate_names_witness :
    (Schedule.canonical configTLS).Valid configTLS ∧
    (GenerateAll configTLS (Schedule.canonical configTLS)).1 =
      some (expectedOutput configTLS (Schedule.canonical configTLS)) ∧
    certificatesOf (emittedObjects (expectedOutput configTLS (Schedule.canonical configTLS))) =
      [teleflixCertificate configTLS ["jellyfin.teleflix.local", "sonarr.teleflix.local"]] ∧
    ingressesOf (emittedObjects (expectedOutput configTLS (Schedule.canonical configTLS))) =
      [builtIngress configTLS (Schedule.canonical configTLS)] ∧
    ((∀ x, x ∈ ruleHosts (builtIngress configTLS (Schedule.canonical configTLS)) ↔
        x ∈ (teleflixCertificate configTLS
          ["jellyfin.teleflix.local", "sonarr.teleflix.local"]).Spec.DNSNames) ∧
     (∀ x, x ∈ (teleflixCertificate configTLS
          ["jellyfin.teleflix.local", "sonarr.teleflix.local"]).Spec.DNSNames ↔
        ∃ p ∈ services configTLS, p.2.Enabled = true ∧ p.2.Exposed = true ∧
          x = p.1 ++ "." ++ configTLS.Domain)) :=
  ⟨Schedule.canonical_valid configTLS, rfl, rfl, rfl,
    C7_ingress_hosts_eq_certificate_names configTLS (Schedule.canonical configTLS)
      (Schedule.canonical_valid configTLS)
      (expectedOutput configTLS (Schedule.canonical configTLS)) rfl
      (teleflixCertificate configTLS ["jellyfin.teleflix.local", "sonarr.teleflix.local"])
      (List.mem_singleton.mpr rfl)
      (builtIngress configTLS (Schedule.canonical configTLS))
      (List.mem_singleton.mpr rfl)⟩

/-- C8 (counterexample). With cert-manager and ingress TLS enabled and the
ingress itself disabled, `GenerateAll` succeeds and returns a Certificate for
`jellyfin.teleflix.local` and `sonarr.teleflix.local` and no Ingress at all;
with ingress TLS enabled and cert-manager disabled it returns an Ingress
whose TLS entry lists these two hosts and no Certificate at all. -/
theorem C8_counterexample_certificate_without_ingress :
    ((GenerateAll configCertWithoutIngress (Schedule.canonical configCertWithoutIngress)).1 =
        some (expectedOutput configCertWithoutIngress
          (Schedule.canonical configCertWithoutIngress)) ∧
     (certificatesOf (emittedObjects (expectedOutput configCertWithoutIngress
          (Schedule.canonical configCertWithoutIngress)))).map (fun x => x.Spec.DNSNames) =
        [["jellyfin.teleflix.local", "sonarr.teleflix.local"]] ∧
     ingressesOf (emittedObjects (expectedOutput configCertWithoutIngress
          (Schedule.canonical configCertWithoutIngress))) = []) ∧
    ((GenerateAll configTLSWithoutCertManager
          (Schedule.canonical configTLSWithoutCertManager)).1 =
        some (expectedOutput configTLSWithoutCertManager
          (Schedule.canonical configTLSWithoutCertManager)) ∧
     (ingressesOf (emittedObjects (expectedOutput configTLSWithoutCertManager
          (Schedule.canonical configTLSWithoutCertManager)))).map
          (fun x => (ruleHosts x, x.Spec.TLS.map (fun t => t.Hosts))) =
        [(["jellyfin.teleflix.local", "sonarr.teleflix.local"],
          [["jellyfin.teleflix.local", "sonarr.teleflix.local"]])] ∧
     certificatesOf (emittedObjects (expectedOutput configTLSWithoutCertManager
          (Schedule.canonical configTLSWithoutCertManager))) = []) :=
  ⟨⟨rfl, rfl, rfl⟩, ⟨rfl, rfl, rfl⟩⟩

/-- C8 (amended). Whenever `GenerateAll` returns a mapping: if the ingress is
enabled, every DNS name of a Certificate of the output is the host of a rule
of an Ingress of the output; and if cert-manager is enabled, every host of a
rule of an Ingress of the output that has a TLS entry is a DNS name of a
Certificate of the output. -/
theorem C8_parity_when_both_enabled (c : Config) (s : Schedule) (hv : s.Valid c)
    (out : ManifestMap) (h : (GenerateAll c s).1 = some out) :
    (c.Ingress.Enabled = true →
      ∀ cert ∈ certificatesOf (emittedObjects out), ∀ x ∈ cert.Spec.DNSNames,
        ∃ ing ∈ ingressesOf (emittedObjects out), x ∈ ruleHosts ing) ∧
    (c.CertManager.Enabled = true →
      ∀ ing ∈ ingressesOf (emittedObjects out), ing.Spec.TLS ≠ [] → ∀ x ∈ ruleHosts ing,
        ∃ cert ∈ certificatesOf (emittedObjects out), x ∈ cert.Spec.DNSNames) := by
  obtain ⟨rfl, hok⟩ := GenerateAll_of_some c s out h
  have hcert : ∀ x, x ∈ certDNSNames c s.certServices ↔ x ∈ exposedHosts c :=
    fun x => mem_certDNSNames c s.certServices hv.1 x
  have hhosts : ruleHosts (builtIngress c s) = certDNSNames c s.ingressServices :=
    ingressRules_hosts c s.ingressServices
  have hing : ∀ x, x ∈ ruleHosts (builtIngress c s) ↔ x ∈ exposedHosts c := by
    intro x
    rw [hhosts]
    exact mem_certDNSNames c s.ingressServices hv.2.1 x
  rw [certificatesOf_expectedOutput c s hok, ingressesOf_expectedOutput]
  constructor
  · intro hIE cert hc x hx
    split at hc
    swap
    · simp at hc
    simp only [List.mem_singleton] at hc
    subst hc
    have hxe : x ∈ exposedHosts c := (hcert x).mp hx
    have hne : ingressRules c s.ingressServices ≠ [] := by
      have hx2 : x ∈ (ingressRules c s.ingressServices).map (fun r => r.Host) := (hing x).mpr hxe
      intro hnil
      rw [hnil] at hx2
      simp at hx2
    rw [if_pos ⟨hIE, hne⟩]
    exact ⟨builtIngress c s, List.mem_singleton.mpr rfl, (hing x).mpr hxe⟩
  · intro hCE ing hi htls x hx
    split at hi
    swap
    · simp at hi
    simp only [List.mem_singleton] at hi
    subst hi
    have hxe : x ∈ exposedHosts c := (hing x).mp hx
    have hT : c.Ingress.TLS.Enabled = true := by
      cases hT : c.Ingress.TLS.Enabled
      · simp [builtIngress, hT] at htls
      · rfl
    have hne : certDNSNames c s.certServices ≠ [] :=
      List.ne_nil_of_mem ((hcert x).mpr hxe)
    rw [if_pos ⟨hCE, hT, hne⟩]
    exact ⟨teleflixCertificate c (certDNSNames c s.certServices), List.mem_singleton.mpr rfl,
      (hcert x).mpr hxe⟩

theorem C8_parity_when_both_enabled_witness :
    (Schedule.canonical configTLS).Valid configTLS ∧
    (GenerateAll configTLS (Schedule.canonical configTLS)).1 =
      some (expectedOutput configTLS (Schedule.canonical configTLS)) ∧
    configTLS.Ingress.Enabled = true ∧ configTLS.CertManager.Enabled = true ∧
    ((configTLS.Ingress.Enabled = true →
      ∀ cert ∈ certificatesOf (emittedObjects
          (expectedOutput configTLS (Schedule.canonical configTLS))),
        ∀ x ∈ cert.Spec.DNSNames,
          ∃ ing ∈ ingressesOf (emittedObjects
              (expectedOutput configTLS (Schedule.canonical configTLS))), x ∈ ruleHosts ing) ∧
     (configTLS.CertManager.Enabled = true →
      ∀ ing ∈ ingressesOf (emittedObjects
          (expectedOutput configTLS (Schedule.canonical configTLS))),
        ing.Spec.TLS ≠ [] → ∀ x ∈ ruleHosts ing,
          ∃ cert ∈ certificatesOf (emittedObjects
              (expectedOutput configTLS (Schedule.canonical configTLS))),
            x ∈ cert.Spec.DNSNames)) :=
  ⟨Schedule.canonical_valid configTLS, rfl, rfl, rfl,
    C8_parity_when_both_enabled configTLS (Schedule.canonical configTLS)
      (Schedule.canonical_valid configTLS)
      (expectedOutput configTLS (Schedule.canonical configTLS)) rfl⟩

theorem foldl_append_pair {α β γ : Type} (f : α → β) (g : α → γ) (l : List α)
    (a : List β) (b : List γ) :
    l.foldl (fun acc x => (acc.1 ++ [f x], acc.2 ++ [g x])) (a, b) =
      (a ++ l.map f, b ++ l.map g) := by
  induction l generalizing a b with
  | nil => simp
  | cons x xs ih => simp [List.foldl_cons, ih]

/-- The volumes of the Deployment, one per volume of the service, in order. -/
theorem createDeployment_volumes (c : Config) (name : String) (cfg : ServiceConfig)
    (envOrder : List String) :
    (createDeployment c name cfg envOrder).Spec.Template.Spec.Volumes =
      cfg.Volumes.map (fun vol =>
        { Name := vol.Name
          VolumeSource := { PersistentVolumeClaim := some { ClaimName := pvcName name vol } } }) := by
  simp only [createDeployment]
  rw [foldl_append_pair
    (fun vol : VolumeConfig =>
      ({ Name := vol.Name
         VolumeSource :=
          { PersistentVolumeClaim := some { ClaimName := pvcName name vol } } } : k8s.Volume))
    (fun vol : VolumeConfig =>
      ({ Name := vol.Name, MountPath := vol.MountPath, ReadOnly := vol.ReadOnly } :
        k8s.VolumeMount))]
  simp

theorem claimsOf_append (a b : List Object) : claimsOf (a ++ b) = claimsOf a ++ claimsOf b := by
  simp [claimsOf, List.filterMap_append]

theorem claimsOf_generateService (c : Config) (name : String) (cfg : ServiceConfig)
    (envOrder : List String) :
    claimsOf (objectsOf (generateService c name cfg envOrder).1) =
      (cfg.Volumes.filter (fun v => decide (v.Size ≠ ""))).map (servicePVC c name) := by
  rw [objectsOf_generateService, claimsOf_append]
  have h1 : ∀ l : List VolumeConfig,
      claimsOf (l.map (fun v => Object.pvc (servicePVC c name v))) = l.map (servicePVC c name) := by
    intro l
    induction l with
    | nil => rfl
    | cons v vs ih =>
      simp only [claimsOf, List.map_cons, List.filterMap_cons] at ih ⊢
      rw [ih]
  rw [h1]
  simp [claimsOf]

/-- C10. In the Deployment that `createDeployment` builds for service `name`,
the i-th volume refers to the claim `media-pvc` when the i-th volume of the
service is named `media`, to `downloads-pvc` when it is named `downloads`,
and to `<name>-<volume name>-pvc` otherwise; and for every volume with a
non-empty size and a name other than `media` and `downloads`, the manifest of
`generateService` holds a PersistentVolumeClaim with that very name. -/
theorem C10_claim_names (c : Config) (name : String) (cfg : ServiceConfig)
    (envOrder : List String) :
    (createDeployment c name cfg envOrder).Spec.Template.Spec.Volumes.map
        (fun v => (v.Name, v.VolumeSource.PersistentVolumeClaim.map (fun p => p.ClaimName))) =
      cfg.Volumes.map (fun vol =>
        (vol.Name,
          some (if vol.Name = "media" then "media-pvc"
            else if vol.Name = "downloads" then "downloads-pvc"
            else name ++ "-" ++ vol.Name ++ "-pvc"))) ∧
    ∀ vol ∈ cfg.Volumes, vol.Size ≠ "" → vol.Name ≠ "media" → vol.Name ≠ "downloads" →
      ∃ pvc ∈ claimsOf (objectsOf (generateService c name cfg envOrder).1),
        pvc.ObjectMeta.Name = name ++ "-" ++ vol.Name ++ "-pvc" ∧
        (vol.Name,
          some pvc.ObjectMeta.Name) ∈
          (createDeployment c name cfg envOrder).Spec.Template.Spec.Volumes.map
            (fun v => (v.Name, v.VolumeSource.PersistentVolumeClaim.map (fun p => p.ClaimName))) := by
  have hvol : (createDeployment c name cfg envOrder).Spec.Template.Spec.Volumes.map
        (fun v => (v.Name, v.VolumeSource.PersistentVolumeClaim.map (fun p => p.ClaimName))) =
      cfg.Volumes.map (fun vol =>
        (vol.Name,
          some (if vol.Name = "media" then "media-pvc"
            else if vol.Name = "downloads" then "downloads-pvc"
            else name ++ "-" ++ vol.Name ++ "-pvc"))) := by
    rw [createDeployment_volumes, List.map_map]
    rfl
  refine ⟨hvol, ?_⟩
  intro vol hmem hsize hm hd
  refine ⟨servicePVC c name vol, ?_, rfl, ?_⟩
  · rw [claimsOf_generateService]
    exact List.mem_map_of_mem _ (List.mem_filter.mpr ⟨hmem, by simpa using hsize⟩)
  · rw [hvol]
    refine List.mem_map.mpr ⟨vol, hmem, ?_⟩
    simp [hm, hd, servicePVC]

/-- C9 (failing input). In the default configuration with one more Jellyfin
volume `cache` that has no size, `GenerateAll` succeeds, the Jellyfin
Deployment refers to the claim `jellyfin-cache-pvc`, and the
PersistentVolumeClaims of the whole output are the two shared ones and the
five `<service>-config-pvc`: none is named `jellyfin-cache-pvc`. -/
theorem C9_unsized_volume_dangling_claim :
    (GenerateAll configUnsizedVolume (Schedule.canonical configUnsizedVolume)).1 =
      some (expectedOutput configUnsizedVolume (Schedule.canonical configUnsizedVolume)) ∧
    ((deploymentsOf (emittedObjects
        (expectedOutput configUnsizedVolume (Schedule.canonical configUnsizedVolume)))).map
        (fun d => (d.ObjectMeta.Name, referencedClaims d))).head? =
      some ("jellyfin", ["media-pvc", "jellyfin-config-pvc", "jellyfin-cache-pvc"]) ∧
    (claimsOf (emittedObjects
        (expectedOutput configUnsizedVolume (Schedule.canonical configUnsizedVolume)))).map
        (fun p => p.ObjectMeta.Name) =
      ["media-pvc", "downloads-pvc", "jellyfin-config-pvc", "sonarr-config-pvc",
       "radarr-config-pvc", "jackett-config-pvc", "qbittorrent-config-pvc"] ∧
    "jellyfin-cache-pvc" ∉
      (claimsOf (emittedObjects
        (expectedOutput configUnsizedVolume (Schedule.canonical configUnsizedVolume)))).map
        (fun p => p.ObjectMeta.Name) := by
  have hc : (claimsOf (emittedObjects
        (expectedOutput configUnsizedVolume (Schedule.canonical configUnsizedVolume)))).map
        (fun p => p.ObjectMeta.Name) =
      ["media-pvc", "downloads-pvc", "jellyfin-config-pvc", "sonarr-config-pvc",
       "radarr-config-pvc", "jackett-config-pvc", "qbittorrent-config-pvc"] := rfl
  refine ⟨rfl, rfl, hc, ?_⟩
  rw [hc]
  decide

theorem default_ingressRules (order : List String) :
    ingressRules getDefaultConfig order = [ingressRule getDefaultConfig "jellyfin" 8096] := by
  rw [ingressRules_eq]
  have hnil : ((otherServices getDefaultConfig).range order).filter
      (fun kv => kv.2.Enabled && kv.2.Exposed) = [] := by
    rw [List.filter_eq_nil_iff]
    intro kv hkv
    have hm := ((GoMap.mem_range _ _ kv).mp hkv).2
    rw [otherServices_get?] at hm
    simp only [otherServices, List.mem_cons, Prod.mk.injEq, List.mem_singleton,
      List.mem_nil_iff, or_false] at hm
    rcases hm with ⟨-, h⟩ | ⟨-, h⟩ | ⟨-, h⟩ | ⟨-, h⟩ <;> rw [h] <;> decide
  rw [hnil]
  rfl

theorem expectedOutput_get?_ingress (c : Config) (s : Schedule) :
    (expectedOutput c s).get? "99-ingress" =
      if c.Ingress.Enabled && decide ((generateIngress c s).1 ≠ []) then
        some (generateIngress c s).1 else none := by
  unfold expectedOutput
  cases c.CertManager.Enabled <;>
  cases (c.Ingress.Enabled && decide ((generateIngress c s).1 ≠ [])) <;>
  cases h1 : c.Services.Jellyfin.Enabled <;> cases h2 : c.Services.Sonarr.Enabled <;>
  cases h3 : c.Services.Radarr.Enabled <;> cases h4 : c.Services.Jackett.Enabled <;>
  cases h5 : c.Services.QBittorrent.Enabled <;>
  simp [GoMap.get?, services, serviceEntries, h1, h2, h3, h4, h5,
    sprintf02d_3, sprintf02d_4, sprintf02d_5, sprintf02d_6, sprintf02d_7]

/-- C12. On the default configuration, for every iteration order,
`GenerateAll` succeeds; the keys of the returned mapping are `00-namespace`,
`01-storage`, `03-jellyfin`, `04-sonarr`, `05-radarr`, `06-jackett`,
`07-qbittorrent` and `99-ingress`; and the output holds one Ingress, which
has exactly one rule, with host `jellyfin.teleflix.local`. -/
theorem C12_default_configuration (s : Schedule) :
    (GenerateAll getDefaultConfig s).2 = none ∧
    ∃ out, (GenerateAll getDefaultConfig s).1 = some out ∧
      out.keys = ["00-namespace", "01-storage", "03-jellyfin", "04-sonarr", "05-radarr",
        "06-jackett", "07-qbittorrent", "99-ingress"] ∧
      ∃ ing, ingressesOf (emittedObjects out) = [ing] ∧
        out.get? "99-ingress" = some [Piece.yaml (Object.ingress ing)] ∧
        ing.Spec.Rules.length = 1 ∧
        ruleHosts ing = ["jellyfin.teleflix.local"] := by
  have hr := default_ingressRules s.ingressServices
  have hne : ingressRules getDefaultConfig s.ingressServices ≠ [] := by
    rw [hr]
    simp
  have hgi : (generateIngress getDefaultConfig s).1 =
      [Piece.yaml (Object.ingress (builtIngress getDefaultConfig s))] := by
    rw [generateIngress_eq, if_neg hne]
  have hall : GenerateAll getDefaultConfig s = (some (expectedOutput getDefaultConfig s), none) := by
    rw [GenerateAll_eq, if_neg]
    rintro ⟨hE, -⟩
    exact absurd hE (by decide)
  have hI : (getDefaultConfig.Ingress.Enabled &&
      decide ((generateIngress getDefaultConfig s).1 ≠ [])) = true := by
    rw [hgi]
    simp
    rfl
  rw [hall]
  refine ⟨rfl, expectedOutput getDefaultConfig s, rfl, ?_, builtIngress getDefaultConfig s, ?_, ?_, ?_, ?_⟩
  · rw [expectedOutput_keys, serviceEntries_keys, hI]
    decide
  · rw [ingressesOf_expectedOutput, if_pos ⟨rfl, hne⟩]
  · rw [expectedOutput_get?_ingress, hI, hgi]
    rfl
  · show (ingressRules getDefaultConfig s.ingressServices).length = 1
    rw [hr]
    rfl
  · show (ingressRules getDefaultConfig s.ingressServices).map (fun r => r.Host) = _
    rw [hr]
    decide

theorem GoMap.get?_set {β : Type} (m : GoMap β) (k : String) (v : β) (k' : String) :
    (m.set k v).get? k' = if k = k' then some v else m.get? k' := by
  induction m with
  | nil => simp [GoMap.set, GoMap.get?]
  | cons e rest ih =>
    obtain ⟨a, b⟩ := e
    by_cases hak : a = k
    · subst hak
      by_cases hk : a = k' <;> simp [GoMap.set, GoMap.get?, hk]
    · by_cases hk : k = k'
      · subst hk
        simp [GoMap.set, GoMap.get?, hak, ih]
      · by_cases hak' : a = k'
        · subst hak'
          simp [GoMap.set, GoMap.get?, hak, hk]
        · simp [GoMap.set, GoMap.get?, hak, hak', hk, ih]

theorem GoMap.mem_keys_iff {β : Type} (m : GoMap β) (k : String) :
    k ∈ m.keys ↔ ∃ v, m.get? k = some v := by
  induction m with
  | nil => simp [GoMap.keys, GoMap.get?]
  | cons e rest ih =>
    obtain ⟨a, b⟩ := e
    by_cases hak : a = k
    · simp [GoMap.keys, GoMap.get?, hak]
    · have hka : ¬ k = a := fun h => hak h.symm
      simp only [GoMap.keys, List.map_cons, List.mem_cons, hka, false_or, GoMap.get?, hak,
        if_false]
      exact ih

/-- Copying entries that all come from `src` yields, at each copied key, the
value of `src`. -/
theorem GoMap.get?_foldl_set {β : Type} (src : GoMap β) (l : List (String × β))
    (hl : ∀ kv ∈ l, src.get? kv.1 = some kv.2) (init : GoMap β) (k : String) :
    (l.foldl (fun a kv => a.set kv.1 kv.2) init).get? k =
      if k ∈ l.map Prod.fst then src.get? k else init.get? k := by
  induction l generalizing init with
  | nil => simp
  | cons e rest ih =>
    have hrest : ∀ kv ∈ rest, src.get? kv.1 = some kv.2 :=
      fun kv hkv => hl kv (List.mem_cons_of_mem _ hkv)
    have he : src.get? e.1 = some e.2 := hl e (List.mem_cons_self _ _)
    rw [List.foldl_cons, ih hrest]
    by_cases hin : k ∈ rest.map Prod.fst
    · simp [hin]
    · by_cases hek : e.1 = k
      · subst hek
        simp [hin, GoMap.get?_set, he]
      · have hke : ¬ k = e.1 := fun h => hek h.symm
        simp [hin, GoMap.get?_set, hek, hke]

theorem GoMap.mem_range_keys {β : Type} (m : GoMap β) (order : List String) (k : String) :
    k ∈ (m.range order).map Prod.fst ↔ k ∈ order ∧ ∃ v, m.get? k = some v := by
  simp only [List.mem_map]
  constructor
  · rintro ⟨kv, hkv, rfl⟩
    have := (GoMap.mem_range m order kv).mp hkv
    exact ⟨this.1, kv.2, this.2⟩
  · rintro ⟨ho, v, hv⟩
    exact ⟨(k, v), (GoMap.mem_range m order (k, v)).mpr ⟨ho, hv⟩, rfl⟩

/-- The copy of a map made by ranging over it in a valid order is the same map. -/
theorem GoMap.copy_equiv (m : GoMap String) (order : List String)
    (hp : order.Perm m.keys.dedup) :
    GoMap.Equiv ((m.range order).foldl (fun a kv => a.set kv.1 kv.2) []) m := by
  intro k
  rw [GoMap.get?_foldl_set m (m.range order)
    (fun kv hkv => ((GoMap.mem_range m order kv).mp hkv).2)]
  by_cases hin : k ∈ (m.range order).map Prod.fst
  · simp [hin]
  · rw [if_neg hin]
    rw [GoMap.mem_range_keys, hp.mem_iff, List.mem_dedup, GoMap.mem_keys_iff] at hin
    cases hg : m.get? k with
    | none => rfl
    | some v => exact absurd ⟨⟨v, hg⟩, ⟨v, hg⟩⟩ hin

theorem get?_setIfAbsent (m : GoMap String) (k v k' : String) :
    (setIfAbsent m k v).get? k' =
      match m.get? k' with
      | some x => some x
      | none => if k = k' then some v else none := by
  unfold setIfAbsent
  cases hk : m.get? k with
  | some x =>
    simp only
    cases hk' : m.get? k' with
    | some y => rfl
    | none =>
      have : ¬ k = k' := by
        rintro rfl
        rw [hk] at hk'
        exact absurd hk' (by simp)
      simp [this]
  | none =>
    simp only [GoMap.get?_set]
    by_cases hkk : k = k'
    · subst hkk
      simp [hk]
    · simp only [hkk, if_false]
      cases m.get? k' <;> rfl

/-- What the emitted annotations hold at a key: the value of the user when
the user has the key, and otherwise `true` exactly at the redirect keys of
the configured class, when TLS and cert-manager are both enabled. -/
theorem ingressAnnotations_get? (c : Config) (order : List String)
    (hp : order.Perm c.Ingress.Annotations.keys.dedup) (k : String) :
    (ingressAnnotations c order).get? k =
      match c.Ingress.Annotations.get? k with
      | some v => some v
      | none =>
        if c.Ingress.TLS.Enabled = true ∧ c.CertManager.Enabled = true ∧
            ((c.Ingress.ClassName = "traefik" ∧
                k = "traefik.ingress.kubernetes.io/redirect-to-https") ∨
             (c.Ingress.ClassName = "nginx" ∧
                (k = "nginx.ingress.kubernetes.io/ssl-redirect" ∨
                 k = "nginx.ingress.kubernetes.io/force-ssl-redirect")))
        then some "true" else none := by
  have hcopy := GoMap.copy_equiv c.Ingress.Annotations order hp
  unfold ingressAnnotations
  simp only [Bool.and_eq_true]
  by_cases hT : c.Ingress.TLS.Enabled = true ∧ c.CertManager.Enabled = true
  · rw [if_pos hT]
    by_cases h1 : c.Ingress.ClassName = "traefik"
    · rw [if_pos h1, get?_setIfAbsent, hcopy k]
      cases c.Ingress.Annotations.get? k with
      | some v => rfl
      | none =>
        by_cases hk : "traefik.ingress.kubernetes.io/redirect-to-https" = k
        · subst hk
          simp [hT.1, hT.2, h1]
        · have hk' : ¬ k = "traefik.ingress.kubernetes.io/redirect-to-https" :=
            fun h => hk h.symm
          simp [hT.1, hT.2, h1, hk, hk']
    · rw [if_neg h1]
      by_cases h2 : c.Ingress.ClassName = "nginx"
      · rw [if_pos h2, get?_setIfAbsent, get?_setIfAbsent, hcopy k]
        cases c.Ingress.Annotations.get? k with
        | some v => rfl
        | none =>
          by_cases hk1 : "nginx.ingress.kubernetes.io/ssl-redirect" = k
          · subst hk1
            simp [hT.1, hT.2, h2]
          · have hk1' : ¬ k = "nginx.ingress.kubernetes.io/ssl-redirect" :=
              fun h => hk1 h.symm
            by_cases hk2 : "nginx.ingress.kubernetes.io/force-ssl-redirect" = k
            · subst hk2
              simp [hT.1, hT.2, h2]
            · have hk2' : ¬ k = "nginx.ingress.kubernetes.io/force-ssl-redirect" :=
                fun h => hk2 h.symm
              simp [hT.1, hT.2, h2, hk1, hk2, hk1', hk2']
      · rw [if_neg h2, hcopy k]
        cases c.Ingress.Annotations.get? k with
        | some v => rfl
        | none => simp [h1, h2]
  · rw [if_neg hT, hcopy k]
    cases c.Ingress.Annotations.get? k with
    | some v => rfl
    | none =>
      have : ¬(c.Ingress.TLS.Enabled = true ∧ c.CertManager.Enabled = true ∧
            ((c.Ingress.ClassName = "traefik" ∧
                k = "traefik.ingress.kubernetes.io/redirect-to-https") ∨
             (c.Ingress.ClassName = "nginx" ∧
                (k = "nginx.ingress.kubernetes.io/ssl-redirect" ∨
                 k = "nginx.ingress.kubernetes.io/force-ssl-redirect")))) :=
        fun h => hT ⟨h.1, h.2.1⟩
      simp only [if_neg this]

/-- When `generateIngress` returns the text of an Ingress, the Ingress is
`builtIngress` and the rule list is not empty. -/
theorem generateIngress_emits (c : Config) (s : Schedule) (ing : k8s.Ingress)
    (h : (generateIngress c s).1 = [Piece.yaml (Object.ingress ing)]) :
    ing = builtIngress c s ∧ ingressRules c s.ingressServices ≠ [] := by
  rw [generateIngress_eq] at h
  split at h
  · simp at h
  · rename_i hne
    simp only [List.cons.injEq, Piece.yaml.injEq, Object.ingress.injEq, and_true] at h
    exact ⟨h.symm, hne⟩

/-- C13. When `generateIngress` emits an Ingress, every key of the
annotations of the user reads, in the annotations of the Ingress, the value
that the user gave it; this holds for every key, the three redirect keys
included, and for every value. -/
theorem C13_user_annotations_kept (c : Config) (s : Schedule) (hv : s.Valid c)
    (ing : k8s.Ingress) (h : (generateIngress c s).1 = [Piece.yaml (Object.ingress ing)])
    (k v : String) (hk : c.Ingress.Annotations.get? k = some v) :
    ing.ObjectMeta.Annotations.get? k = some v := by
  obtain ⟨rfl, -⟩ := generateIngress_emits c s ing h
  show (ingressAnnotations c s.annotations).get? k = some v
  rw [ingressAnnotations_get? c s.annotations hv.2.2.1 k, hk]

theorem C13_user_annotations_kept_witness :
    (Schedule.canonical configNginxTLS).Valid configNginxTLS ∧
    (generateIngress configNginxTLS (Schedule.canonical configNginxTLS)).1 =
      [Piece.yaml (Object.ingress (builtIngress configNginxTLS
        (Schedule.canonical configNginxTLS)))] ∧
    configNginxTLS.Ingress.Annotations.get? "nginx.ingress.kubernetes.io/ssl-redirect" =
      some "false" ∧
    (builtIngress configNginxTLS (Schedule.canonical configNginxTLS)).ObjectMeta.Annotations.get?
      "nginx.ingress.kubernetes.io/ssl-redirect" = some "false" :=
  ⟨Schedule.canonical_valid configNginxTLS, rfl, rfl,
    C13_user_annotations_kept configNginxTLS (Schedule.canonical configNginxTLS)
      (Schedule.canonical_valid configNginxTLS)
      (builtIngress configNginxTLS (Schedule.canonical configNginxTLS)) rfl
      "nginx.ingress.kubernetes.io/ssl-redirect" "false" rfl⟩

/-- C14. When `generateIngress` emits an Ingress, a key is a key of its
annotations exactly when it is a key of the annotations of the user or, with
TLS and cert-manager both enabled, it is the traefik redirect key and the
class is `traefik`, or one of the two nginx redirect keys and the class is
`nginx`; every key that the user does not have carries the value `true`; and
when TLS or cert-manager is disabled or the class is neither `traefik` nor
`nginx`, the annotations of the Ingress are the annotations of the user. -/
theorem C14_annotation_keys (c : Config) (s : Schedule) (hv : s.Valid c)
    (ing : k8s.Ingress) (h : (generateIngress c s).1 = [Piece.yaml (Object.ingress ing)]) :
    (∀ k, k ∈ ing.ObjectMeta.Annotations.keys ↔
      k ∈ c.Ingress.Annotations.keys ∨
      (c.Ingress.TLS.Enabled = true ∧ c.CertManager.Enabled = true ∧
        ((c.Ingress.ClassName = "traefik" ∧
            k = "traefik.ingress.kubernetes.io/redirect-to-https") ∨
         (c.Ingress.ClassName = "nginx" ∧
            (k = "nginx.ingress.kubernetes.io/ssl-redirect" ∨
             k = "nginx.ingress.kubernetes.io/force-ssl-redirect"))))) ∧
    (∀ k v, k ∉ c.Ingress.Annotations.keys → ing.ObjectMeta.Annotations.get? k = some v →
      v = "true") ∧
    (¬(c.Ingress.TLS.Enabled = true ∧ c.CertManager.Enabled = true ∧
        (c.Ingress.ClassName = "traefik" ∨ c.Ingress.ClassName = "nginx")) →
      GoMap.Equiv ing.ObjectMeta.Annotations c.Ingress.Annotations) := by
  obtain ⟨rfl, -⟩ := generateIngress_emits c s ing h
  have hget := ingressAnnotations_get? c s.annotations hv.2.2.1
  change (∀ k, k ∈ (ingressAnnotations c s.annotations).keys ↔ _) ∧
    (∀ k v, _ → (ingressAnnotations c s.annotations).get? k = some v → _) ∧
    (_ → GoMap.Equiv (ingressAnnotations c s.annotations) _)
  refine ⟨?_, ?_, ?_⟩
  · intro k
    rw [GoMap.mem_keys_iff, GoMap.mem_keys_iff, hget k]
    cases hu : c.Ingress.Annotations.get? k with
    | some v => simp
    | none =>
      simp only [reduceCtorEq, exists_false, false_or]
      split
      · rename_i hc
        exact ⟨fun _ => hc, fun _ => ⟨"true", rfl⟩⟩
      · rename_i hc
        exact ⟨fun hx => by simp at hx, fun hx => absurd hx hc⟩
  · intro k v hk hval
    rw [GoMap.mem_keys_iff] at hk
    rw [hget k] at hval
    cases hu : c.Ingress.Annotations.get? k with
    | some x => exact absurd ⟨x, hu⟩ hk
    | none =>
      rw [hu] at hval
      simp only at hval
      split at hval
      · simp only [Option.some.injEq] at hval
        exact hval.symm
      · simp at hval
  · intro hn k
    rw [hget k]
    cases hu : c.Ingress.Annotations.get? k with
    | some x => rfl
    | none =>
      simp only
      rw [if_neg]
      rintro ⟨hT, hC, hcl⟩
      rcases hcl with ⟨h1, -⟩ | ⟨h2, -⟩
      · exact hn ⟨hT, hC, Or.inl h1⟩
      · exact hn ⟨hT, hC, Or.inr h2⟩

theorem C14_annotation_keys_witness :
    (Schedule.canonical configNginxTLS).Valid configNginxTLS ∧
    (generateIngress configNginxTLS (Schedule.canonical configNginxTLS)).1 =
      [Piece.yaml (Object.ingress (builtIngress configNginxTLS
        (Schedule.canonical configNginxTLS)))] ∧
    (builtIngress configNginxTLS (Schedule.canonical configNginxTLS)).ObjectMeta.Annotations =
      [("nginx.ingress.kubernetes.io/rewrite-target", "/"),
       ("nginx.ingress.kubernetes.io/ssl-redirect", "false"),
       ("nginx.ingress.kubernetes.io/force-ssl-redirect", "true")] ∧
    (∀ k v, k ∉ configNginxTLS.Ingress.Annotations.keys →
      (builtIngress configNginxTLS
        (Schedule.canonical configNginxTLS)).ObjectMeta.Annotations.get? k = some v →
      v = "true") :=
  ⟨Schedule.canonical_valid configNginxTLS, rfl, rfl,
    (C14_annotation_keys configNginxTLS (Schedule.canonical configNginxTLS)
      (Schedule.canonical_valid configNginxTLS)
      (builtIngress configNginxTLS (Schedule.canonical configNginxTLS)) rfl).2.1⟩

theorem clusterIssuersOf_append (a b : List Object) :
    clusterIssuersOf (a ++ b) = clusterIssuersOf a ++ clusterIssuersOf b := by
  simp [clusterIssuersOf, List.filterMap_append]

theorem clusterIssuersOf_claims (c : Config) (name : String) (l : List VolumeConfig) :
    clusterIssuersOf (l.map (fun v => Object.pvc (servicePVC c name v))) = [] := by
  induction l with
  | nil => rfl
  | cons v vs ih => simp [clusterIssuersOf]

theorem clusterIssuersOf_serviceEntries (c : Config) (s : Schedule)
    (l : List (String × ServiceConfig)) (i : Nat) :
    clusterIssuersOf (emittedObjects (serviceEntries c s l i)) = [] := by
  induction l generalizing i with
  | nil => rfl
  | cons svc rest ih =>
    unfold serviceEntries
    cases svc.2.Enabled
    · simpa using ih i
    · have h := ih (i + 1)
      simp only [if_true, emittedObjects, List.map_cons, List.flatten_cons] at h ⊢
      rw [clusterIssuersOf_append, h, objectsOf_generateService, clusterIssuersOf_append,
        clusterIssuersOf_claims]
      rfl

/-- The only ClusterIssuer of the output is the one of `generateCertManager`. -/
theorem clusterIssuersOf_expectedOutput (c : Config) (s : Schedule)
    (hok : (GenerateAll c s).2 = none) :
    clusterIssuersOf (emittedObjects (expectedOutput c s)) =
      if c.CertManager.Enabled = true then [chosenClusterIssuer c] else [] := by
  unfold expectedOutput
  simp only [emittedObjects_append, clusterIssuersOf_append, clusterIssuersOf_serviceEntries,
    List.append_nil]
  have h0 : clusterIssuersOf (emittedObjects
      [("00-namespace", generateNamespace c), ("01-storage", (generatePVCs c).1)]) = [] := rfl
  have h2 : clusterIssuersOf (emittedObjects
      (if c.Ingress.Enabled && decide ((generateIngress c s).1 ≠ []) then
        [("99-ingress", (generateIngress c s).1)] else [])) = [] := by
    split
    · simp only [emittedObjects, List.map_cons, List.map_nil, List.flatten_cons,
        List.flatten_nil, List.append_nil]
      rw [generateIngress_eq]
      split <;> rfl
    · rfl
  rw [h0, h2]
  simp only [List.nil_append, List.append_nil]
  cases hE : c.CertManager.Enabled
  · simp [emittedObjects, clusterIssuersOf]
  · have hcm : (generateCertManager c s.certServices).2 = none := by
      rw [GenerateAll_eq] at hok
      by_contra hne
      rw [if_pos ⟨hE, hne⟩] at hok
      exact hne hok
    rw [generateCertManager_ok c s.certServices hcm]
    by_cases hd : c.Ingress.TLS.Enabled = true ∧ certDNSNames c s.certServices ≠ []
    · simp [hd, emittedObjects, clusterIssuersOf, objectsOf]
    · simp only [if_true, if_neg hd]
      simp [emittedObjects, clusterIssuersOf, objectsOf]

/-- C15. Whenever the mapping returned by `GenerateAll` holds a Certificate
and an Ingress: the secret name of the Certificate is `Ingress.TLS.SecretName`;
the Ingress has exactly one TLS entry, with that same secret name; and the
output holds exactly one ClusterIssuer, whose name is the name of the issuer
reference of the Certificate, the kind of the reference being `ClusterIssuer`. -/
theorem C15_secret_and_issuer_reference (c : Config) (s : Schedule) (out : ManifestMap)
    (h : (GenerateAll c s).1 = some out)
    (cert : k8s.Certificate) (hc : cert ∈ certificatesOf (emittedObjects out))
    (ing : k8s.Ingress) (hi : ing ∈ ingressesOf (emittedObjects out)) :
    cert.Spec.SecretName = c.Ingress.TLS.SecretName ∧
    (∃ hosts, ing.Spec.TLS = [{ Hosts := hosts, SecretName := c.Ingress.TLS.SecretName }]) ∧
    ing.Spec.TLS.map (fun t => t.SecretName) = [cert.Spec.SecretName] ∧
    (∃ issuer, clusterIssuersOf (emittedObjects out) = [issuer] ∧
      cert.Spec.IssuerRef.Name = issuer.ObjectMeta.Name ∧
      issuer.TypeMeta.Kind = "ClusterIssuer") ∧
    cert.Spec.IssuerRef.Kind = "ClusterIssuer" := by
  obtain ⟨rfl, hok⟩ := GenerateAll_of_some c s out h
  rw [certificatesOf_expectedOutput c s hok] at hc
  rw [ingressesOf_expectedOutput] at hi
  split at hc
  swap
  · simp at hc
  rename_i hcond
  split at hi
  swap
  · simp at hi
  simp only [List.mem_singleton] at hc hi
  subst hc hi
  have hT : c.Ingress.TLS.Enabled = true := hcond.2.1
  refine ⟨rfl, ?_, ?_, ?_, rfl⟩
  · exact ⟨(ingressRules c s.ingressServices).map (fun r => r.Host), by simp [builtIngress, hT]⟩
  · simp [builtIngress, hT, teleflixCertificate]
  · refine ⟨chosenClusterIssuer c, ?_, ?_, ?_⟩
    · rw [clusterIssuersOf_expectedOutput c s hok, if_pos hcond.1]
    · unfold chosenClusterIssuer
      split <;> rfl
    · unfold chosenClusterIssuer
      split <;> rfl

theorem C15_secret_and_issuer_reference_witness :
    (GenerateAll configTLS (Schedule.canonical configTLS)).1 =
      some (expectedOutput configTLS (Schedule.canonical configTLS)) ∧
    certificatesOf (emittedObjects (expectedOutput configTLS (Schedule.canonical configTLS))) =
      [teleflixCertificate configTLS ["jellyfin.teleflix.local", "sonarr.teleflix.local"]] ∧
    ingressesOf (emittedObjects (expectedOutput configTLS (Schedule.canonical configTLS))) =
      [builtIngress configTLS (Schedule.canonical configTLS)] ∧
    (teleflixCertificate configTLS
      ["jellyfin.teleflix.local", "sonarr.teleflix.local"]).Spec.SecretName = "teleflix-tls" ∧
    (builtIngress configTLS (Schedule.canonical configTLS)).Spec.TLS.map (fun t => t.SecretName) =
      [(teleflixCertificate configTLS
        ["jellyfin.teleflix.local", "sonarr.teleflix.local"]).Spec.SecretName] :=
  ⟨rfl, rfl, rfl,
    (C15_secret_and_issuer_reference configTLS (Schedule.canonical configTLS)
      (expectedOutput configTLS (Schedule.canonical configTLS)) rfl
      (teleflixCertificate configTLS ["jellyfin.teleflix.local", "sonarr.teleflix.local"])
      (List.mem_singleton.mpr rfl)
      (builtIngress configTLS (Schedule.canonical configTLS))
      (List.mem_singleton.mpr rfl)).1,
    (C15_secret_and_issuer_reference configTLS (Schedule.canonical configTLS)
      (expectedOutput configTLS (Schedule.canonical configTLS)) rfl
      (teleflixCertificate configTLS ["jellyfin.teleflix.local", "sonarr.teleflix.local"])
      (List.mem_singleton.mpr rfl)
      (builtIngress configTLS (Schedule.canonical configTLS))
      (List.mem_singleton.mpr rfl)).2.2.1⟩

theorem expectedOutput_get?_storage (c : Config) (s : Schedule) :
    (expectedOutput c s).get? "01-storage" = some (generatePVCs c).1 := by
  unfold expectedOutput
  simp [GoMap.get?]

/-- C16. `generatePVCs` never fails and emits exactly two
PersistentVolumeClaims, `media-pvc` then `downloads-pvc`, separated by a
marker: the first with the access modes and the storage request of
`Storage.Media`, the second with those of `Storage.Downloads`, both with the
configured storage class and namespace.  The result does not depend on the
configuration of the services, and every mapping returned by `GenerateAll`
holds it under `01-storage`. -/
theorem C16_shared_claims (c : Config) :
    (generatePVCs c).2 = none ∧
    (∃ media downloads : k8s.PersistentVolumeClaim,
      (generatePVCs c).1 =
        [Piece.yaml (Object.pvc media), Piece.sep, Piece.yaml (Object.pvc downloads)] ∧
      claimsOf (objectsOf (generatePVCs c).1) = [media, downloads] ∧
      media.ObjectMeta.Name = "media-pvc" ∧
      downloads.ObjectMeta.Name = "downloads-pvc" ∧
      media.Spec.AccessModes = c.Storage.Media.AccessModes ∧
      media.Spec.Resources.Requests = [("storage", c.Storage.Media.Size)] ∧
      downloads.Spec.AccessModes = c.Storage.Downloads.AccessModes ∧
      downloads.Spec.Resources.Requests = [("storage", c.Storage.Downloads.Size)] ∧
      media.Spec.StorageClassName = some c.StorageClass ∧
      downloads.Spec.StorageClassName = some c.StorageClass ∧
      media.ObjectMeta.Namespace = c.Namespace ∧
      downloads.ObjectMeta.Namespace = c.Namespace) ∧
    (∀ sv : ServicesConfig, generatePVCs { c with Services := sv } = generatePVCs c) ∧
    (∀ s out, (GenerateAll c s).1 = some out →
      out.get? "01-storage" = some (generatePVCs c).1) := by
  refine ⟨rfl, ⟨_, _, rfl, rfl, rfl, rfl, rfl, rfl, rfl, rfl, rfl, rfl, rfl, rfl⟩,
    fun _ => rfl, ?_⟩
  intro s out h
  obtain ⟨rfl, -⟩ := GenerateAll_of_some c s out h
  exact expectedOutput_get?_storage c s

/-- C18. `createService` returns a Service object named after the service,
whose selector is the map with the two entries `app: <name>` and
`component: teleflix`, and which has exactly one port entry, with port and
target port both `cfg.Port`. -/
theorem C18_service_object (c : Config) (name : String) (cfg : ServiceConfig) :
    (createService c name cfg).TypeMeta.Kind = "Service" ∧
    (createService c name cfg).ObjectMeta.Name = name ∧
    (createService c name cfg).Spec.Selector = [("app", name), ("component", "teleflix")] ∧
    (∀ k, (createService c name cfg).Spec.Selector.get? k =
      if k = "app" then some name else if k = "component" then some "teleflix" else none) ∧
    (∃ port : k8s.ServicePort, (createService c name cfg).Spec.Ports = [port] ∧
      port.Port = cfg.Port ∧ port.TargetPort = cfg.Port) := by
  refine ⟨rfl, rfl, rfl, ?_, ⟨_, rfl, rfl, rfl⟩⟩
  intro k
  simp only [createService, GoMap.get?]
  by_cases h1 : k = "app"
  · subst h1
    simp
  · have h1' : ¬ "app" = k := fun h => h1 h.symm
    by_cases h2 : k = "component"
    · subst h2
      simp
    · have h2' : ¬ "component" = k := fun h => h2 h.symm
      simp [h1, h2, h1', h2']

/-- C19. Whenever `generateCertManager` succeeds, its text starts with one
ClusterIssuer, the only one in it, and exactly one of the fields `ACME` and
`SelfSigned` of that ClusterIssuer is set.  For type `letsencrypt` the email
is not empty, `SelfSigned` is absent and `ACME` holds the production ACME
directory, the configured email and exactly one solver, an HTTP-01 solver
whose ingress class is `Ingress.ClassName`; for type `selfsigned`,
`SelfSigned` is set and `ACME` is absent; and the type is one of the two. -/
theorem C19_cluster_issuer_variant (c : Config) (order : List String)
    (h : (generateCertManager c order).2 = none) :
    ∃ issuer : k8s.ClusterIssuer,
      (∃ rest, (generateCertManager c order).1 =
        Piece.yaml (Object.clusterIssuer issuer) :: rest) ∧
      clusterIssuersOf (objectsOf (generateCertManager c order).1) = [issuer] ∧
      ((issuer.Spec.ACME.isSome = true ∧ issuer.Spec.SelfSigned.isSome = false) ∨
       (issuer.Spec.ACME.isSome = false ∧ issuer.Spec.SelfSigned.isSome = true)) ∧
      (c.CertManager.Issuer.Type_ = "letsencrypt" →
        c.CertManager.Issuer.Email ≠ "" ∧
        issuer.Spec.SelfSigned = none ∧
        issuer.Spec.ACME = some
          { Server := "https://acme-v02.api.letsencrypt.org/directory"
            Email := c.CertManager.Issuer.Email
            PrivateKeySecretRef := { Name := c.CertManager.Issuer.Name ++ "-key" }
            Solvers :=
              [ { HTTP01 := some { Ingress := some { Class := c.Ingress.ClassName } } } ] }) ∧
      (c.CertManager.Issuer.Type_ = "selfsigned" →
        issuer.Spec.SelfSigned = some {} ∧ issuer.Spec.ACME = none) ∧
      (c.CertManager.Issuer.Type_ = "letsencrypt" ∨
        c.CertManager.Issuer.Type_ = "selfsigned") := by
  have hfail := generateCertManager_snd_ne_none c order
  have hok := generateCertManager_ok c order h
  refine ⟨chosenClusterIssuer c, ⟨_, congrArg Prod.fst hok⟩, ?_, ?_, ?_, ?_, ?_⟩
  · rw [hok]
    simp only
    split <;> rfl
  · unfold chosenClusterIssuer
    split
    · left
      exact ⟨rfl, rfl⟩
    · right
      exact ⟨rfl, rfl⟩
  · intro hT
    refine ⟨?_, ?_, ?_⟩
    · intro hE
      exact hfail.mpr (Or.inl ⟨hT, hE⟩) h
    · simp [chosenClusterIssuer, hT, acmeClusterIssuer]
    · simp [chosenClusterIssuer, hT, acmeClusterIssuer]
  · intro hT
    have hne : ¬ c.CertManager.Issuer.Type_ = "letsencrypt" := by
      rw [hT]
      decide
    simp [chosenClusterIssuer, hne, selfSignedClusterIssuer]
  · by_contra hn
    rw [not_or] at hn
    exact hfail.mpr (Or.inr hn) h

theorem C19_cluster_issuer_variant_witness :
    (generateCertManager configLetsEncrypt
      (Schedule.canonical configLetsEncrypt).certServices).2 = none ∧
    ∃ issuer : k8s.ClusterIssuer,
      (∃ rest, (generateCertManager configLetsEncrypt
          (Schedule.canonical configLetsEncrypt).certServices).1 =
        Piece.yaml (Object.clusterIssuer issuer) :: rest) ∧
      clusterIssuersOf (objectsOf (generateCertManager configLetsEncrypt
          (Schedule.canonical configLetsEncrypt).certServices).1) = [issuer] ∧
      ((issuer.Spec.ACME.isSome = true ∧ issuer.Spec.SelfSigned.isSome = false) ∨
       (issuer.Spec.ACME.isSome = false ∧ issuer.Spec.SelfSigned.isSome = true)) ∧
      (configLetsEncrypt.CertManager.Issuer.Type_ = "letsencrypt" →
        configLetsEncrypt.CertManager.Issuer.Email ≠ "" ∧
        issuer.Spec.SelfSigned = none ∧
        issuer.Spec.ACME = some
          { Server := "https://acme-v02.api.letsencrypt.org/directory"
            Email := configLetsEncrypt.CertManager.Issuer.Email
            PrivateKeySecretRef := { Name := configLetsEncrypt.CertManager.Issuer.Name ++ "-key" }
            Solvers :=
              [ { HTTP01 := some
                    { Ingress := some { Class := configLetsEncrypt.Ingress.ClassName } } } ] }) ∧
      (configLetsEncrypt.CertManager.Issuer.Type_ = "selfsigned" →
        issuer.Spec.SelfSigned = some {} ∧ issuer.Spec.ACME = none) ∧
      (configLetsEncrypt.CertManager.Issuer.Type_ = "letsencrypt" ∨
        configLetsEncrypt.CertManager.Issuer.Type_ = "selfsigned") :=
  ⟨rfl, C19_cluster_issuer_variant configLetsEncrypt
    (Schedule.canonical configLetsEncrypt).certServices rfl⟩

theorem GoMap.range_cons {β : Type} (m : GoMap β) (k : String) (rest : List String) :
    m.range (k :: rest) =
      match m.get? k with
      | some v => (k, v) :: m.range rest
      | none => m.range rest := by
  unfold GoMap.range
  rw [List.filterMap_cons]
  cases m.get? k <;> rfl

theorem GoMap.range_keys_nodup {β : Type} (m : GoMap β) (order : List String)
    (hn : order.Nodup) : ((m.range order).map Prod.fst).Nodup := by
  induction order with
  | nil => simp [GoMap.range]
  | cons k rest ih =>
    rw [List.nodup_cons] at hn
    rw [GoMap.range_cons]
    cases hg : m.get? k with
    | none => exact ih hn.2
    | some v =>
      simp only [List.map_cons, List.nodup_cons]
      refine ⟨?_, ih hn.2⟩
      intro hmem
      exact hn.1 ((GoMap.mem_range_keys m rest k).mp hmem).1

/-- The env list of the Deployment: one entry per visited entry of
`cfg.Environment`, in the order of the visit. -/
theorem createDeployment_env (c : Config) (name : String) (cfg : ServiceConfig)
    (envOrder : List String) :
    (createDeployment c name cfg envOrder).Spec.Template.Spec.Containers.map (fun x => x.Env) =
      [(cfg.Environment.range envOrder).map (fun kv => { Name := kv.1, Value := kv.2 })] := by
  simp only [createDeployment, List.map_cons, List.map_nil]
  rw [foldl_append_singleton
    (fun kv : String × String => ({ Name := kv.1, Value := kv.2 } : k8s.EnvVar))]
  simp

theorem createDeployment_volumeMounts (c : Config) (name : String) (cfg : ServiceConfig)
    (envOrder : List String) :
    (createDeployment c name cfg envOrder).Spec.Template.Spec.Containers.map
        (fun x => x.VolumeMounts) =
      [cfg.Volumes.map (fun vol =>
        { Name := vol.Name, MountPath := vol.MountPath, ReadOnly := vol.ReadOnly })] := by
  simp only [createDeployment, List.map_cons, List.map_nil]
  rw [foldl_append_pair
    (fun vol : VolumeConfig =>
      ({ Name := vol.Name
         VolumeSource :=
          { PersistentVolumeClaim := some { ClaimName := pvcName name vol } } } : k8s.Volume))
    (fun vol : VolumeConfig =>
      ({ Name := vol.Name, MountPath := vol.MountPath, ReadOnly := vol.ReadOnly } :
        k8s.VolumeMount))]
  simp

/-- The container of the Deployment. -/
theorem createDeployment_containers (c : Config) (name : String) (cfg : ServiceConfig)
    (envOrder : List String) :
    (createDeployment c name cfg envOrder).Spec.Template.Spec.Containers =
      [ { Name := name
          Image := cfg.Image ++ ":" ++ cfg.Tag
          Ports := [ { ContainerPort := cfg.Port, Protocol := "TCP" } ]
          Env := (cfg.Environment.range envOrder).map (fun kv => { Name := kv.1, Value := kv.2 })
          VolumeMounts := cfg.Volumes.map (fun vol =>
            { Name := vol.Name, MountPath := vol.MountPath, ReadOnly := vol.ReadOnly })
          Resources :=
            { Requests :=
                [("cpu", cfg.Resources.Requests.CPU), ("memory", cfg.Resources.Requests.Memory)]
              Limits :=
                [("cpu", cfg.Resources.Limits.CPU), ("memory", cfg.Resources.Limits.Memory)] } } ] := by
  have he := createDeployment_env c name cfg envOrder
  have hm := createDeployment_volumeMounts c name cfg envOrder
  generalize hd : createDeployment c name cfg envOrder = d at he hm
  have hshape : ∃ env mounts, d.Spec.Template.Spec.Containers =
      [ { Name := name
          Image := cfg.Image ++ ":" ++ cfg.Tag
          Ports := [ { ContainerPort := cfg.Port, Protocol := "TCP" } ]
          Env := env
          VolumeMounts := mounts
          Resources :=
            { Requests :=
                [("cpu", cfg.Resources.Requests.CPU), ("memory", cfg.Resources.Requests.Memory)]
              Limits :=
                [("cpu", cfg.Resources.Limits.CPU), ("memory", cfg.Resources.Limits.Memory)] } } ] := by
    subst hd
    exact ⟨_, _, rfl⟩
  obtain ⟨env, mounts, hs⟩ := hshape
  rw [hs] at he hm ⊢
  simp only [List.map_cons, List.map_nil, List.cons.injEq, and_true] at he hm
  rw [he, hm]

/-- C17. For an order that visits every key of `cfg.Environment` once,
`createDeployment` returns a Deployment with one replica and exactly one
container: named after the service, with image `Image:Tag`, one container
port `cfg.Port`, the configured cpu and memory strings as requests and
limits, an env list that holds the pair `k, v` exactly when `cfg.Environment`
maps `k` to `v` and no name twice, and one volume mount per volume of
`cfg.Volumes`, in order, with its name, mount path and read-only flag. -/
theorem C17_deployment_shape (c : Config) (name : String) (cfg : ServiceConfig)
    (envOrder : List String) (hp : envOrder.Perm cfg.Environment.keys.dedup) :
    (createDeployment c name cfg envOrder).Spec.Replicas = some 1 ∧
    ∃ ctr : k8s.Container,
      (createDeployment c name cfg envOrder).Spec.Template.Spec.Containers = [ctr] ∧
      ctr.Name = name ∧
      ctr.Image = cfg.Image ++ ":" ++ cfg.Tag ∧
      (∃ port : k8s.ContainerPort, ctr.Ports = [port] ∧ port.ContainerPort = cfg.Port) ∧
      ctr.Resources.Requests =
        [("cpu", cfg.Resources.Requests.CPU), ("memory", cfg.Resources.Requests.Memory)] ∧
      ctr.Resources.Limits =
        [("cpu", cfg.Resources.Limits.CPU), ("memory", cfg.Resources.Limits.Memory)] ∧
      (∀ k v, ({ Name := k, Value := v } : k8s.EnvVar) ∈ ctr.Env ↔
        cfg.Environment.get? k = some v) ∧
      (ctr.Env.map (fun e => e.Name)).Nodup ∧
      ctr.VolumeMounts.length = cfg.Volumes.length ∧
      ctr.VolumeMounts = cfg.Volumes.map (fun vol =>
        { Name := vol.Name, MountPath := vol.MountPath, ReadOnly := vol.ReadOnly }) := by
  refine ⟨rfl, _, createDeployment_containers c name cfg envOrder, rfl, rfl, ⟨_, rfl, rfl⟩,
    rfl, rfl, ?_, ?_, ?_, rfl⟩
  · intro k v
    simp only [List.mem_map, k8s.EnvVar.mk.injEq]
    constructor
    · rintro ⟨kv, hkv, rfl, rfl⟩
      exact ((GoMap.mem_range _ _ kv).mp hkv).2
    · intro hg
      refine ⟨(k, v), (GoMap.mem_range _ _ (k, v)).mpr ⟨?_, hg⟩, rfl, rfl⟩
      rw [hp.mem_iff, List.mem_dedup, GoMap.mem_keys_iff]
      exact ⟨v, hg⟩
  · simp only [List.map_map]
    have hn : envOrder.Nodup := hp.nodup_iff.mpr (List.nodup_dedup _)
    exact GoMap.range_keys_nodup cfg.Environment envOrder hn
  · simp

theorem C17_deployment_shape_witness :
    ["TZ", "PGID", "PUID"].Perm getDefaultConfig.Services.Sonarr.Environment.keys.dedup ∧
    (createDeployment getDefaultConfig "sonarr" getDefaultConfig.Services.Sonarr
      ["TZ", "PGID", "PUID"]).Spec.Template.Spec.Containers.map
        (fun x => (x.Name, x.Image, x.Env)) =
      [("sonarr", "linuxserver/sonarr:latest",
        [{ Name := "TZ", Value := "Europe/Paris" }, { Name := "PGID", Value := "1000" },
         { Name := "PUID", Value := "1000" }])] ∧
    (createDeployment getDefaultConfig "sonarr" getDefaultConfig.Services.Sonarr
      ["TZ", "PGID", "PUID"]).Spec.Replicas = some 1 :=
  ⟨by decide, rfl,
    (C17_deployment_shape getDefaultConfig "sonarr" getDefaultConfig.Services.Sonarr
      ["TZ", "PGID", "PUID"] (by decide)).1⟩

theorem GoMap.range_perm {β : Type} (m : GoMap β) (o1 o2 : List String) (h : o1.Perm o2) :
    (m.range o1).Perm (m.range o2) :=
  List.Perm.filterMap _ h

theorem ingressRules_perm (c : Config) (o1 o2 : List String) (h : o1.Perm o2) :
    (ingressRules c o1).Perm (ingressRules c o2) := by
  rw [ingressRules_eq, ingressRules_eq]
  exact List.Perm.append_left _
    (((GoMap.range_perm (otherServices c) o1 o2 h).filter _).map _)

theorem certDNSNames_perm (c : Config) (o1 o2 : List String) (h : o1.Perm o2) :
    (certDNSNames c o1).Perm (certDNSNames c o2) := by
  rw [certDNSNames_eq, certDNSNames_eq]
  exact List.Perm.append_left _
    (((GoMap.range_perm (otherServices c) o1 o2 h).filter _).map _)

theorem sameIngress_refl (a : k8s.Ingress) : sameIngress a a :=
  ⟨rfl, rfl, rfl, rfl, fun _ => rfl, rfl,
    List.forall₂_same.mpr (fun _ _ => ⟨List.Perm.refl _, rfl⟩), List.Perm.refl _⟩

theorem sameCertificate_refl (a : k8s.Certificate) : sameCertificate a a :=
  ⟨rfl, rfl, rfl, rfl, List.Perm.refl _⟩

theorem sameDeployment_refl (a : k8s.Deployment) : sameDeployment a a :=
  ⟨rfl, rfl, rfl, rfl, rfl,
    List.forall₂_same.mpr (fun _ _ => ⟨rfl, rfl, rfl, List.Perm.refl _, rfl, rfl⟩), rfl⟩

theorem sameObject_refl (a : Object) : sameObject a a := by
  cases a with
  | ingress x => exact sameIngress_refl x
  | certificate x => exact sameCertificate_refl x
  | deployment x => exact sameDeployment_refl x
  | ns x => simp [sameObject]
  | pvc x => simp [sameObject]
  | service x => simp [sameObject]
  | clusterIssuer x => simp [sameObject]

theorem samePiece_refl (a : Piece) : samePiece a a := by
  cases a with
  | yaml o => exact sameObject_refl o
  | sep => trivial

theorem sameManifest_refl (a : Manifest) : sameManifest a a :=
  List.forall₂_same.mpr (fun x _ => samePiece_refl x)

theorem sameDeployment_createDeployment (c : Config) (name : String) (cfg : ServiceConfig)
    (o1 o2 : List String) (h : o1.Perm o2) :
    sameDeployment (createDeployment c name cfg o1) (createDeployment c name cfg o2) := by
  refine ⟨rfl, rfl, rfl, rfl, rfl, ?_, ?_⟩
  · rw [createDeployment_containers, createDeployment_containers]
    refine List.Forall₂.cons ⟨rfl, rfl, rfl, ?_, rfl, rfl⟩ List.Forall₂.nil
    exact (GoMap.range_perm cfg.Environment o1 o2 h).map _
  · rw [createDeployment_volumes, createDeployment_volumes]

theorem sameManifest_generateService (c : Config) (name : String) (cfg : ServiceConfig)
    (o1 o2 : List String) (h : o1.Perm o2) :
    sameManifest (generateService c name cfg o1).1 (generateService c name cfg o2).1 := by
  rw [generateService_fst, generateService_fst]
  refine List.rel_append (sameManifest_refl _) ?_
  refine List.Forall₂.cons ?_ (List.Forall₂.cons trivial (List.Forall₂.cons ?_ List.Forall₂.nil))
  · exact sameDeployment_createDeployment c name cfg o1 o2 h
  · exact samePiece_refl _

theorem sameIngress_builtIngress (c : Config) (s1 s2 : Schedule)
    (h1 : s1.Valid c) (h2 : s2.Valid c) :
    sameIngress (builtIngress c s1) (builtIngress c s2) := by
  have hr : (ingressRules c s1.ingressServices).Perm (ingressRules c s2.ingressServices) :=
    ingressRules_perm c _ _ (h1.2.1.trans h2.2.1.symm)
  refine ⟨rfl, rfl, rfl, rfl, ?_, rfl, ?_, hr⟩
  · intro k
    show (ingressAnnotations c s1.annotations).get? k = (ingressAnnotations c s2.annotations).get? k
    rw [ingressAnnotations_get? c s1.annotations h1.2.2.1 k,
      ingressAnnotations_get? c s2.annotations h2.2.2.1 k]
  · show List.Forall₂ sameIngressTLS
      (if c.Ingress.TLS.Enabled then _ else []) (if c.Ingress.TLS.Enabled then _ else [])
    cases c.Ingress.TLS.Enabled
    · exact List.Forall₂.nil
    · exact List.Forall₂.cons ⟨hr.map _, rfl⟩ List.Forall₂.nil

theorem sameManifest_generateIngress (c : Config) (s1 s2 : Schedule)
    (h1 : s1.Valid c) (h2 : s2.Valid c) :
    sameManifest (generateIngress c s1).1 (generateIngress c s2).1 := by
  have hne1 := ingressRules_ne_nil c s1.ingressServices h1.2.1
  have hne2 := ingressRules_ne_nil c s2.ingressServices h2.2.1
  rw [generateIngress_eq, generateIngress_eq]
  by_cases hr : ingressRules c s1.ingressServices = []
  · have hr2 : ingressRules c s2.ingressServices = [] := by
      by_contra hn
      exact (hne1.mpr (hne2.mp hn)) hr
    rw [if_pos hr, if_pos hr2]
    exact List.Forall₂.nil
  · have hr2 : ingressRules c s2.ingressServices ≠ [] := hne2.mpr (hne1.mp hr)
    rw [if_neg hr, if_neg hr2]
    exact List.Forall₂.cons (sameIngress_builtIngress c s1 s2 h1 h2) List.Forall₂.nil

theorem generateCertManager_snd_eq (c : Config) (o1 o2 : List String) :
    (generateCertManager c o1).2 = (generateCertManager c o2).2 := by
  unfold generateCertManager
  split
  · split
    · rfl
    · rw [certManagerDocuments_eq, certManagerDocuments_eq]
  · split
    · rw [certManagerDocuments_eq, certManagerDocuments_eq]
    · rfl

theorem sameManifest_generateCertManager (c : Config) (o1 o2 : List String) (h : o1.Perm o2) :
    sameManifest (generateCertManager c o1).1 (generateCertManager c o2).1 := by
  have hd : (certDNSNames c o1).Perm (certDNSNames c o2) := certDNSNames_perm c o1 o2 h
  have hnil : certDNSNames c o1 = [] ↔ certDNSNames c o2 = [] :=
    ⟨fun h0 => (List.perm_nil.mp (h0 ▸ hd.symm)), fun h0 => (List.perm_nil.mp (h0 ▸ hd))⟩
  cases he : (generateCertManager c o1).2 with
  | some e =>
    have he2 : (generateCertManager c o2).2 = some e := by
      rw [← generateCertManager_snd_eq c o1 o2, he]
    rw [generateCertManager_err c o1 e he, generateCertManager_err c o2 e he2]
    exact List.Forall₂.nil
  | none =>
    have he2 : (generateCertManager c o2).2 = none := by
      rw [← generateCertManager_snd_eq c o1 o2, he]
    rw [generateCertManager_ok c o1 he, generateCertManager_ok c o2 he2]
    refine List.Forall₂.cons (samePiece_refl _) ?_
    by_cases hc : c.Ingress.TLS.Enabled = true ∧ certDNSNames c o1 ≠ []
    · have hc2 : c.Ingress.TLS.Enabled = true ∧ certDNSNames c o2 ≠ [] :=
        ⟨hc.1, fun h0 => hc.2 (hnil.mpr h0)⟩
      rw [if_pos hc, if_pos hc2]
      exact List.Forall₂.cons trivial
        (List.Forall₂.cons ⟨rfl, rfl, rfl, rfl, hd⟩ List.Forall₂.nil)
    · have hc2 : ¬(c.Ingress.TLS.Enabled = true ∧ certDNSNames c o2 ≠ []) :=
        fun h0 => hc ⟨h0.1, fun h3 => h0.2 (hnil.mp h3)⟩
      rw [if_neg hc, if_neg hc2]
      exact List.Forall₂.nil

theorem sameEntries_serviceEntries (c : Config) (s1 s2 : Schedule)
    (l : List (String × ServiceConfig))
    (hl : ∀ p ∈ l, (s1.environment p.1).Perm (s2.environment p.1)) (n : Nat) :
    List.Forall₂ (fun x y : String × Manifest => x.1 = y.1 ∧ sameManifest x.2 y.2)
      (serviceEntries c s1 l n) (serviceEntries c s2 l n) := by
  induction l generalizing n with
  | nil => exact List.Forall₂.nil
  | cons svc rest ih =>
    have hrest : ∀ p ∈ rest, (s1.environment p.1).Perm (s2.environment p.1) :=
      fun p hp => hl p (List.mem_cons_of_mem _ hp)
    unfold serviceEntries
    cases svc.2.Enabled
    · exact ih hrest n
    · exact List.Forall₂.cons
        ⟨rfl, sameManifest_generateService c svc.1 svc.2 _ _ (hl svc (List.mem_cons_self _ _))⟩
        (ih hrest (n + 1))

/-- Entry by entry, two runs on the same configuration build the same mapping. -/
theorem sameEntries_expectedOutput (c : Config) (s1 s2 : Schedule)
    (h1 : s1.Valid c) (h2 : s2.Valid c) :
    List.Forall₂ (fun x y : String × Manifest => x.1 = y.1 ∧ sameManifest x.2 y.2)
      (expectedOutput c s1) (expectedOutput c s2) := by
  unfold expectedOutput
  have hgi := sameManifest_generateIngress c s1 s2 h1 h2
  have hnil : (generateIngress c s1).1 = [] ↔ (generateIngress c s2).1 = [] := by
    constructor
    · intro h0
      rw [h0] at hgi
      exact List.forall₂_nil_left_iff.mp hgi
    · intro h0
      rw [h0] at hgi
      exact List.forall₂_nil_right_iff.mp hgi
  refine List.rel_append (List.rel_append (List.rel_append ?_ ?_) ?_) ?_
  · exact List.Forall₂.cons ⟨rfl, sameManifest_refl _⟩
      (List.Forall₂.cons ⟨rfl, sameManifest_refl _⟩ List.Forall₂.nil)
  · cases c.CertManager.Enabled
    · exact List.Forall₂.nil
    · exact List.Forall₂.cons
        ⟨rfl, sameManifest_generateCertManager c _ _ (h1.1.trans h2.1.symm)⟩ List.Forall₂.nil
  · exact sameEntries_serviceEntries c s1 s2 (services c)
      (fun p hp => (h1.2.2.2 p hp).trans (h2.2.2.2 p hp).symm) 3
  · cases c.Ingress.Enabled
    · exact List.Forall₂.nil
    · by_cases h0 : (generateIngress c s1).1 = []
      · have h0' := hnil.mp h0
        simp only [Bool.true_and, h0, h0', ne_eq, not_true_eq_false, decide_False,
          Bool.false_eq_true, if_false]
        exact List.Forall₂.nil
      · have h0' : ¬ (generateIngress c s2).1 = [] := fun h3 => h0 (hnil.mpr h3)
        simp only [Bool.true_and, h0, h0', ne_eq, not_false_eq_true, decide_True, if_true]
        exact List.Forall₂.cons ⟨rfl, hgi⟩ List.Forall₂.nil

theorem sameEntries_keys (a b : ManifestMap)
    (h : List.Forall₂ (fun x y : String × Manifest => x.1 = y.1 ∧ sameManifest x.2 y.2) a b) :
    a.keys = b.keys := by
  induction h with
  | nil => rfl
  | cons hxy _ ih =>
    simp only [GoMap.keys, List.map_cons, List.cons.injEq] at ih ⊢
    exact ⟨hxy.1, ih⟩

theorem sameEntries_get? (a b : ManifestMap)
    (h : List.Forall₂ (fun x y : String × Manifest => x.1 = y.1 ∧ sameManifest x.2 y.2) a b)
    (k : String) (m1 : Manifest) (hk : a.get? k = some m1) :
    ∃ m2, b.get? k = some m2 ∧ sameManifest m1 m2 := by
  induction h with
  | nil => simp [GoMap.get?] at hk
  | @cons x y l1 l2 hxy _ ih =>
    obtain ⟨x1, x2⟩ := x
    obtain ⟨y1, y2⟩ := y
    simp only at hxy
    obtain ⟨rfl, hm⟩ := hxy
    by_cases hx : x1 = k
    · simp only [GoMap.get?, hx, if_true, Option.some.injEq] at hk ⊢
      subst hk
      exact ⟨y2, rfl, hm⟩
    · simp only [GoMap.get?, hx, if_false] at hk ⊢
      exact ih hk

/-- C20. For any two valid iteration schedules on the same configuration,
`GenerateAll` returns the same error, and when one run returns a mapping the
other returns a mapping with the same keys that holds, under each key, a
manifest with the same pieces in the same order: the same objects field by
field, where the rule list and the TLS host lists of an Ingress, the DNS
names of a Certificate and the env list of a container are equal up to
order, and the annotations of an Ingress are equal as maps. -/
theorem C20_same_output_for_any_order (c : Config) (s1 s2 : Schedule)
    (h1 : s1.Valid c) (h2 : s2.Valid c) :
    (GenerateAll c s1).2 = (GenerateAll c s2).2 ∧
    ((GenerateAll c s1).1 = none ↔ (GenerateAll c s2).1 = none) ∧
    ∀ out1, (GenerateAll c s1).1 = some out1 →
      ∃ out2, (GenerateAll c s2).1 = some out2 ∧
        out1.keys = out2.keys ∧
        ∀ k m1, out1.get? k = some m1 → ∃ m2, out2.get? k = some m2 ∧ sameManifest m1 m2 := by
  have herr := generateCertManager_snd_eq c s1.certServices s2.certServices
  have hrel := sameEntries_expectedOutput c s1 s2 h1 h2
  rw [GenerateAll_eq c s1, GenerateAll_eq c s2, herr]
  by_cases hc : c.CertManager.Enabled = true ∧ (generateCertManager c s2.certServices).2 ≠ none
  · rw [if_pos hc, if_pos hc]
    refine ⟨rfl, Iff.rfl, ?_⟩
    intro out1 h0
    simp at h0
  · rw [if_neg hc, if_neg hc]
    refine ⟨rfl, ⟨fun h0 => by simp at h0, fun h0 => by simp at h0⟩, ?_⟩
    intro out1 h0
    simp only [Option.some.injEq] at h0
    subst h0
    exact ⟨expectedOutput c s2, rfl, sameEntries_keys _ _ hrel, sameEntries_get? _ _ hrel⟩

theorem Schedule.reversed_valid (c : Config) : (Schedule.reversed c).Valid c := by
  obtain ⟨h1, h2, h3, h4⟩ := Schedule.canonical_valid c
  exact ⟨(List.reverse_perm _).trans h1, (List.reverse_perm _).trans h2,
    (List.reverse_perm _).trans h3, fun p hp => (List.reverse_perm _).trans (h4 p hp)⟩

theorem C20_same_output_for_any_order_witness :
    (Schedule.canonical configTLS).Valid configTLS ∧
    (Schedule.reversed configTLS).Valid configTLS ∧
    (Schedule.reversed configTLS).certServices = ["qbittorrent", "jackett", "radarr", "sonarr"] ∧
    (Schedule.reversed configTLS).environment "sonarr" = ["TZ", "PGID", "PUID"] ∧
    ((GenerateAll configTLS (Schedule.canonical configTLS)).2 =
        (GenerateAll configTLS (Schedule.reversed configTLS)).2 ∧
     ((GenerateAll configTLS (Schedule.canonical configTLS)).1 = none ↔
        (GenerateAll configTLS (Schedule.reversed configTLS)).1 = none) ∧
     ∀ out1, (GenerateAll configTLS (Schedule.canonical configTLS)).1 = some out1 →
      ∃ out2, (GenerateAll configTLS (Schedule.reversed configTLS)).1 = some out2 ∧
        out1.keys = out2.keys ∧
        ∀ k m1, out1.get? k = some m1 →
          ∃ m2, out2.get? k = some m2 ∧ sameManifest m1 m2) :=
  ⟨Schedule.canonical_valid configTLS, Schedule.reversed_valid configTLS, rfl, rfl,
    C20_same_output_for_any_order configTLS (Schedule.canonical configTLS)
      (Schedule.reversed configTLS) (Schedule.canonical_valid configTLS)
      (Schedule.reversed_valid configTLS)⟩

/-- C22. The manifest of `generateService` for service `name` holds, for
the volumes of `cfg` with a non-empty size, in the order of the volume list,
one PersistentVolumeClaim each, named `<name>-<volume name>-pvc`, with access
mode `ReadWriteOnce`, the size of the volume as storage request and the
configured storage class (whatever the name of the volume, `media` and
`downloads` included), each followed by a marker; then one Deployment, a
marker, and one Service.  So it holds `k + 2` objects for `k` sized volumes,
and a volume with an empty size adds no claim. -/
theorem C22_service_manifest (c : Config) (name : String) (cfg : ServiceConfig)
    (envOrder : List String) :
    (generateService c name cfg envOrder).2 = none ∧
    (∃ claims : List k8s.PersistentVolumeClaim,
      (generateService c name cfg envOrder).1 =
        (claims.map (fun p => [Piece.yaml (Object.pvc p), Piece.sep])).flatten ++
        [Piece.yaml (Object.deployment (createDeployment c name cfg envOrder)), Piece.sep,
         Piece.yaml (Object.service (createService c name cfg))] ∧
      objectsOf (generateService c name cfg envOrder).1 =
        claims.map Object.pvc ++
        [Object.deployment (createDeployment c name cfg envOrder),
         Object.service (createService c name cfg)] ∧
      claims.map (fun p =>
          (p.TypeMeta.Kind, p.ObjectMeta.Name, p.Spec.AccessModes, p.Spec.Resources.Requests,
            p.Spec.StorageClassName)) =
        (cfg.Volumes.filter (fun v => decide (v.Size ≠ ""))).map (fun vol =>
          ("PersistentVolumeClaim", name ++ "-" ++ vol.Name ++ "-pvc", ["ReadWriteOnce"],
            [("storage", vol.Size)], some c.StorageClass))) ∧
    (objectsOf (generateService c name cfg envOrder).1).length =
      (cfg.Volumes.filter (fun v => decide (v.Size ≠ ""))).length + 2 ∧
    (claimsOf (objectsOf (generateService c name cfg envOrder).1)).length =
      (cfg.Volumes.filter (fun v => decide (v.Size ≠ ""))).length ∧
    (deploymentsOf (objectsOf (generateService c name cfg envOrder).1)).length = 1 ∧
    (servicesOf (objectsOf (generateService c name cfg envOrder).1)).length = 1 := by
  have hobj := objectsOf_generateService c name cfg envOrder
  refine ⟨rfl, ⟨(cfg.Volumes.filter (fun v => decide (v.Size ≠ ""))).map (servicePVC c name),
    ?_, ?_, ?_⟩, ?_, ?_, ?_, ?_⟩
  · rw [generateService_fst, List.map_map]
    rfl
  · rw [hobj, List.map_map]
    rfl
  · rw [List.map_map]
    rfl
  · rw [hobj]
    simp
  · rw [claimsOf_generateService]
    simp
  · rw [hobj]
    have h1 : ∀ l : List VolumeConfig,
        deploymentsOf (l.map (fun v => Object.pvc (servicePVC c name v)) ++
          [Object.deployment (createDeployment c name cfg envOrder),
           Object.service (createService c name cfg)]) =
          [createDeployment c name cfg envOrder] := by
      intro l
      induction l with
      | nil => rfl
      | cons v vs ih =>
        simp only [deploymentsOf, List.map_cons, List.cons_append, List.filterMap_cons] at ih ⊢
        exact ih
    rw [h1]
    rfl
  · rw [hobj]
    have h1 : ∀ l : List VolumeConfig,
        servicesOf (l.map (fun v => Object.pvc (servicePVC c name v)) ++
          [Object.deployment (createDeployment c name cfg envOrder),
           Object.service (createService c name cfg)]) =
          [createService c name cfg] := by
      intro l
      induction l with
      | nil => rfl
      | cons v vs ih =>
        simp only [servicesOf, List.map_cons, List.cons_append, List.filterMap_cons] at ih ⊢
        exact ih
    rw [h1]
    rfl

/-- C23. For every service name and service configuration, the selector of
the Service, the match labels of the selector of the Deployment, the labels
of the pod template and the metadata labels of both objects are the one map
`app: <name>`, `component: teleflix`; and the port and the target port of the
Service are the container port of the container of the Deployment. -/
theorem C23_labels_and_ports_agree (c : Config) (name : String) (cfg : ServiceConfig)
    (envOrder : List String) :
    (createService c name cfg).Spec.Selector = [("app", name), ("component", "teleflix")] ∧
    (createDeployment c name cfg envOrder).Spec.Selector =
      some { MatchLabels := (createService c name cfg).Spec.Selector } ∧
    (createDeployment c name cfg envOrder).Spec.Template.ObjectMeta.Labels =
      (createService c name cfg).Spec.Selector ∧
    (createDeployment c name cfg envOrder).ObjectMeta.Labels =
      (createService c name cfg).Spec.Selector ∧
    (createService c name cfg).ObjectMeta.Labels = (createService c name cfg).Spec.Selector ∧
    (createService c name cfg).Spec.Ports.map (fun p => p.Port) =
      ((createDeployment c name cfg envOrder).Spec.Template.Spec.Containers.map
        (fun x => x.Ports.map (fun p => p.ContainerPort))).flatten ∧
    (createService c name cfg).Spec.Ports.map (fun p => p.TargetPort) =
      ((createDeployment c name cfg envOrder).Spec.Template.Spec.Containers.map
        (fun x => x.Ports.map (fun p => p.ContainerPort))).flatten ∧
    (createService c name cfg).Spec.Ports.map (fun p => p.Port) = [cfg.Port] :=
  ⟨rfl, rfl, rfl, rfl, rfl, rfl, rfl, rfl⟩

/-- C25. When `generateIngress` emits an Ingress: if ingress TLS is enabled
the Ingress has exactly one TLS entry, whose hosts are the hosts of the
rules in the same order, a list that is not empty, and whose secret name is
`Ingress.TLS.SecretName`; if ingress TLS is disabled the Ingress has no TLS
entry.  Nothing is assumed about cert-manager. -/
theorem C25_ingress_tls_entry (c : Config) (s : Schedule) (ing : k8s.Ingress)
    (h : (generateIngress c s).1 = [Piece.yaml (Object.ingress ing)]) :
    (c.Ingress.TLS.Enabled = true →
      ing.Spec.TLS = [{ Hosts := ruleHosts ing, SecretName := c.Ingress.TLS.SecretName }] ∧
      ruleHosts ing ≠ []) ∧
    (c.Ingress.TLS.Enabled = false → ing.Spec.TLS = []) := by
  obtain ⟨rfl, hne⟩ := generateIngress_emits c s ing h
  constructor
  · intro hT
    refine ⟨by simp [builtIngress, hT, ruleHosts], ?_⟩
    intro hnil
    apply hne
    simpa [ruleHosts, builtIngress] using hnil
  · intro hT
    simp [builtIngress, hT]

theorem C25_ingress_tls_entry_witness :
    (generateIngress configTLSWithoutCertManager
      (Schedule.canonical configTLSWithoutCertManager)).1 =
      [Piece.yaml (Object.ingress (builtIngress configTLSWithoutCertManager
        (Schedule.canonical configTLSWithoutCertManager)))] ∧
    configTLSWithoutCertManager.CertManager.Enabled = false ∧
    configTLSWithoutCertManager.Ingress.TLS.Enabled = true ∧
    (builtIngress configTLSWithoutCertManager
      (Schedule.canonical configTLSWithoutCertManager)).Spec.TLS =
      [{ Hosts := ["jellyfin.teleflix.local", "sonarr.teleflix.local"],
         SecretName := "teleflix-tls" }] :=
  ⟨rfl, rfl, rfl,
    ((C25_ingress_tls_entry configTLSWithoutCertManager
      (Schedule.canonical configTLSWithoutCertManager)
      (builtIngress configTLSWithoutCertManager
        (Schedule.canonical configTLSWithoutCertManager)) rfl).1 rfl).1⟩

theorem string_append_right_cancel (a b x : String) (h : a ++ x = b ++ x) : a = b := by
  have hd := congrArg String.data h
  simp only [String.data_append] at hd
  exact String.ext (List.append_cancel_right hd)

theorem otherServices_range_keys (c : Config) :
    (otherServices c).range (otherServices c).keys = otherServices c := by
  simp [GoMap.range, GoMap.keys, otherServices, GoMap.get?]

theorem otherServices_range_perm (c : Config) (order : List String)
    (hp : order.Perm (otherServices c).keys) :
    ((otherServices c).range order).Perm (otherServices c) := by
  have h := GoMap.range_perm (otherServices c) order (otherServices c).keys hp
  rw [otherServices_range_keys] at h
  exact h

theorem exposedHosts_eq (c : Config) :
    exposedHosts c =
      (if c.Services.Jellyfin.Enabled && c.Services.Jellyfin.Exposed
        then ["jellyfin." ++ c.Domain] else []) ++
      ((otherServices c).filter (fun kv => kv.2.Enabled && kv.2.Exposed)).map
        (fun kv => kv.1 ++ "." ++ c.Domain) := by
  rw [exposedHosts, services_eq, List.filter_cons]
  cases c.Services.Jellyfin.Enabled && c.Services.Jellyfin.Exposed
  · simp
  · simp [jellyfin_dot, String.append_assoc]

/-- For a valid order, the DNS names are the hosts of the enabled and exposed
services, each once, in some order. -/
theorem certDNSNames_perm_exposedHosts (c : Config) (order : List String)
    (hp : order.Perm (otherServices c).keys) :
    (certDNSNames c order).Perm (exposedHosts c) := by
  rw [certDNSNames_eq, exposedHosts_eq]
  exact List.Perm.append_left _ (((otherServices_range_perm c order hp).filter _).map _)

/-- The five services have five different names. -/
theorem services_name_inj (c : Config) (x y : String × ServiceConfig)
    (hx : x ∈ services c) (hy : y ∈ services c) (hname : x.1 = y.1) : x = y := by
  simp only [services, List.mem_cons, List.mem_singleton, List.mem_nil_iff, or_false] at hx hy
  rcases hx with rfl | rfl | rfl | rfl | rfl <;>
  rcases hy with rfl | rfl | rfl | rfl | rfl <;>
  first
  | rfl
  | (dsimp only at hname; exact absurd hname (by decide))

theorem exposedHosts_nodup (c : Config) : (exposedHosts c).Nodup := by
  unfold exposedHosts
  refine List.Nodup.map_on ?_ ?_
  · intro x hx y hy hxy
    have hname : x.1 = y.1 := by
      rw [String.append_assoc, String.append_assoc] at hxy
      exact string_append_right_cancel _ _ _ hxy
    exact services_name_inj c x y (List.mem_filter.mp hx).1 (List.mem_filter.mp hy).1 hname
  · refine List.Nodup.filter _ ?_
    have hk : ((services c).map Prod.fst).Nodup := by
      simp [services]
    exact List.Nodup.of_map _ hk

theorem certDNSNames_head? (c : Config) (order : List String)
    (hJ : c.Services.Jellyfin.Enabled = true ∧ c.Services.Jellyfin.Exposed = true) :
    (certDNSNames c order).head? = some ("jellyfin." ++ c.Domain) := by
  rw [certDNSNames_eq, hJ.1, hJ.2]
  rfl

/-- C21. With Jellyfin enabled and exposed, for every valid iteration
schedule and every mapping that `GenerateAll` returns: the hosts of the rules
of every Ingress of the output start with `jellyfin.<Domain>`, and so do the
DNS names of every Certificate of the output; both lists have no repetition
and hold, in some order, exactly the hosts of the enabled and exposed
services, so each such service has exactly one rule and one DNS name, and
the number of rules is the number of enabled and exposed services.  These
objects are really there: when the ingress is enabled the output holds
exactly one Ingress, the text under `99-ingress`, with these properties; and
when cert-manager and ingress TLS are enabled the output holds exactly one
Certificate, the last piece of the text under `02-cert-manager`, with these
properties. -/
theorem C21_jellyfin_first_no_duplicates (c : Config) (s : Schedule) (hv : s.Valid c)
    (hJ : c.Services.Jellyfin.Enabled = true ∧ c.Services.Jellyfin.Exposed = true)
    (out : ManifestMap) (h : (GenerateAll c s).1 = some out) :
    (∀ ing ∈ ingressesOf (emittedObjects out),
      (ruleHosts ing).head? = some ("jellyfin." ++ c.Domain) ∧
      (ruleHosts ing).Nodup ∧
      (ruleHosts ing).Perm (exposedHosts c) ∧
      ing.Spec.Rules.length =
        ((services c).filter (fun p => p.2.Enabled && p.2.Exposed)).length ∧
      ∀ p ∈ services c, p.2.Enabled = true → p.2.Exposed = true →
        (ruleHosts ing).count (p.1 ++ "." ++ c.Domain) = 1) ∧
    (∀ cert ∈ certificatesOf (emittedObjects out),
      cert.Spec.DNSNames.head? = some ("jellyfin." ++ c.Domain) ∧
      cert.Spec.DNSNames.Nodup ∧
      cert.Spec.DNSNames.Perm (exposedHosts c) ∧
      ∀ p ∈ services c, p.2.Enabled = true → p.2.Exposed = true →
        cert.Spec.DNSNames.count (p.1 ++ "." ++ c.Domain) = 1) ∧
    (c.Ingress.Enabled = true →
      ∃ ing : k8s.Ingress,
        ingressesOf (emittedObjects out) = [ing] ∧
        out.get? "99-ingress" = some [Piece.yaml (Object.ingress ing)] ∧
        (ruleHosts ing).head? = some ("jellyfin." ++ c.Domain) ∧
        (ruleHosts ing).Nodup ∧
        (ruleHosts ing).Perm (exposedHosts c) ∧
        ing.Spec.Rules.length =
          ((services c).filter (fun p => p.2.Enabled && p.2.Exposed)).length ∧
        ∀ p ∈ services c, p.2.Enabled = true → p.2.Exposed = true →
          (ruleHosts ing).count (p.1 ++ "." ++ c.Domain) = 1) ∧
    (c.CertManager.Enabled = true → c.Ingress.TLS.Enabled = true →
      ∃ cert : k8s.Certificate,
        certificatesOf (emittedObjects out) = [cert] ∧
        (∃ issuer : k8s.ClusterIssuer, out.get? "02-cert-manager" =
          some [Piece.yaml (Object.clusterIssuer issuer), Piece.sep,
                Piece.yaml (Object.certificate cert)]) ∧
        cert.Spec.DNSNames.head? = some ("jellyfin." ++ c.Domain) ∧
        cert.Spec.DNSNames.Nodup ∧
        cert.Spec.DNSNames.Perm (exposedHosts c) ∧
        cert.Spec.DNSNames.length =
          ((services c).filter (fun p => p.2.Enabled && p.2.Exposed)).length ∧
        ∀ p ∈ services c, p.2.Enabled = true → p.2.Exposed = true →
          cert.Spec.DNSNames.count (p.1 ++ "." ++ c.Domain) = 1) ∧
    (certDNSNames c s.certServices).head? = some ("jellyfin." ++ c.Domain) ∧
    ((ingressRules c s.ingressServices).map (fun r => r.Host)).head? =
      some ("jellyfin." ++ c.Domain) := by
  obtain ⟨rfl, hok⟩ := GenerateAll_of_some c s out h
  have key : ∀ order : List String, order.Perm (otherServices c).keys →
      (certDNSNames c order).head? = some ("jellyfin." ++ c.Domain) ∧
      (certDNSNames c order).Nodup ∧
      (certDNSNames c order).Perm (exposedHosts c) ∧
      ∀ p ∈ services c, p.2.Enabled = true → p.2.Exposed = true →
        (certDNSNames c order).count (p.1 ++ "." ++ c.Domain) = 1 := by
    intro order hp
    have hperm := certDNSNames_perm_exposedHosts c order hp
    have hnd : (certDNSNames c order).Nodup := hperm.nodup_iff.mpr (exposedHosts_nodup c)
    refine ⟨certDNSNames_head? c order hJ, hnd, hperm, ?_⟩
    intro p hp1 he hx
    refine List.count_eq_one_of_mem hnd ?_
    rw [mem_certDNSNames c order hp, mem_exposedHosts]
    exact ⟨p, hp1, he, hx, rfl⟩
  have hhosts : ruleHosts (builtIngress c s) = certDNSNames c s.ingressServices :=
    ingressRules_hosts c s.ingressServices
  have hlenExp : (exposedHosts c).length =
      ((services c).filter (fun p => p.2.Enabled && p.2.Exposed)).length := by
    simp [exposedHosts]
  have hing : (ruleHosts (builtIngress c s)).head? = some ("jellyfin." ++ c.Domain) ∧
      (ruleHosts (builtIngress c s)).Nodup ∧
      (ruleHosts (builtIngress c s)).Perm (exposedHosts c) ∧
      (builtIngress c s).Spec.Rules.length =
        ((services c).filter (fun p => p.2.Enabled && p.2.Exposed)).length ∧
      ∀ p ∈ services c, p.2.Enabled = true → p.2.Exposed = true →
        (ruleHosts (builtIngress c s)).count (p.1 ++ "." ++ c.Domain) = 1 := by
    obtain ⟨k1, k2, k3, k4⟩ := key s.ingressServices hv.2.1
    have hlen : (builtIngress c s).Spec.Rules.length = (ruleHosts (builtIngress c s)).length := by
      simp [ruleHosts]
    rw [hlen, hhosts]
    exact ⟨k1, k2, k3, by rw [k3.length_eq, hlenExp], k4⟩
  have hrules : ingressRules c s.ingressServices ≠ [] :=
    (ingressRules_ne_nil c s.ingressServices hv.2.1).mpr
      ⟨("jellyfin", c.Services.Jellyfin), by simp [services], hJ.1, hJ.2⟩
  have hdns : certDNSNames c s.certServices ≠ [] :=
    (certDNSNames_ne_nil c s.certServices hv.1).mpr
      ⟨("jellyfin", c.Services.Jellyfin), by simp [services], hJ.1, hJ.2⟩
  refine ⟨?_, ?_, ?_, ?_, certDNSNames_head? c s.certServices hJ, ?_⟩
  · intro ing hi
    rw [ingressesOf_expectedOutput] at hi
    split at hi
    swap
    · simp at hi
    simp only [List.mem_singleton] at hi
    subst hi
    exact hing
  · intro cert hc
    rw [certificatesOf_expectedOutput c s hok] at hc
    split at hc
    swap
    · simp at hc
    simp only [List.mem_singleton] at hc
    subst hc
    exact key s.certServices hv.1
  · intro hIE
    refine ⟨builtIngress c s, ?_, ?_, hing⟩
    · rw [ingressesOf_expectedOutput, if_pos ⟨hIE, hrules⟩]
    · have hgi : (generateIngress c s).1 = [Piece.yaml (Object.ingress (builtIngress c s))] := by
        rw [generateIngress_eq, if_neg hrules]
      rw [expectedOutput_get?_ingress, hgi, hIE]
      rfl
  · intro hCE hT
    obtain ⟨k1, k2, k3, k4⟩ := key s.certServices hv.1
    refine ⟨teleflixCertificate c (certDNSNames c s.certServices), ?_, ?_, k1, k2, k3, ?_, k4⟩
    · rw [certificatesOf_expectedOutput c s hok, if_pos ⟨hCE, hT, hdns⟩]
    · have hcm : (generateCertManager c s.certServices).2 = none := by
        rw [GenerateAll_eq] at hok
        by_contra hne
        rw [if_pos ⟨hCE, hne⟩] at hok
        exact hne hok
      refine ⟨chosenClusterIssuer c, ?_⟩
      rw [expectedOutput_get?_certManager, hCE, generateCertManager_ok c s.certServices hcm]
      have hc : c.Ingress.TLS.Enabled = true ∧ certDNSNames c s.certServices ≠ [] := ⟨hT, hdns⟩
      simp only [if_pos hc, if_true]
    · show (certDNSNames c s.certServices).length = _
      rw [k3.length_eq, hlenExp]
  · rw [ingressRules_hosts]
    exact certDNSNames_head? c s.ingressServices hJ

theorem C21_jellyfin_first_no_duplicates_witness :
    (Schedule.reversed configAllExposed).Valid configAllExposed ∧
    (configAllExposed.Services.Jellyfin.Enabled = true ∧
      configAllExposed.Services.Jellyfin.Exposed = true) ∧
    (Schedule.reversed configAllExposed).certServices =
      ["qbittorrent", "jackett", "radarr", "sonarr"] ∧
    (GenerateAll configAllExposed (Schedule.reversed configAllExposed)).1 =
      some (expectedOutput configAllExposed (Schedule.reversed configAllExposed)) ∧
    (ingressesOf (emittedObjects
        (expectedOutput configAllExposed (Schedule.reversed configAllExposed)))).map ruleHosts =
      [["jellyfin.teleflix.local", "qbittorrent.teleflix.local", "jackett.teleflix.local",
        "radarr.teleflix.local", "sonarr.teleflix.local"]] ∧
    (certificatesOf (emittedObjects
        (expectedOutput configAllExposed (Schedule.reversed configAllExposed)))).map
        (fun x => x.Spec.DNSNames) =
      [["jellyfin.teleflix.local", "qbittorrent.teleflix.local", "jackett.teleflix.local",
        "radarr.teleflix.local", "sonarr.teleflix.local"]] ∧
    (∃ cert : k8s.Certificate,
      certificatesOf (emittedObjects
        (expectedOutput configAllExposed (Schedule.reversed configAllExposed))) = [cert] ∧
      (∃ issuer : k8s.ClusterIssuer,
        (expectedOutput configAllExposed (Schedule.reversed configAllExposed)).get?
            "02-cert-manager" =
          some [Piece.yaml (Object.clusterIssuer issuer), Piece.sep,
                Piece.yaml (Object.certificate cert)]) ∧
      cert.Spec.DNSNames.head? = some ("jellyfin." ++ configAllExposed.Domain) ∧
      cert.Spec.DNSNames.Nodup ∧
      cert.Spec.DNSNames.Perm (exposedHosts configAllExposed) ∧
      cert.Spec.DNSNames.length =
        ((services configAllExposed).filter (fun p => p.2.Enabled && p.2.Exposed)).length ∧
      ∀ p ∈ services configAllExposed, p.2.Enabled = true → p.2.Exposed = true →
        cert.Spec.DNSNames.count (p.1 ++ "." ++ configAllExposed.Domain) = 1) :=
  ⟨Schedule.reversed_valid configAllExposed, ⟨rfl, rfl⟩, rfl, rfl, rfl, rfl,
    (C21_jellyfin_first_no_duplicates configAllExposed (Schedule.reversed configAllExposed)
      (Schedule.reversed_valid configAllExposed) ⟨rfl, rfl⟩
      (expectedOutput configAllExposed (Schedule.reversed configAllExposed)) rfl).2.2.2.1
      rfl rfl⟩

theorem mem_emittedObjects_serviceEntries (c : Config) (s : Schedule)
    (l : List (String × ServiceConfig)) (n : Nat) (o : Object) :
    o ∈ emittedObjects (serviceEntries c s l n) ↔
      ∃ p ∈ l, p.2.Enabled = true ∧
        o ∈ objectsOf (generateService c p.1 p.2 (s.environment p.1)).1 := by
  induction l generalizing n with
  | nil => simp [serviceEntries, emittedObjects]
  | cons svc rest ih =>
    unfold serviceEntries
    cases he : svc.2.Enabled
    · simp only [Bool.false_eq_true, if_false, ih n, List.mem_cons, exists_eq_or_imp, he,
        false_and, false_or]
    · have h := ih (n + 1)
      simp only [emittedObjects] at h
      simp only [if_true, emittedObjects, List.map_cons, List.flatten_cons, List.mem_append, h,
        List.mem_cons, exists_eq_or_imp, he, true_and]

/-- Where an object of the output comes from. -/
theorem mem_emittedObjects_expectedOutput (c : Config) (s : Schedule)
    (hok : (GenerateAll c s).2 = none) (o : Object)
    (ho : o ∈ emittedObjects (expectedOutput c s)) :
    o ∈ objectsOf (generateNamespace c) ∨
    o ∈ objectsOf (generatePVCs c).1 ∨
    (c.CertManager.Enabled = true ∧
      (o = Object.clusterIssuer (chosenClusterIssuer c) ∨
       o = Object.certificate (teleflixCertificate c (certDNSNames c s.certServices)))) ∨
    (∃ p ∈ services c, p.2.Enabled = true ∧
      o ∈ objectsOf (generateService c p.1 p.2 (s.environment p.1)).1) ∨
    o = Object.ingress (builtIngress c s) := by
  unfold expectedOutput at ho
  simp only [emittedObjects_append, List.mem_append] at ho
  rcases ho with ((ho | ho) | ho) | ho
  · simp only [emittedObjects, List.map_cons, List.map_nil, List.flatten_cons,
      List.flatten_nil, List.append_nil, List.mem_append] at ho
    rcases ho with ho | ho
    · exact Or.inl ho
    · exact Or.inr (Or.inl ho)
  · right; right; left
    cases hE : c.CertManager.Enabled
    · rw [hE] at ho
      simp [emittedObjects] at ho
    · have hcm : (generateCertManager c s.certServices).2 = none := by
        rw [GenerateAll_eq] at hok
        by_contra hne
        rw [if_pos ⟨hE, hne⟩] at hok
        exact hne hok
      rw [hE, generateCertManager_ok c s.certServices hcm] at ho
      refine ⟨rfl, ?_⟩
      simp only [if_true, emittedObjects, List.map_cons, List.map_nil, List.flatten_cons,
        List.flatten_nil, List.append_nil] at ho
      split at ho
      · simp only [objectsOf, List.filterMap_cons, List.filterMap_nil, List.mem_cons,
          List.mem_nil_iff, or_false] at ho
        exact ho
      · simp only [objectsOf, List.filterMap_cons, List.filterMap_nil, List.mem_cons,
          List.mem_nil_iff, or_false] at ho
        exact Or.inl ho
  · right; right; right; left
    exact (mem_emittedObjects_serviceEntries c s (services c) 3 o).mp ho
  · right; right; right; right
    split at ho
    · simp only [emittedObjects, List.map_cons, List.map_nil, List.flatten_cons,
        List.flatten_nil, List.append_nil] at ho
      rw [generateIngress_eq] at ho
      split at ho
      · simp [objectsOf] at ho
      · simpa [objectsOf] using ho
    · simp [emittedObjects] at ho

theorem mem_objectsOf_generateService (c : Config) (name : String) (cfg : ServiceConfig)
    (envOrder : List String) (o : Object) :
    o ∈ objectsOf (generateService c name cfg envOrder).1 ↔
      (∃ vol ∈ cfg.Volumes, vol.Size ≠ "" ∧ o = Object.pvc (servicePVC c name vol)) ∨
      o = Object.deployment (createDeployment c name cfg envOrder) ∨
      o = Object.service (createService c name cfg) := by
  rw [objectsOf_generateService]
  simp only [List.mem_append, List.mem_map, List.mem_filter, decide_eq_true_eq, List.mem_cons,
    List.mem_singleton, List.mem_nil_iff, or_false]
  constructor
  · rintro (⟨vol, ⟨hv, hs⟩, rfl⟩ | h)
    · exact Or.inl ⟨vol, hv, hs, rfl⟩
    · exact Or.inr h
  · rintro (⟨vol, hv, hs, rfl⟩ | h)
    · exact Or.inl ⟨vol, ⟨hv, hs⟩, rfl⟩
    · exact Or.inr h

theorem mem_servicesOf (os : List Object) (x : k8s.Service) :
    x ∈ servicesOf os ↔ Object.service x ∈ os := by
  simp only [servicesOf, List.mem_filterMap]
  constructor
  · rintro ⟨o, ho, h⟩
    cases o <;> simp at h
    subst h
    exact ho
  · intro h
    exact ⟨Object.service x, h, rfl⟩

theorem mem_ingressRules (c : Config) (order : List String) (r : k8s.IngressRule)
    (hr : r ∈ ingressRules c order) :
    ∃ p ∈ services c, p.2.Enabled = true ∧ p.2.Exposed = true ∧
      r = ingressRule c p.1 p.2.Port := by
  rw [ingressRules_eq] at hr
  simp only [List.mem_append, List.mem_map, List.mem_filter, Bool.and_eq_true] at hr
  rcases hr with hr | ⟨kv, ⟨hkv, he, hx⟩, rfl⟩
  · split at hr
    · rename_i hJ
      simp only [List.mem_singleton] at hr
      exact ⟨("jellyfin", c.Services.Jellyfin), by simp [services], hJ.1, hJ.2, hr⟩
    · simp at hr
  · have hm := ((GoMap.mem_range _ _ kv).mp hkv).2
    rw [otherServices_get?] at hm
    exact ⟨kv, by rw [services_eq]; exact List.mem_cons_of_mem _ hm, he, hx, rfl⟩

/-- An enabled service has its Service object in the output. -/
theorem service_mem_expectedOutput (c : Config) (s : Schedule) (p : String × ServiceConfig)
    (hp : p ∈ services c) (he : p.2.Enabled = true) :
    Object.service (createService c p.1 p.2) ∈ emittedObjects (expectedOutput c s) := by
  unfold expectedOutput
  simp only [emittedObjects_append, List.mem_append]
  left
  right
  rw [mem_emittedObjects_serviceEntries]
  exact ⟨p, hp, he, (mem_objectsOf_generateService _ _ _ _ _).mpr (Or.inr (Or.inr rfl))⟩

/-- Every Service object of the output is the one of an enabled service. -/
theorem service_of_mem_expectedOutput (c : Config) (s : Schedule)
    (hok : (GenerateAll c s).2 = none) (svc : k8s.Service)
    (h : Object.service svc ∈ emittedObjects (expectedOutput c s)) :
    ∃ p ∈ services c, p.2.Enabled = true ∧ svc = createService c p.1 p.2 := by
  rcases mem_emittedObjects_expectedOutput c s hok _ h with h | h | h | h | h
  · simp [generateNamespace, objectsOf] at h
  · simp [generatePVCs, objectsOf] at h
  · rcases h.2 with h | h <;> simp at h
  · obtain ⟨p, hp, he, ho⟩ := h
    rw [mem_objectsOf_generateService] at ho
    rcases ho with ⟨vol, -, -, ho⟩ | ho | ho
    · simp at ho
    · simp at ho
    · simp only [Object.service.injEq] at ho
      exact ⟨p, hp, he, ho⟩
  · simp at h

/-- C24. For every rule of every Ingress of a mapping returned by
`GenerateAll` there is a service of the configuration, enabled (and
exposed), such that: the host of the rule is `<name>.<Domain>`; the rule has
exactly one path, `/` of type `Prefix`, whose backend is the service name
with the configured port of that service; a Service object with that name is
in the same output; and every Service object of the output with that name
has that port as its only port. -/
theorem C24_ingress_rule_backends (c : Config) (s : Schedule) (out : ManifestMap)
    (h : (GenerateAll c s).1 = some out)
    (ing : k8s.Ingress) (hi : ing ∈ ingressesOf (emittedObjects out))
    (r : k8s.IngressRule) (hr : r ∈ ing.Spec.Rules) :
    ∃ p ∈ services c, p.2.Enabled = true ∧ p.2.Exposed = true ∧
      r.Host = p.1 ++ "." ++ c.Domain ∧
      r.IngressRuleValue.HTTP = some
        { Paths :=
            [ { Path := "/"
                PathType := some "Prefix"
                Backend :=
                  { Service := some { Name := p.1, Port := { Number := p.2.Port } } } } ] } ∧
      ruleBackends r = [{ Name := p.1, Port := { Number := p.2.Port } }] ∧
      (∃ svc ∈ servicesOf (emittedObjects out), svc.ObjectMeta.Name = p.1) ∧
      (∀ svc ∈ servicesOf (emittedObjects out), svc.ObjectMeta.Name = p.1 →
        svc.Spec.Ports.map (fun x => x.Port) = [p.2.Port] ∧
        svc.Spec.Ports.map (fun x => x.TargetPort) = [p.2.Port]) := by
  obtain ⟨rfl, hok⟩ := GenerateAll_of_some c s out h
  rw [ingressesOf_expectedOutput] at hi
  split at hi
  swap
  · simp at hi
  simp only [List.mem_singleton] at hi
  subst hi
  obtain ⟨p, hp, he, hx, rfl⟩ := mem_ingressRules c s.ingressServices r hr
  refine ⟨p, hp, he, hx, rfl, rfl, rfl, ?_, ?_⟩
  · exact ⟨createService c p.1 p.2,
      (mem_servicesOf _ _).mpr (service_mem_expectedOutput c s p hp he), rfl⟩
  · intro svc hsvc hname
    obtain ⟨q, hq, -, rfl⟩ :=
      service_of_mem_expectedOutput c s hok svc ((mem_servicesOf _ _).mp hsvc)
    have hqp : q = p := services_name_inj c q p hq hp hname
    subst hqp
    exact ⟨rfl, rfl⟩

theorem C24_ingress_rule_backends_witness :
    (GenerateAll configTLS (Schedule.canonical configTLS)).1 =
      some (expectedOutput configTLS (Schedule.canonical configTLS)) ∧
    builtIngress configTLS (Schedule.canonical configTLS) ∈
      ingressesOf (emittedObjects (expectedOutput configTLS (Schedule.canonical configTLS))) ∧
    ingressRule configTLS "sonarr" 8989 ∈
      (builtIngress configTLS (Schedule.canonical configTLS)).Spec.Rules ∧
    ∃ p ∈ services configTLS, p.2.Enabled = true ∧ p.2.Exposed = true ∧
      (ingressRule configTLS "sonarr" 8989).Host = p.1 ++ "." ++ configTLS.Domain ∧
      (ingressRule configTLS "sonarr" 8989).IngressRuleValue.HTTP = some
        { Paths :=
            [ { Path := "/"
                PathType := some "Prefix"
                Backend :=
                  { Service := some { Name := p.1, Port := { Number := p.2.Port } } } } ] } ∧
      ruleBackends (ingressRule configTLS "sonarr" 8989) =
        [{ Name := p.1, Port := { Number := p.2.Port } }] ∧
      (∃ svc ∈ servicesOf (emittedObjects
          (expectedOutput configTLS (Schedule.canonical configTLS))),
        svc.ObjectMeta.Name = p.1) ∧
      (∀ svc ∈ servicesOf (emittedObjects
          (expectedOutput configTLS (Schedule.canonical configTLS))),
        svc.ObjectMeta.Name = p.1 →
        svc.Spec.Ports.map (fun x => x.Port) = [p.2.Port] ∧
        svc.Spec.Ports.map (fun x => x.TargetPort) = [p.2.Port]) :=
  ⟨rfl, by decide, by decide,
    C24_ingress_rule_backends configTLS (Schedule.canonical configTLS)
      (expectedOutput configTLS (Schedule.canonical configTLS)) rfl
      (builtIngress configTLS (Schedule.canonical configTLS)) (by decide)
      (ingressRule configTLS "sonarr" 8989) (by decide)⟩

theorem expectedOutput_get?_namespace (c : Config) (s : Schedule) :
    (expectedOutput c s).get? "00-namespace" = some (generateNamespace c) := by
  unfold expectedOutput
  simp [GoMap.get?]

theorem mem_namespacesOf (os : List Object) (x : k8s.Namespace) :
    x ∈ namespacesOf os ↔ Object.ns x ∈ os := by
  simp only [namespacesOf, List.mem_filterMap]
  constructor
  · rintro ⟨o, ho, h⟩
    cases o <;> simp at h
    subst h
    exact ho
  · intro h
    exact ⟨Object.ns x, h, rfl⟩

theorem mem_clusterIssuersOf (os : List Object) (x : k8s.ClusterIssuer) :
    x ∈ clusterIssuersOf os ↔ Object.clusterIssuer x ∈ os := by
  simp only [clusterIssuersOf, List.mem_filterMap]
  constructor
  · rintro ⟨o, ho, h⟩
    cases o <;> simp at h
    subst h
    exact ho
  · intro h
    exact ⟨Object.clusterIssuer x, h, rfl⟩

theorem chosenClusterIssuer_namespace (c : Config) :
    (chosenClusterIssuer c).ObjectMeta.Namespace = "" := by
  unfold chosenClusterIssuer
  split <;> rfl

/-- C26. In every mapping returned by `GenerateAll`: every object of a
namespaced kind (PersistentVolumeClaim, Deployment, Service, Certificate,
Ingress) has `metadata.namespace` equal to the configured namespace; the
text under `00-namespace` is one Namespace object whose name is the
configured namespace, and it is the only Namespace object of the output;
and every ClusterIssuer has an empty `metadata.namespace`. -/
theorem C26_namespaces (c : Config) (s : Schedule) (out : ManifestMap)
    (h : (GenerateAll c s).1 = some out) :
    (∀ o ∈ emittedObjects out, isNamespaced o = true → objectNamespace o = c.Namespace) ∧
    (∃ nsObject : k8s.Namespace,
      out.get? "00-namespace" = some [Piece.yaml (Object.ns nsObject)] ∧
      nsObject.ObjectMeta.Name = c.Namespace ∧
      nsObject ∈ namespacesOf (emittedObjects out) ∧
      ∀ x ∈ namespacesOf (emittedObjects out), x = nsObject) ∧
    (∀ ci ∈ clusterIssuersOf (emittedObjects out), ci.ObjectMeta.Namespace = "") := by
  obtain ⟨rfl, hok⟩ := GenerateAll_of_some c s out h
  have hmem := mem_emittedObjects_expectedOutput c s hok
  refine ⟨?_, ?_, ?_⟩
  · intro o ho hn
    rcases hmem o ho with h | h | h | h | h
    · simp only [generateNamespace, objectsOf, List.filterMap_cons, List.filterMap_nil,
        List.mem_singleton] at h
      subst h
      simp [isNamespaced] at hn
    · simp only [generatePVCs, objectsOf, List.nil_append, List.filterMap_cons,
        List.filterMap_nil, List.mem_cons, List.mem_nil_iff, or_false] at h
      rcases h with rfl | rfl <;> rfl
    · rcases h.2 with rfl | rfl
      · simp [isNamespaced] at hn
      · rfl
    · obtain ⟨p, -, -, ho⟩ := h
      rw [mem_objectsOf_generateService] at ho
      rcases ho with ⟨vol, -, -, rfl⟩ | rfl | rfl <;> rfl
    · subst h
      rfl
  · refine ⟨{ TypeMeta := { APIVersion := "v1", Kind := "Namespace" }
              ObjectMeta := { Name := c.Namespace } }, ?_, rfl, ?_, ?_⟩
    · rw [expectedOutput_get?_namespace]
      rfl
    · rw [mem_namespacesOf]
      unfold expectedOutput
      simp only [emittedObjects_append, List.mem_append]
      left; left; left
      simp [emittedObjects, generateNamespace, objectsOf]
    · intro x hx
      rw [mem_namespacesOf] at hx
      rcases hmem _ hx with h | h | h | h | h
      · simpa [generateNamespace, objectsOf] using h
      · simp [generatePVCs, objectsOf] at h
      · rcases h.2 with h | h <;> simp at h
      · obtain ⟨p, -, -, ho⟩ := h
        rw [mem_objectsOf_generateService] at ho
        rcases ho with ⟨vol, -, -, ho⟩ | ho | ho <;> simp at ho
      · simp at h
  · intro ci hci
    rw [mem_clusterIssuersOf] at hci
    rcases hmem _ hci with h | h | h | h | h
    · simp [generateNamespace, objectsOf] at h
    · simp [generatePVCs, objectsOf] at h
    · rcases h.2 with h | h
      · simp only [Object.clusterIssuer.injEq] at h
        subst h
        exact chosenClusterIssuer_namespace c
      · simp at h
    · obtain ⟨p, -, -, ho⟩ := h
      rw [mem_objectsOf_generateService] at ho
      rcases ho with ⟨vol, -, -, ho⟩ | ho | ho <;> simp at ho
    · simp at h

theorem C26_namespaces_witness :
    (GenerateAll configTLS (Schedule.canonical configTLS)).1 =
      some (expectedOutput configTLS (Schedule.canonical configTLS)) ∧
    (emittedObjects (expectedOutput configTLS (Schedule.canonical configTLS))).length = 21 ∧
    ((emittedObjects (expectedOutput configTLS (Schedule.canonical configTLS))).filter
      isNamespaced).map objectNamespace = List.replicate 19 "teleflix" ∧
    (∀ o ∈ emittedObjects (expectedOutput configTLS (Schedule.canonical configTLS)),
      isNamespaced o = true → objectNamespace o = configTLS.Namespace) :=
  ⟨rfl, rfl, rfl,
    (C26_namespaces configTLS (Schedule.canonical configTLS)
      (expectedOutput configTLS (Schedule.canonical configTLS)) rfl).1⟩

end Teleflix
